import Mathlib

/-!
Filter-query parser of the search repository.

Shallow embedding of `search/search_repository.go` (package `search`): the
decoding of a JSON filter into a `Query` tree (`parseMap`, `parseArray`), the
lowering of a `Query` to a criteria expression (`generateExpression`) and the
entry point `parseFilterString`.

Conventions of the embedding.

* A Go `map[string]interface{}` is given as the list of its entries in the
  order in which the `range` loop visits them (Go leaves that order
  unspecified, so statements about maps quantify over the order).
* A Go slice value is a `List`; assigning a slice copies its header, so the
  copy does not see elements appended later through a reallocating `append`.
* A run-time panic is the `error` side of `Except Panic`.
* The nil interface value of `criteria.Expression` is `Expression.nil`.
-/

namespace Criteria

/-- Modelled from the spec: the Go values wrapped by `criteria.Literal` in this
repository (strings, integers, booleans, string slices); the `criteria` package
itself is not part of the sources at hand. -/
inductive LiteralValue where
  | str (s : String)
  | int (n : Int)
  | bool (b : Bool)
  | strs (xs : List String)
  deriving DecidableEq, Repr

/-- Modelled from the spec: the expression tree of package `criteria`, an
immutable tagged union with leaves `Field` and `Literal` and combinators
`Equals`, `Not`, `And`, `Or`, `IsNull`, `Substring`.  `criteria.Expression` is
a Go interface type, whose nil value is the constructor `nil`. -/
inductive Expression where
  | nil
  | Field (name : String)
  | Literal (value : LiteralValue)
  | Equals (left right : Expression)
  | Not (left right : Expression)
  | And (left right : Expression)
  | Or (left right : Expression)
  | IsNull (name : String)
  | Substring (left right : Expression)
  deriving DecidableEq, Repr

/-- Test `e == nil` on an interface value. -/
def Expression.isNil : Expression → Bool
  | .nil => true
  | _ => false

/-- Literal values of an expression, read left to right: the order in which a
compiler walking the tree left-then-right appends its parameters. -/
def Expression.literals : Expression → List LiteralValue
  | .nil => []
  | .Field _ => []
  | .Literal v => [v]
  | .Equals l r => l.literals ++ r.literals
  | .Not l r => l.literals ++ r.literals
  | .And l r => l.literals ++ r.literals
  | .Or l r => l.literals ++ r.literals
  | .IsNull _ => []
  | .Substring l r => l.literals ++ r.literals

end Criteria

namespace Search

open Criteria

/-- Value decoded by `encoding/json` into an `interface{}`: `nil`, `bool`,
`float64` (kept as the text of the numeral, which the parser never inspects),
`string`, `[]interface{}` and `map[string]interface{}` (entries in visiting
order). -/
inductive JSONValue where
  | null
  | bool (b : Bool)
  | number (numeral : String)
  | str (s : String)
  | array (elems : List JSONValue)
  | object (entries : List (String × JSONValue))

def Q_AND : String := "$AND"
def Q_OR : String := "$OR"
def Q_NOT : String := "$NOT"

/-- Query represents the tree structure of the filter query.  `Value` is the
Go `*string`: `none` is the nil pointer. -/
inductive Query where
  | mk (Name : String) (Value : Option String) (Negate : Bool) (Children : List Query)
  deriving Repr

def Query.Name : Query → String
  | .mk n _ _ _ => n

def Query.Value : Query → Option String
  | .mk _ v _ _ => v

def Query.Negate : Query → Bool
  | .mk _ _ b _ => b

def Query.Children : Query → List Query
  | .mk _ _ _ cs => cs

/-- The zero value `Query{}`. -/
def Query.zero : Query := .mk "" none false []

/-- Assignment `q.Name = key`. -/
def Query.setName (q : Query) (key : String) : Query :=
  .mk key q.Value q.Negate q.Children

/-- Assignment `q.Value = &s`. -/
def Query.setValue (q : Query) (s : String) : Query :=
  .mk q.Name (some s) q.Negate q.Children

/-- Assignment `q.Negate = s`. -/
def Query.setNegate (q : Query) (s : Bool) : Query :=
  .mk q.Name q.Value s q.Children

/-- Assignment `q.Children = l` (copies the slice header of `l`). -/
def Query.setChildren (q : Query) (l : List Query) : Query :=
  .mk q.Name q.Value q.Negate l

mutual
/-- The function `parseMap(queryMap, q)`: the first argument is the map in
visiting order, the second the state of `*q` on entry, the result the state of
`*q` on return.

In the array case the local `l := []Query{}` has capacity 0 and its header is
copied into `q.Children` before `parseArray` runs; every `append` inside
`parseArray` reallocates and updates only `l`, which `parseMap` never reads
again. -/
def parseMap : List (String × JSONValue) → Query → Query
  | [], q => q
  | (key, .array anArray) :: rest, q =>
      let q1 := q.setName key
      let l : List Query := []
      let q2 := q1.setChildren l
      let _l := parseArray anArray l
      parseMap rest q2
  | (key, .str concreteVal) :: rest, q =>
      let q1 := q.setName key
      let s := concreteVal
      parseMap rest (q1.setValue s)
  | (_, .bool concreteVal) :: rest, q =>
      let s := concreteVal
      parseMap rest (q.setNegate s)
  | (_, .null) :: rest, q => parseMap rest q
  | (_, .number _) :: rest, q => parseMap rest q
  | (_, .object _) :: rest, q => parseMap rest q
/-- The function `parseArray(anArray, l)`: the second argument is the state of
`*l` on entry, the result the state of `*l` on return.  For a map element the
zero `q` is appended (by value) before `parseMap` fills the local `q`, which
is then dropped. -/
def parseArray : List JSONValue → List Query → List Query
  | [], l => l
  | .object o :: rest, l =>
      let q := Query.zero
      let l1 := l ++ [q]
      let _q := parseMap o q
      parseArray rest l1
  | .null :: rest, l => parseArray rest l
  | .bool _ :: rest, l => parseArray rest l
  | .number _ :: rest, l => parseArray rest l
  | .str _ :: rest, l => parseArray rest l
  | .array _ :: rest, l => parseArray rest l
end

def isOperator (str : String) : Bool :=
  str == Q_AND || str == Q_OR

/-- Run-time panics of the embedded code. -/
inductive Panic where
  | nilPointerDereference
  | indexOutOfRange
  deriving DecidableEq, Repr

/-- Expression appended for a non-operator node with value `v`:
`criteria.Not(left, right)` when negated, else `criteria.Equals(left, right)`,
with `left := criteria.Field(name)` and `right := criteria.Literal(v)`. -/
def leafExpression (name : String) (v : String) (negate : Bool) : Expression :=
  let left := Expression.Field name
  let right := Expression.Literal (.str v)
  if negate then Expression.Not left right else Expression.Equals left right

/-- Loop of the `case Q_AND` branch, started with the current `res`. -/
def foldAnd : List Expression → Expression → Expression
  | [], res => res
  | expr :: rest, res =>
      foldAnd rest (if res.isNil then expr else Expression.And res expr)

/-- Loop of the `case Q_OR` branch, started with the current `res`. -/
def foldOr : List Expression → Expression → Expression
  | [], res => res
  | expr :: rest, res =>
      foldOr rest (if res.isNil then expr else Expression.Or res expr)

/-- Loop of the `default` branch, started with the current `res`. -/
def foldDefault : List Expression → Expression → Expression
  | [], res => res
  | expr :: rest, res =>
      foldDefault rest (if res.isNil then expr else res)

/-- The `switch currentOperator` at the end of `generateExpression`, with
`var res criteria.Expression` starting as nil. -/
def combine (currentOperator : String) (myexpr : List Expression) : Expression :=
  if currentOperator = Q_AND then foldAnd myexpr Expression.nil
  else if currentOperator = Q_OR then foldOr myexpr Expression.nil
  else foldDefault myexpr Expression.nil

mutual
/-- The method `Query.generateExpression`. -/
def Query.generateExpression : Query → Except Panic Expression
  | .mk name value negate children =>
      let currentOperator := name
      let first : Except Panic (List Expression) :=
        if !isOperator currentOperator then
          match value with
          | none => .error Panic.nilPointerDereference
          | some v => .ok ([] ++ [leafExpression name v negate])
        else .ok []
      match first with
      | .error p => .error p
      | .ok myexpr0 =>
          match childExpressions children myexpr0 with
          | .error p => .error p
          | .ok myexpr => .ok (combine currentOperator myexpr)
/-- The loop `for _, child := range q.Children` of `generateExpression`: the
second argument is `myexpr` on entry, the result `myexpr` after the loop. -/
def childExpressions : List Query → List Expression → Except Panic (List Expression)
  | [], myexpr => .ok myexpr
  | .mk cname cvalue cnegate cchildren :: rest, myexpr =>
      if isOperator cname then
        match Query.generateExpression (.mk cname cvalue cnegate cchildren) with
        | .error p => .error p
        | .ok e => childExpressions rest (myexpr ++ [e])
      else
        match cvalue with
        | some v => childExpressions rest (myexpr ++ [leafExpression cname v cnegate])
        | none => childExpressions rest myexpr
end

/-- Errors returned (not panics) by the embedded code. -/
inductive Error where
  | BadParameter (param : String) (value : String)
  | BadParameterInt (param : String) (value : Int)
  | BadParameterExpression (param : String) (value : Expression)
  deriving DecidableEq, Repr

/-- The function `parseFilterString`.  `unmarshal` stands for
`json.Unmarshal([]byte(raw), &fm)` with `fm` a `map[string]interface{}`:
`none` when it returns an error, else the decoded map in visiting order.  The
result is the Go pair `(criteria.Expression, error)`. -/
def parseFilterString (unmarshal : String → Option (List (String × JSONValue)))
    (rawSearchString : String) : Except Panic (Expression × Option Error) :=
  match unmarshal rawSearchString with
  | none => .ok (Expression.nil, some (Error.BadParameter "expression" rawSearchString))
  | some fm =>
      let q := Query.zero
      let q := parseMap fm q
      match q.generateExpression with
      | .error p => .error p
      | .ok result => .ok (result, none)

/-- A decoder known at one input only: `raw` decodes to the map `fm`, every
other string is rejected. -/
def decodeOnly (raw : String) (fm : List (String × JSONValue)) :
    String → Option (List (String × JSONValue)) :=
  fun s => if s = raw then some fm else none

/-- The clause `e_i` of a non-operator child with a present value:
`Equals(Field name, Literal value)`, or `Not(Field name, Literal value)` when
the child is negated. -/
def Query.leafClause (c : Query) : Expression :=
  match c.Value with
  | some v => leafExpression c.Name v c.Negate
  | none => Expression.nil

mutual
/-- Present values of the non-operator nodes of a query tree, in left-to-right,
depth-first order (a node before its children). -/
def Query.leafValues : Query → List String
  | .mk name value _ children =>
      (if isOperator name then [] else value.toList) ++ leafValuesOfList children
/-- Present values of the non-operator nodes of a forest, tree after tree. -/
def leafValuesOfList : List Query → List String
  | [] => []
  | c :: cs => c.leafValues ++ leafValuesOfList cs
end

mutual
/-- Shape of the filter grammar: only operator nodes have children. -/
def Query.leavesChildless : Query → Bool
  | .mk name _ _ children =>
      (isOperator name || children.isEmpty) && allLeavesChildless children
/-- Every tree of the forest has the shape of the filter grammar. -/
def allLeavesChildless : List Query → Bool
  | [] => true
  | c :: cs => c.leavesChildless && allLeavesChildless cs
end

/-- Literal values of a list of expressions, expression after expression. -/
def literalsOfList : List Expression → List LiteralValue
  | [] => []
  | e :: es => e.literals ++ literalsOfList es

end Search

/-!
Free-text tokenizer, known-URL matcher and pagination of the search repository,
and the table joins of package `workitem`.

Further conventions.

* A Go string is a `String`; the functions of the Go package `strings` that
  the code calls are defined on the list of its characters.
* Library functions that are not simple text functions (`url.QueryUnescape`,
  `govalidator.IsURL`, `strings.ToLower`, `uuid.FromString`, the `regexp`
  engine) are parameters: the record `Externals` and the field
  `KnownURL.compiledRegex`.
* The registry `knownURLs` is a Go map, given as the list of its entries in
  visiting order.
-/

namespace Strings

/-- The function `strings.HasPrefix`. -/
def HasPrefix (s pfx : String) : Bool :=
  pfx.data.isPrefixOf s.data

/-- The function `strings.TrimPrefix`. -/
def TrimPrefix (s pfx : String) : String :=
  if HasPrefix s pfx then String.mk (s.data.drop pfx.data.length) else s

/-- The function `strings.Trim`: leading and trailing characters contained in
`cutset` are removed. -/
def Trim (s cutset : String) : String :=
  String.mk
    ((s.data.dropWhile fun c => cutset.data.contains c).reverse.dropWhile
      fun c => cutset.data.contains c).reverse

/-- The function `unicode.IsSpace` (the Unicode White_Space property). -/
def IsSpace (c : Char) : Bool :=
  let n := c.toNat
  n == 0x09 || n == 0x0A || n == 0x0B || n == 0x0C || n == 0x0D || n == 0x20
    || n == 0x85 || n == 0xA0 || n == 0x1680 || (0x2000 ≤ n && n ≤ 0x200A)
    || n == 0x2028 || n == 0x2029 || n == 0x202F || n == 0x205F || n == 0x3000

/-- Loop of `strings.Fields`: `cur` is the field being read. -/
def fieldsLoop : List Char → List Char → List String
  | [], cur => if cur.isEmpty then [] else [String.mk cur]
  | c :: cs, cur =>
      if IsSpace c then
        if cur.isEmpty then fieldsLoop cs [] else String.mk cur :: fieldsLoop cs []
      else fieldsLoop cs (cur ++ [c])

/-- The function `strings.Fields`: the maximal runs of non-space characters. -/
def Fields (s : String) : List String :=
  fieldsLoop s.data []

/-- The function `strings.Join`. -/
def Join : List String → String → String
  | [], _ => ""
  | [a], _ => a
  | a :: b :: rest, sep => a ++ sep ++ Join (b :: rest) sep

/-- The call `strings.Replace(s, old, new, -1)` for a one-character `old`:
every occurrence of `old` is replaced by `new`. -/
def Replace (s : String) (old : Char) (new : String) : String :=
  String.mk (s.data.flatMap fun c => if c = old then new.data else [c])

end Strings

namespace Search

/-- A `uuid.UUID` value (an array of bytes). -/
structure UUID where
  bytes : List Nat
  deriving DecidableEq, Repr

/-- searchKeyword defines how a decomposed raw search query will look like. -/
structure searchKeyword where
  workItemTypes : List UUID
  number : List String
  words : List String
  deriving DecidableEq, Repr

/-- KnownURL has a regex string format URL and the compiled regex for the
same.  `compiledRegex` is the method `FindStringSubmatch` of the compiled
`*regexp.Regexp`: the empty list is the nil slice of a failed match, otherwise
the whole match is followed by one entry per capture group.  Every value stored
in `knownURLs` is built by `RegisterAsKnownURL`, whose `compiledRegex` is never
nil. -/
structure KnownURL where
  URLRegex : String
  compiledRegex : String → List String
  groupNamesInRegex : List String

/-- Loop of `isKnownURL` over the registry in visiting order, from the current
`mostReleventMatchCount` and `mostReleventMatchName`. -/
def isKnownURLLoop : List (String × KnownURL) → String → Nat → String → Nat × String
  | [], _, mostReleventMatchCount, mostReleventMatchName =>
      (mostReleventMatchCount, mostReleventMatchName)
  | (name, known) :: rest, url, mostReleventMatchCount, mostReleventMatchName =>
      let submatch := known.compiledRegex url
      if submatch.length > mostReleventMatchCount then
        isKnownURLLoop rest url submatch.length name
      else
        isKnownURLLoop rest url mostReleventMatchCount mostReleventMatchName

/-- The function `isKnownURL`. -/
def isKnownURL (knownURLs : List (String × KnownURL)) (url : String) : Bool × String :=
  let mostReleventMatchName := (isKnownURLLoop knownURLs url 0 "").2
  if mostReleventMatchName = "" then (false, "") else (true, mostReleventMatchName)

def trimProtocolFromURLString (urlString : String) : String :=
  let urlString := Strings.TrimPrefix urlString "http://"
  let urlString := Strings.TrimPrefix urlString "https://"
  urlString

/-- The replacer `strings.NewReplacer(":", "\\:", "(", "\\(", ")", "\\)")`
applied to one character. -/
def escapeChar (c : Char) : List Char :=
  if c = ':' then ['\\', ':']
  else if c = '(' then ['\\', '(']
  else if c = ')' then ['\\', ')']
  else [c]

def escapeCharFromURLString (urlString : String) : String :=
  String.mk (urlString.data.flatMap escapeChar)

/-- The function `sanitizeURL`: trims the protocol and escapes. -/
def sanitizeURL (urlString : String) : String :=
  let trimmedURL := trimProtocolFromURLString urlString
  escapeCharFromURLString trimmedURL

/-- Read `result[name]` of the Go map `result`, given as the list of its
assignments, latest first; a missing key reads as the empty string. -/
def mapGet (result : List (String × String)) (name : String) : String :=
  (result.lookup name).getD ""

/-- Loop `for i, name := range pattern.groupNamesInRegex` of
`getSearchQueryFromURLPattern`, from index `i` and the current `result`. -/
def groupResultLoop : List String → Nat → List String → List (String × String) →
    List (String × String)
  | [], _, _, result => result
  | name :: names, i, submatch, result =>
      if i = 0 then groupResultLoop names (i + 1) submatch result
      else if (i : Int) > (submatch.length : Int) - 1 then
        groupResultLoop names (i + 1) submatch ((name, "") :: result)
      else
        groupResultLoop names (i + 1) submatch ((name, submatch.getD i "") :: result)

/-- The function `getSearchQueryFromURLPattern`.  A pattern name missing from
`knownURLs` reads as the zero `KnownURL`, whose nil `compiledRegex` cannot be
called; `match[0]` of an empty match is out of range. -/
def getSearchQueryFromURLPattern (knownURLs : List (String × KnownURL))
    (patternName stringToMatch : String) : Except Panic String :=
  match knownURLs.lookup patternName with
  | none => .error Panic.nilPointerDereference
  | some pattern =>
      let submatch := pattern.compiledRegex stringToMatch
      let result := groupResultLoop pattern.groupNamesInRegex 0 submatch []
      if submatch.length > 1 then
        let searchQueryString := Strings.Join (submatch.drop 1) ""
        let searchQueryString := Strings.Replace searchQueryString ':' "\\:"
        let searchQueryString := searchQueryString ++ ":*"
        if mapGet result "id" ≠ "" then
          .ok ("(" ++ mapGet result "id" ++ ":* | " ++ searchQueryString ++ ")")
        else .ok searchQueryString
      else
        match submatch with
        | [] => .error Panic.indexOutOfRange
        | m0 :: _ => .ok (m0 ++ ":*")

/-- The function `getSearchQueryFromURLString`. -/
def getSearchQueryFromURLString (knownURLs : List (String × KnownURL)) (url : String) :
    Except Panic String :=
  let (known, patternName) := isKnownURL knownURLs url
  if known then getSearchQueryFromURLPattern knownURLs patternName url
  else .ok (sanitizeURL url ++ ":*")

end Search

namespace Search

open Criteria

/-- Library functions called by `parseSearchString`.

* `QueryUnescape` is `url.QueryUnescape`: `none` when it returns an error, in
  which case the string it returns is empty.
* `IsURL` is `govalidator.IsURL`.
* `ToLower` is `strings.ToLower`.
* `FromString` is `uuid.FromString`: `none` when it returns an error. -/
structure Externals where
  QueryUnescape : String → Option String
  IsURL : String → Bool
  ToLower : String → String
  FromString : String → Option UUID

/-- The value of the inner `part` after `part, err := url.QueryUnescape(part)`:
the decoded text, or the empty string that comes with an error (the error is
only logged). -/
def unescapedPart (env : Externals) (part : String) : String :=
  match env.QueryUnescape part with
  | some decoded => decoded
  | none => ""

/-- Loop `for _, part := range parts` of `parseSearchString`, from the current
`res`; the result is the Go pair `(searchKeyword, error)`. -/
def parseSearchStringLoop (env : Externals) (knownURLs : List (String × KnownURL)) :
    List String → searchKeyword → Except Panic (searchKeyword × Option Error)
  | [], res => .ok (res, none)
  | rawPart :: rest, res =>
      let part := unescapedPart env rawPart
      if Strings.HasPrefix part "number:" then
        parseSearchStringLoop env knownURLs rest
          { res with number := res.number ++ [Strings.TrimPrefix part "number:" ++ ":*A"] }
      else if Strings.HasPrefix part "type:" then
        let typeIDStr := Strings.TrimPrefix part "type:"
        if typeIDStr.length = 0 then
          .ok (res, some (Error.BadParameter "Type ID must not be empty" part))
        else
          match env.FromString typeIDStr with
          | none =>
              .ok (res, some (Error.BadParameter "failed to parse type ID string as UUID"
                typeIDStr))
          | some typeID =>
              parseSearchStringLoop env knownURLs rest
                { res with workItemTypes := res.workItemTypes ++ [typeID] }
      else if env.IsURL part then
        let part := env.ToLower part
        let part := trimProtocolFromURLString part
        match getSearchQueryFromURLString knownURLs part with
        | .error p => .error p
        | .ok searchQueryFromURL =>
            parseSearchStringLoop env knownURLs rest
              { res with words := res.words ++ [searchQueryFromURL] }
      else
        let part := env.ToLower part
        let part := sanitizeURL part
        parseSearchStringLoop env knownURLs rest
          { res with words := res.words ++ [part ++ ":*"] }

/-- The tokens `parts` that `parseSearchString` loops over. -/
def searchParts (rawSearchString : String) : List String :=
  let rawSearchString := Strings.Trim rawSearchString "/"
  let rawSearchString := Strings.Trim rawSearchString "\""
  Strings.Fields rawSearchString

/-- The function `parseSearchString`: accepts a raw string and generates a
searchKeyword object. -/
def parseSearchString (env : Externals) (knownURLs : List (String × KnownURL))
    (rawSearchString : String) : Except Panic (searchKeyword × Option Error) :=
  let parts := searchParts rawSearchString
  let res : searchKeyword := { workItemTypes := [], number := [], words := [] }
  parseSearchStringLoop env knownURLs parts res

/-- The function `generateSQLSearchInfo`. -/
def generateSQLSearchInfo (keywords : searchKeyword) : String :=
  let numberStr := Strings.Join keywords.number " & "
  let wordStr := Strings.Join keywords.words " & "
  let fragments : List String :=
    [numberStr, wordStr].foldl
      (fun fragments v => if v ≠ "" then fragments ++ [v] else fragments) []
  let searchStr := Strings.Join fragments " & "
  searchStr

/-- Rows delivered by `db.Rows()` for a query whose predicate selects the
ordered rows `matching`, after `db.Offset` and `db.Limit` when they were
called. -/
def pageRows {Row : Type} (matching : List Row) (offset limit : Option Nat) : List Row :=
  let afterOffset := match offset with
    | none => matching
    | some o => matching.drop o
  match limit with
  | none => afterOffset
  | some l => afterOffset.take l

/-- The block `if start != nil` of `search` and of `listItemsFromDB`: a
BadParameter error for a negative start, else the offset set on the query
(`none` when `db.Offset` is not called). -/
def checkStart (start : Option Int) : Except Error (Option Nat) :=
  match start with
  | none => .ok none
  | some s =>
      if s < 0 then .error (Error.BadParameterInt "start" s)
      else .ok (some s.toNat)

/-- The block `if limit != nil` of `search` and of `listItemsFromDB`: a
BadParameter error for a limit that is not positive, else the limit set on the
query (`none` when `db.Limit` is not called). -/
def checkLimit (limit : Option Int) : Except Error (Option Nat) :=
  match limit with
  | none => .ok none
  | some l =>
      if l ≤ 0 then .error (Error.BadParameterInt "limit" l)
      else .ok (some l.toNat)

/-- The method `GormSearchRepository.search`, with the store given as the
ordered list `matching` of the rows that satisfy the query (full-text match,
type and space restrictions) and a database that does not fail.  The window
column `count(*) over ()` of every delivered row is the number of all matching
rows; it is read from the first row, and `count` is set to 0 when no row is
delivered.  The result is the Go triple `(rows, count, error)`. -/
def search {Row : Type} (matching : List Row) (start limit : Option Int) :
    List Row × Nat × Option Error :=
  match checkStart start with
  | .error e => ([], 0, some e)
  | .ok offset =>
      match checkLimit limit with
      | .error e => ([], 0, some e)
      | .ok lim =>
          let result := pageRows matching offset lim
          let count := if result.isEmpty then 0 else matching.length
          (result, count, none)

/-- The method `GormSearchRepository.listItemsFromDB`.  `Compile` is
`workitem.Compile`: `.error` stands for a non-nil `compileError`, `.ok` carries
the where clause and its parameters.  `table` gives the ordered rows that
satisfy a where clause with its parameters; the database does not fail.  When
no row is delivered the count is read from a second query, `count(*)` over the
same predicate without offset and limit. -/
def listItemsFromDB {Row : Type}
    (Compile : Expression → Except (List String) (String × List LiteralValue))
    (table : String → List LiteralValue → List Row)
    (criteria : Expression) (start limit : Option Int) :
    List Row × Nat × Option Error :=
  match Compile criteria with
  | .error _ => ([], 0, some (Error.BadParameterExpression "expression" criteria))
  | .ok (whereClause, parameters) =>
      let matching := table whereClause parameters
      match checkStart start with
      | .error e => ([], 0, some e)
      | .ok offset =>
          match checkLimit limit with
          | .error e => ([], 0, some e)
          | .ok lim =>
              let result := pageRows matching offset lim
              let count := if result.isEmpty then matching.length else matching.length
              (result, count, none)

end Search

namespace Workitem

/-- A TableJoin helps to construct a query with a join; see `table_join.go`.
The field `onClause` is the Go field `on`. -/
structure TableJoin where
  active : Bool
  tableName : String
  tableAlias : String
  onClause : String
  prefixActivators : List String
  allowedColumns : List String
  disallowedColumns : List String
  handledFields : List String
  deriving DecidableEq, Repr

/-- Loop `for _, t := range j.prefixActivators` of `HandlesFieldName`. -/
def handlesFieldNameLoop : List String → String → Bool
  | [], _ => false
  | t :: rest, fieldName =>
      if Strings.HasPrefix fieldName t then true else handlesFieldNameLoop rest fieldName

/-- The method `(j *TableJoin) HandlesFieldName`: the returned value and the
state of `*j` on return. -/
def TableJoin.HandlesFieldName (j : TableJoin) (fieldName : String) : Bool × TableJoin :=
  (handlesFieldNameLoop j.prefixActivators fieldName, j)

end Workitem

namespace Search

/-- Value of a hexadecimal digit. -/
def unhex (c : Char) : Option Nat :=
  if '0' ≤ c ∧ c ≤ '9' then some (c.toNat - '0'.toNat)
  else if 'a' ≤ c ∧ c ≤ 'f' then some (c.toNat - 'a'.toNat + 10)
  else if 'A' ≤ c ∧ c ≤ 'F' then some (c.toNat - 'A'.toNat + 10)
  else none

/-- Percent-decoding of a query component: `+` is a blank, `%XY` the character
with code `XY`, and a `%` that is not followed by two hexadecimal digits is an
error.  It agrees with `url.QueryUnescape` on every text whose escapes are
below `%80`. -/
def percentDecode : List Char → Option (List Char)
  | [] => some []
  | '%' :: h1 :: h2 :: rest =>
      match unhex h1, unhex h2, percentDecode rest with
      | some a, some b, some tail => some (Char.ofNat (16 * a + b) :: tail)
      | _, _, _ => none
  | '%' :: _ => none
  | '+' :: rest => (percentDecode rest).map fun tail => ' ' :: tail
  | c :: rest => (percentDecode rest).map fun tail => c :: tail

/-- Bytes made of successive pairs of hexadecimal digit values. -/
def pairBytes : List Nat → List Nat
  | a :: b :: rest => (16 * a + b) :: pairBytes rest
  | _ => []

/-- Bytes of a UUID text in the canonical form of 32 hexadecimal digits with
dashes after the digits 8, 12, 16 and 20; `none` for any other text. -/
def canonicalUUID (s : String) : Option UUID :=
  let cs := s.data
  if cs.length = 36 ∧ cs.getD 8 ' ' = '-' ∧ cs.getD 13 ' ' = '-' ∧ cs.getD 18 ' ' = '-'
      ∧ cs.getD 23 ' ' = '-' ∧ ((cs.filter fun c => c ≠ '-').all fun c => (unhex c).isSome)
      ∧ (cs.filter fun c => c ≠ '-').length = 32 then
    some { bytes := pairBytes ((cs.filter fun c => c ≠ '-').map fun c => (unhex c).getD 0) }
  else none

/-- Concrete library functions for the examples: percent-decoding, ASCII
lower-casing, canonical UUID texts, and as URL-shaped the texts longer than
three characters with an inner dot and no blank.  They agree with the Go
functions on the inputs of the examples. -/
def sampleExternals : Externals where
  QueryUnescape := fun s => (percentDecode s.data).map String.mk
  IsURL := fun s =>
    decide (3 < s.data.length) && s.data.contains '.' && !Strings.HasPrefix s "."
      && !s.data.contains ' '
  ToLower := fun s => String.mk (s.data.map Char.toLower)
  FromString := canonicalUUID

/-- A literal of a regular expression read at the start of a text: every
character stands for itself, except `.`, which stands for any character other
than a line feed. -/
def matchesLiteral : List Char → List Char → Bool
  | [], _ => true
  | _ :: _, [] => false
  | p :: ps, c :: cs => (if p = '.' then c ≠ '\n' else p = c) && matchesLiteral ps cs

/-- The pattern `(?P<domain>demo.almighty.io)(?P<path>PATH)(?P<id>\d*)` read
at the start of a text: whole match, domain, path and the digits that follow. -/
def detailMatchAt (path : String) (s : List Char) : Option (List String) :=
  if matchesLiteral ("demo.almighty.io" ++ path).data s then
    let domain := String.mk (s.take "demo.almighty.io".data.length)
    let found := String.mk ((s.drop "demo.almighty.io".data.length).take path.data.length)
    let digits := String.mk
      ((s.drop ("demo.almighty.io" ++ path).data.length).takeWhile Char.isDigit)
    some [domain ++ found ++ digits, domain, found, digits]
  else none

/-- Search of the leftmost match of the pattern in a text. -/
def detailSearch (path : String) : List Char → List String
  | [] => []
  | c :: cs =>
      match detailMatchAt path (c :: cs) with
      | some submatch => submatch
      | none => detailSearch path cs

/-- Matcher standing for `FindStringSubmatch` of the compiled pattern
`(?P<domain>demo.almighty.io)(?P<path>PATH)(?P<id>\d*)`: the leftmost match
anywhere in the text, with whole match, domain, path and the digits that
follow; no match gives the empty list.  The dots of the domain stand for any
character, as the pattern is written. -/
def detailMatcher (path : String) (s : String) : List String :=
  detailSearch path s.data

/-- The registry after `init`: the two patterns registered by
`RegisterAsKnownURL`, in one visiting order, with `detailMatcher` for the
compiled patterns. -/
def sampleKnownURLs : List (String × KnownURL) :=
  [("test-work-item-list-details",
      { URLRegex := "(?P<domain>demo.almighty.io)(?P<path>/work-item/list/detail/)(?P<id>\\d*)"
        compiledRegex := detailMatcher "/work-item/list/detail/"
        groupNamesInRegex := ["", "domain", "path", "id"] }),
   ("test-work-item-board-details",
      { URLRegex := "(?P<domain>demo.almighty.io)(?P<path>/work-item/board/detail/)(?P<id>\\d*)"
        compiledRegex := detailMatcher "/work-item/board/detail/"
        groupNamesInRegex := ["", "domain", "path", "id"] })]

end Search

namespace Search

/-- The type identifier held by a token that, after URL-decoding, starts with
`type:` (and not with `number:`); `none` for every other token. -/
def typeIDOfToken (env : Externals) (rawPart : String) : Option UUID :=
  let part := unescapedPart env rawPart
  if Strings.HasPrefix part "type:" && !Strings.HasPrefix part "number:" then
    env.FromString (Strings.TrimPrefix part "type:")
  else none

/-- Text captured by the last capture group called `name` among the groups
`names` numbered from `i` on (the whole match, number 0, is not a group); `none`
when no group has that name.  A group beyond the match captured nothing. -/
def lastGroupNamed : List String → Nat → List String → String → Option String
  | [], _, _, _ => none
  | nm :: names, i, submatch, name =>
      match lastGroupNamed names (i + 1) submatch name with
      | some v => some v
      | none => if i ≠ 0 ∧ nm = name then some (submatch.getD i "") else none

/-- Text captured by the group called `name`, empty when there is none. -/
def groupNamed (names : List String) (submatch : List String) (name : String) : String :=
  (lastGroupNamed names 0 submatch name).getD ""

/-- The pagination is invalid: a start is supplied and is negative, or a limit
is supplied and is not positive. -/
def badPagination (start limit : Option Int) : Prop :=
  (∃ s, start = some s ∧ s < 0) ∨ (∃ l, limit = some l ∧ l ≤ 0)

end Search

namespace Strings

/-- The function `strings.TrimSpace`: leading and trailing white space, as
defined by Unicode, is removed. -/
def TrimSpace (s : String) : String :=
  String.mk ((s.data.dropWhile IsSpace).reverse.dropWhile IsSpace).reverse

/-- The call `strings.Contains(s, substr)` for a one-character `substr`. -/
def Contains (s : String) (substr : Char) : Bool :=
  s.data.contains substr

/-- The builtin `len` on a string: its number of bytes. -/
def len (s : String) : Nat :=
  (s.data.map Char.utf8Size).sum

end Strings

namespace Workitem

/-- The single quote character. -/
def singleQuote : Char := Char.ofNat 39

/-- The double quote character. -/
def doubleQuote : Char := Char.ofNat 34

/-- Errors built with `errs.Errorf` in `table_join.go`, one constructor per
message, holding the values formatted into it. -/
inductive JoinError where
  | notHandled (fieldName : String)
  | emptyColumn (fieldName pfx : String)
  | singleQuoteInColumn (col : String)
  | columnNotAllowed (col : String)
  | noColumn (tableName col : String)
  deriving DecidableEq, Repr

/-- The method `(j *TableJoin) Activate`. -/
def TableJoin.Activate (j : TableJoin) : TableJoin :=
  { j with active := true }

/-- The method `(j TableJoin) IsActive`. -/
def TableJoin.IsActive (j : TableJoin) : Bool :=
  j.active

/-- Loop `for _, f := range j.handledFields` of `IsValid`. -/
def isValidLoop (HasColumn : String → String → Bool) (tableName : String) :
    List String → Option JoinError
  | [] => none
  | f :: rest =>
      if !HasColumn tableName f then some (JoinError.noColumn tableName f)
      else isValidLoop HasColumn tableName rest

/-- The method `(j TableJoin) IsValid`; `HasColumn` is `dialect.HasColumn` of
the database, and `none` is the nil error. -/
def TableJoin.IsValid (HasColumn : String → String → Bool) (j : TableJoin) :
    Option JoinError :=
  if j.IsActive then isValidLoop HasColumn j.tableName j.handledFields
  else none

/-- Loop of `TranslateFieldName` that sets `prefix`: every activator that is a
prefix of the field name overwrites the one found before; `pfx` starts as the
empty string. -/
def matchedPrefixLoop : List String → String → String → String
  | [], _, pfx => pfx
  | t :: rest, fieldName, pfx =>
      if Strings.HasPrefix fieldName t then matchedPrefixLoop rest fieldName t
      else matchedPrefixLoop rest fieldName pfx

/-- The method `(j *TableJoin) TranslateFieldName`: the returned Go pair
`(string, error)` and the state of `*j` on return. -/
def TableJoin.TranslateFieldName (j : TableJoin) (fieldName : String) :
    (String × Option JoinError) × TableJoin :=
  if !(j.HandlesFieldName fieldName).1 then
    (("", some (JoinError.notHandled fieldName)), j)
  else
    let j := j.Activate
    let pfx := matchedPrefixLoop j.prefixActivators fieldName ""
    let col := Strings.TrimPrefix fieldName pfx
    let col := Strings.TrimSpace col
    if col = "" then (("", some (JoinError.emptyColumn fieldName pfx)), j)
    else if Strings.Contains col singleQuote then
      (("", some (JoinError.singleQuoteInColumn col)), j)
    else
      let columnIsAllowed := j.allowedColumns.isEmpty
      let columnIsAllowed := if j.allowedColumns.contains col then true else columnIsAllowed
      let columnIsAllowed := if j.disallowedColumns.contains col then false else columnIsAllowed
      if !columnIsAllowed then (("", some (JoinError.columnNotAllowed col)), j)
      else
        ((j.tableAlias ++ "." ++ col, none), { j with handledFields := j.handledFields ++ [col] })

/-- The column part of a field name for a join: the field name with the
matched prefix activator removed and surrounding white space trimmed. -/
def TableJoin.columnPart (j : TableJoin) (fieldName : String) : String :=
  Strings.TrimSpace
    (Strings.TrimPrefix fieldName (matchedPrefixLoop j.prefixActivators fieldName ""))

/-- The field name is handled by the join: one of the prefix activators is a
prefix of it. -/
def TableJoin.handles (j : TableJoin) (fieldName : String) : Bool :=
  (j.HandlesFieldName fieldName).1

/-- A call of one of the two methods on a join. -/
inductive JoinCall where
  | HandlesFieldName (fieldName : String)
  | TranslateFieldName (fieldName : String)
  deriving DecidableEq, Repr

/-- State of the join after a call. -/
def JoinCall.run (j : TableJoin) : JoinCall → TableJoin
  | .HandlesFieldName fieldName => (j.HandlesFieldName fieldName).2
  | .TranslateFieldName fieldName => (j.TranslateFieldName fieldName).2

/-- State of the join after a sequence of calls, first call first. -/
def runCalls (j : TableJoin) (calls : List JoinCall) : TableJoin :=
  calls.foldl JoinCall.run j

/-- The join `iteration` of the examples: alias `iter`, one prefix activator
`iteration.`, no allow or deny list, not yet used. -/
def sampleJoin : TableJoin where
  active := false
  tableName := "iterations"
  tableAlias := "iter"
  onClause := "fields@> concat('\x7b\"system.iteration\": \"', iter.ID, '\"\x7d')::jsonb"
  prefixActivators := ["iteration."]
  allowedColumns := []
  disallowedColumns := []
  handledFields := []

end Workitem

namespace Search

/-- The characters that the replacer of `escapeCharFromURLString` escapes:
`:`, `(` and `)`. -/
def isEscaped (c : Char) : Bool :=
  c = ':' || c = '(' || c = ')'

/-- Replacement of `\:`, `\(` and `\)` by `:`, `(` and `)`, reading the text
from the left and taking up the reading after each replaced pair. -/
def unescapeChars : List Char → List Char
  | [] => []
  | [c] => [c]
  | a :: b :: rest =>
      if a = '\\' ∧ isEscaped b = true then b :: unescapeChars rest
      else a :: unescapeChars (b :: rest)

end Search

namespace Workitem

open Criteria

/-- Modelled from the spec: the structured errors of `workitem.Compile`, whose
source (the expression compiler of package `workitem`) is not at hand.  A field
name with a quote gives an error naming the field and the quote kind; the other
constructors are the join errors, a `Substring` that is not over a document
field, and a nil expression. -/
inductive CompileError where
  | doubleQuotes (fieldName : String)
  | singleQuotes (fieldName : String)
  | join (err : JoinError)
  | substringNotOnDocumentField
  | nilExpression
  deriving DecidableEq, Repr

/-- Modelled from the spec: the text of a compile error for a field name with a
quote, as the tests of the expression compiler read it: the phrase naming the
quote kind, followed by the field name. -/
def CompileError.Error : CompileError → String
  | .doubleQuotes fieldName => "field name must not contain double quotes: " ++ fieldName
  | .singleQuotes fieldName => "field name must not contain single quotes: " ++ fieldName
  | .join _ => "field name not translated by the table join"
  | .substringNotOnDocumentField => "substring is valid for document fields only"
  | .nilExpression => "no expression"

/-- Modelled from the spec: the collaborators of the expression compiler, which
is not at hand.  `physicalColumn` is the schema provider for the fixed set of
physical columns (the emitted column for `ID`, `Type`, `Version`, `Number`,
`SpaceID`), `documentColumn` the emitted JSON document column, `encode` the JSON
encoding of a literal, and `joins` the fresh registry of table joins of one
compilation, in visiting order. -/
structure CompilerConfig where
  physicalColumn : String → Option String
  documentColumn : String
  encode : LiteralValue → String
  joins : List (String × TableJoin)

/-- Modelled from the spec: the state of one compilation, which the expression
compiler (not at hand) builds up: the ordered parameters, the registry of
joins with their activation, and the collected errors. -/
structure CompilerState where
  parameters : List LiteralValue
  joins : List (String × TableJoin)
  err : List CompileError

/-- Modelled from the spec: a resolved field of the expression compiler (not at
hand): a physical or joined column with its emitted text, or a path into the
JSON document column. -/
inductive ResolvedField where
  | column (text : String)
  | document (name : String)

/-- Modelled from the spec: the first registered join of the expression
compiler (not at hand) whose prefix trigger matches the field name. -/
def findJoin : List (String × TableJoin) → String → Option (String × TableJoin)
  | [], _ => none
  | (key, j) :: rest, fieldName =>
      if (j.HandlesFieldName fieldName).1 then some (key, j) else findJoin rest fieldName

/-- Modelled from the spec: replacement of the join registered under `key` in
the registry of the expression compiler (not at hand). -/
def updateJoin (key : String) (j : TableJoin) :
    List (String × TableJoin) → List (String × TableJoin)
  | [] => []
  | (k, old) :: rest =>
      if k = key then (k, j) :: rest else (k, old) :: updateJoin key j rest

/-- Modelled from the spec: field resolution of the expression compiler (not at
hand).  A field name with a double or a single quote is an error, checked
before anything is emitted; then, in priority order: a physical column; a
dotted name whose prefix matches a registered join's trigger, which activates
that join, validates the column and emits `<alias>.<column>`; otherwise a path
into the JSON document column. -/
def resolveField (cfg : CompilerConfig) (fieldName : String) (st : CompilerState) :
    Option ResolvedField × CompilerState :=
  if Strings.Contains fieldName doubleQuote then
    (none, { st with err := st.err ++ [CompileError.doubleQuotes fieldName] })
  else if Strings.Contains fieldName singleQuote then
    (none, { st with err := st.err ++ [CompileError.singleQuotes fieldName] })
  else
    match cfg.physicalColumn fieldName with
    | some col => (some (ResolvedField.column col), st)
    | none =>
        match (if Strings.Contains fieldName '.' then findJoin st.joins fieldName else none) with
        | some (key, j) =>
            match j.TranslateFieldName fieldName with
            | ((_, some e), j') =>
                (none, { st with joins := updateJoin key j' st.joins
                                 err := st.err ++ [CompileError.join e] })
            | ((text, none), j') =>
                (some (ResolvedField.column text),
                  { st with joins := updateJoin key j' st.joins })
        | none => (some (ResolvedField.document fieldName), st)

/-- Modelled from the spec: the operands of a comparison over a JSON document
field in the expression compiler (not at hand): the left operand is a field
without quote that is neither a physical column nor routed through a join, the
right operand a literal. -/
def documentOperands (cfg : CompilerConfig) (joins : List (String × TableJoin)) :
    Expression → Expression → Option (String × LiteralValue)
  | .Field fieldName, .Literal v =>
      if !Strings.Contains fieldName doubleQuote && !Strings.Contains fieldName singleQuote
          && (cfg.physicalColumn fieldName).isNone
          && (if Strings.Contains fieldName '.' then findJoin joins fieldName else none).isNone
      then some (fieldName, v)
      else none
  | _, _ => none

/-- Modelled from the spec: the containment predicate `doc @> {"name": value}`
of the expression compiler (not at hand), with the JSON-encoded literal. -/
def containment (cfg : CompilerConfig) (fieldName : String) (v : LiteralValue) : String :=
  "(" ++ cfg.documentColumn ++ " @> '\x7b\"" ++ fieldName ++ "\" : " ++ cfg.encode v ++ "\x7d')"

/-- Modelled from the spec: the key extraction `doc->>'name'` of the expression
compiler (not at hand). -/
def keyExtraction (cfg : CompilerConfig) (fieldName : String) : String :=
  cfg.documentColumn ++ "->>'" ++ fieldName ++ "'"

/-- Modelled from the spec: the emitted text of a resolved field in the
expression compiler (not at hand). -/
def ResolvedField.text (cfg : CompilerConfig) : ResolvedField → String
  | .column text => text
  | .document fieldName => keyExtraction cfg fieldName

/-- Modelled from the spec: `(<left> op <right>)` of the expression compiler
(not at hand); a failed operand fails the whole. -/
def binaryText (op : String) : Option String → Option String → Option String
  | some l, some r => some ("(" ++ l ++ " " ++ op ++ " " ++ r ++ ")")
  | _, _ => none

/-- Modelled from the spec: the post-order walk of the expression compiler,
whose source is not at hand.  It returns the predicate text of the node, `none`
when the compilation of the node fails, and the state with the parameters in
encounter order, the joins and the collected errors.  `Equals` over a document
field is a containment predicate, over columns `col = ?`; `Not` mirrors it with
`!=` and a negated containment; `And`/`Or` are `(<left> AND|OR <right>)`;
`IsNull` resolves the field as `Field` does and emits `<resolved> IS NULL`;
`Substring` is valid for document fields only and emits a case-insensitive
match. -/
def compileExpression (cfg : CompilerConfig) :
    Expression → CompilerState → Option String × CompilerState
  | .nil, st => (none, { st with err := st.err ++ [CompileError.nilExpression] })
  | .Field fieldName, st =>
      match resolveField cfg fieldName st with
      | (some r, st1) => (some (r.text cfg), st1)
      | (none, st1) => (none, st1)
  | .Literal v, st => (some "?", { st with parameters := st.parameters ++ [v] })
  | .Equals l r, st =>
      match documentOperands cfg st.joins l r with
      | some (fieldName, v) => (some (containment cfg fieldName v), st)
      | none =>
          let (a, st1) := compileExpression cfg l st
          let (b, st2) := compileExpression cfg r st1
          (binaryText "=" a b, st2)
  | .Not l r, st =>
      match documentOperands cfg st.joins l r with
      | some (fieldName, v) => (some ("NOT " ++ containment cfg fieldName v), st)
      | none =>
          let (a, st1) := compileExpression cfg l st
          let (b, st2) := compileExpression cfg r st1
          (binaryText "!=" a b, st2)
  | .And l r, st =>
      let (a, st1) := compileExpression cfg l st
      let (b, st2) := compileExpression cfg r st1
      (binaryText "AND" a b, st2)
  | .Or l r, st =>
      let (a, st1) := compileExpression cfg l st
      let (b, st2) := compileExpression cfg r st1
      (binaryText "OR" a b, st2)
  | .IsNull fieldName, st =>
      match resolveField cfg fieldName st with
      | (some r, st1) => (some ("(" ++ r.text cfg ++ " IS NULL)"), st1)
      | (none, st1) => (none, st1)
  | .Substring l r, st =>
      match documentOperands cfg st.joins l r with
      | some (fieldName, v) =>
          (some (keyExtraction cfg fieldName ++ " ILIKE ?"),
            { st with parameters := st.parameters ++ [v] })
      | none =>
          match compileExpression cfg l st with
          | (none, st1) => (none, st1)
          | (some _, st1) =>
              (none, { st1 with err := st1.err ++ [CompileError.substringNotOnDocumentField] })

/-- Modelled from the spec: the function `workitem.Compile`, whose source is
not at hand: the predicate text (empty when the compilation fails, no partial
text being emitted), the ordered parameters, the activated joins and the list
of compile errors. -/
def Compile (cfg : CompilerConfig) (e : Expression) :
    String × List LiteralValue × List (String × TableJoin) × List CompileError :=
  let (text, st) := compileExpression cfg e { parameters := [], joins := cfg.joins, err := [] }
  (text.getD "", st.parameters, st.joins.filter (fun kj => kj.2.IsActive), st.err)

end Workitem

namespace Strings

/-- The function `strings.HasSuffix`. -/
def HasSuffix (s suffix : String) : Bool :=
  suffix.data.isSuffixOf s.data

/-- Search of `strings.Contains`: `substr` begins at some position of the
text. -/
def containsLoop : List Char → List Char → Bool
  | [], substr => substr.isEmpty
  | c :: cs, substr => substr.isPrefixOf (c :: cs) || containsLoop cs substr

/-- The function `strings.Contains` for any `substr`. -/
def ContainsStr (s substr : String) : Bool :=
  containsLoop s.data substr.data

/-- Loop of `strings.Split` for a one-character separator: `cur` is the piece
being read. -/
def splitLoop (sep : Char) : List Char → List Char → List String
  | [], cur => [String.mk cur]
  | c :: cs, cur =>
      if c = sep then String.mk cur :: splitLoop sep cs [] else splitLoop sep cs (cur ++ [c])

/-- The call `strings.Split(s, sep)` for a one-character `sep`: the pieces of
`s` between the separators. -/
def Split (s : String) (sep : Char) : List String :=
  splitLoop sep s.data []

end Strings

namespace Workitem

/-- The constant `pathSep`, the symbol used to concatenate work item type names
to a path. -/
def pathSep : String := "."

/-- WorkItemType represents a work item type as it is stored in the db.  The
embedded `gormsupport.Lifecycle` and the field `Fields` (of type
`FieldDefinitions`), whose types are not at hand, are left out. -/
structure WorkItemType where
  Name : String
  Version : Int
  Path : String
  deriving DecidableEq, Repr

/-- The two loops of `IsTypeOrSubtypeOf`: as long as the non-empty `typeName`
has the prefix `pathSep`, that prefix is trimmed off, then as long as it has
the suffix `pathSep`, that suffix is trimmed off; each turn removes one `.`, so
the loops drop all leading and then all trailing `.` characters. -/
def stripPathSeps (typeName : String) : String :=
  String.mk ((typeName.data.dropWhile fun c => c = '.').reverse.dropWhile fun c => c = '.').reverse

/-- The method `(wit WorkItemType) IsTypeOrSubtypeOf`. -/
def WorkItemType.IsTypeOrSubtypeOf (wit : WorkItemType) (typeName : String) : Bool :=
  let typeName := stripPathSeps typeName
  if typeName.length ≤ 0 then false
  else wit.Name == typeName || Strings.ContainsStr wit.Path (typeName ++ pathSep)

/-- The complete `.`-separated segments of a path other than the last. -/
def parentSegments (path : String) : List String :=
  (Strings.Split path '.').dropLast

end Workitem

namespace Search

/-- The numeric token of a search token: for a token that, after URL-decoding,
starts with `number:`, the rest followed by `:*A`; `none` for every other
token. -/
def numberOfToken (env : Externals) (rawPart : String) : Option String :=
  let part := unescapedPart env rawPart
  if Strings.HasPrefix part "number:" then
    some (Strings.TrimPrefix part "number:" ++ ":*A")
  else none

/-- The word token of a search token that, after URL-decoding, starts neither
with `number:` nor with `type:`: the search query of the lower-cased,
protocol-stripped text when it is URL-shaped, else the lower-cased, sanitized
text followed by `:*`; `none` for every other token. -/
def wordOfToken (env : Externals) (knownURLs : List (String × KnownURL))
    (rawPart : String) : Option String :=
  let part := unescapedPart env rawPart
  if Strings.HasPrefix part "number:" || Strings.HasPrefix part "type:" then none
  else if env.IsURL part then
    (getSearchQueryFromURLString knownURLs
      (trimProtocolFromURLString (env.ToLower part))).toOption
  else some (sanitizeURL (env.ToLower part) ++ ":*")

end Search

namespace Search

/-- The values whose key `parseMap` stores in `q.Name`: strings and arrays. -/
def namesQuery : JSONValue → Bool
  | .str _ => true
  | .array _ => true
  | _ => false

/-- One iteration of the loop of `parseMap`, on the entry `(key, val)` and the
state `q`. -/
def parseMapEntry : String × JSONValue → Query → Query
  | (key, .array _), q => (q.setName key).setChildren []
  | (key, .str concreteVal), q => (q.setName key).setValue concreteVal
  | (_, .bool concreteVal), q => q.setNegate concreteVal
  | (_, .null), q => q
  | (_, .number _), q => q
  | (_, .object _), q => q

end Search

/-! Theorems. -/

namespace Search

open Criteria

/-! Auxiliary facts. -/

theorem isOperator_Q_AND : isOperator Q_AND = true := by decide

theorem isOperator_Q_OR : isOperator Q_OR = true := by decide

theorem isOperator_iff (s : String) : isOperator s = true ↔ s = Q_AND ∨ s = Q_OR := by
  simp [isOperator]

theorem combine_Q_AND (es : List Expression) :
    combine Q_AND es = foldAnd es Expression.nil := by
  simp [combine]

theorem combine_Q_OR (es : List Expression) :
    combine Q_OR es = foldOr es Expression.nil := by
  have h : Q_OR ≠ Q_AND := by decide
  simp [combine, h]

theorem combine_of_not_operator (name : String) (h : isOperator name = false)
    (es : List Expression) : combine name es = foldDefault es Expression.nil := by
  have h1 : name ≠ Q_AND := by
    intro e; rw [e] at h; exact absurd h (by decide)
  have h2 : name ≠ Q_OR := by
    intro e; rw [e] at h; exact absurd h (by decide)
  simp [combine, h1, h2]

theorem leafExpression_isNil (name v : String) (negate : Bool) :
    (leafExpression name v negate).isNil = false := by
  cases negate <;> simp [leafExpression, Expression.isNil]

theorem leafExpression_literals (name v : String) (negate : Bool) :
    (leafExpression name v negate).literals = [LiteralValue.str v] := by
  cases negate <;> simp [leafExpression, Expression.literals]

/-- Once `res` is set, the `$AND` loop is a plain left fold. -/
theorem foldAnd_of_not_nil (es : List Expression) (res : Expression)
    (h : res.isNil = false) : foldAnd es res = List.foldl Expression.And res es := by
  induction es generalizing res with
  | nil => rfl
  | cons e es ih =>
      simp only [foldAnd, h, List.foldl_cons]
      exact ih _ rfl

/-- Once `res` is set, the `$OR` loop is a plain left fold. -/
theorem foldOr_of_not_nil (es : List Expression) (res : Expression)
    (h : res.isNil = false) : foldOr es res = List.foldl Expression.Or res es := by
  induction es generalizing res with
  | nil => rfl
  | cons e es ih =>
      simp only [foldOr, h, List.foldl_cons]
      exact ih _ rfl

/-- Whatever the map and the state of `*q` on entry, `parseMap` leaves `*q`
without children when it had none. -/
theorem parseMap_Children (fm : List (String × JSONValue)) :
    ∀ q : Query, q.Children = [] → (parseMap fm q).Children = [] := by
  induction fm with
  | nil => intro q h; simpa [parseMap] using h
  | cons kv rest ih =>
      intro q h
      obtain ⟨key, val⟩ := kv
      cases q with
      | mk n v b cs =>
          have hcs : cs = [] := by simpa [Query.Children] using h
          subst hcs
          cases val <;> simp only [parseMap] <;> apply ih <;>
            simp [Query.setName, Query.setValue, Query.setNegate, Query.setChildren,
              Query.Children]

/-- A two-element list has two orders. -/
theorem perm_pair {α : Type} (a b : α) (l : List α) (h : l.Perm [a, b]) :
    l = [a, b] ∨ l = [b, a] := by
  classical
  have hlen := h.length_eq
  match l, hlen with
  | [x, y], _ =>
      have hx : x ∈ [a, b] := h.subset (by simp)
      have hy : y ∈ [a, b] := h.subset (by simp)
      have ha : a ∈ [x, y] := h.symm.subset (by simp)
      have hb : b ∈ [x, y] := h.symm.subset (by simp)
      simp only [List.mem_cons, List.mem_singleton, List.not_mem_nil, or_false] at hx hy ha hb
      by_cases hab : a = b
      · subst hab
        rcases hx with rfl | rfl <;> rcases hy with rfl | rfl <;> simp
      · rcases hx with rfl | rfl
        · rcases hy with rfl | rfl
          · rcases hb with rfl | rfl <;> exact absurd rfl hab
          · simp
        · rcases hy with rfl | rfl
          · simp
          · rcases ha with rfl | rfl <;> exact absurd rfl hab

/-! Decoding of operator objects. -/

/-- C1 (the code departs from the claim): on the decoded object
`{"$AND":[{"space":"openshiftio"},{"status":"NEW"}]}` the function `parseMap`
yields the node named `$AND` with no children at all, not the two children
`{space, openshiftio}` and `{status, NEW}`; the local slice that `parseArray`
fills holds two zero queries and is dropped. -/
theorem parseMap_and_object_has_no_children :
    parseMap [("$AND", .array [.object [("space", .str "openshiftio")],
        .object [("status", .str "NEW")]])] Query.zero
      = Query.mk "$AND" none false []
    ∧ parseArray [.object [("space", .str "openshiftio")],
        .object [("status", .str "NEW")]] [] = [Query.zero, Query.zero] := by
  constructor <;>
    simp [parseMap, parseArray, Query.zero, Query.setName, Query.setChildren,
      Query.Name, Query.Value, Query.Negate, Query.Children]

/-- C2 (the code departs from the claim): `parseFilterString` on
`{"$AND":[{"space":"openshiftio"},{"status":"NEW"}]}` returns the nil
expression with a nil error; it has no literal at all, not the two parameters
`openshiftio`, `NEW`. -/
theorem parseFilterString_and_filter_is_nil :
    parseFilterString
        (decodeOnly "\x7b\"$AND\":[\x7b\"space\":\"openshiftio\"\x7d,\x7b\"status\":\"NEW\"\x7d]\x7d"
          [("$AND", .array [.object [("space", .str "openshiftio")],
            .object [("status", .str "NEW")]])])
        "\x7b\"$AND\":[\x7b\"space\":\"openshiftio\"\x7d,\x7b\"status\":\"NEW\"\x7d]\x7d"
      = .ok (Expression.nil, none)
    ∧ Expression.literals Expression.nil = [] := by
  constructor
  · simp [parseFilterString, decodeOnly, parseMap, Query.zero, Query.setName,
      Query.setChildren, Query.Name, Query.Value, Query.Negate, Query.Children,
      Query.generateExpression, childExpressions, isOperator, Q_AND, Q_OR, combine, foldAnd]
  · rfl

/-! Lowering of leaves. -/

/-- Lowering of a childless non-operator node with a present value. -/
theorem generateExpression_leaf (name v : String) (negate : Bool)
    (h : isOperator name = false) :
    (Query.mk name (some v) negate []).generateExpression
      = .ok (leafExpression name v negate) := by
  simp [Query.generateExpression, childExpressions, h, combine_of_not_operator,
    foldDefault, Expression.isNil]

/-- C3: for every field name `f` other than `$AND`/`$OR` and every string `v`,
`parseFilterString` on a string decoding to `{f: v}` returns
`Equals(Field f, Literal v)` with a nil error, and on a string decoding to
`{f: v, "negate": true}` it returns `Not(Field f, Literal v)`, in whichever
order the two keys are visited. -/
theorem parseFilterString_leaf (unmarshal : String → Option (List (String × JSONValue)))
    (raw f v : String) (hf : isOperator f = false) :
    (unmarshal raw = some [(f, .str v)] →
      parseFilterString unmarshal raw
        = .ok (Expression.Equals (Expression.Field f) (Expression.Literal (.str v)), none))
    ∧ (∀ fm : List (String × JSONValue),
        fm.Perm [(f, .str v), ("negate", .bool true)] → unmarshal raw = some fm →
        parseFilterString unmarshal raw
          = .ok (Expression.Not (Expression.Field f) (Expression.Literal (.str v)), none)) := by
  constructor
  · intro h
    have hq : parseMap [(f, .str v)] Query.zero = Query.mk f (some v) false [] := by
      simp [parseMap, Query.zero, Query.setName, Query.setValue, Query.Name, Query.Value,
        Query.Negate, Query.Children]
    simp [parseFilterString, h, hq, generateExpression_leaf f v false hf, leafExpression]
  · intro fm hperm h
    have hq : parseMap fm Query.zero = Query.mk f (some v) true [] := by
      rcases perm_pair _ _ fm hperm with rfl | rfl <;>
        simp [parseMap, Query.zero, Query.setName, Query.setValue, Query.setNegate,
          Query.Name, Query.Value, Query.Negate, Query.Children]
    simp [parseFilterString, h, hq, generateExpression_leaf f v true hf, leafExpression]

/-- C3 at `{"space":"rhel"}` and at `{"negate":true,"space":"rhel"}`, the keys
visited in that order. -/
theorem parseFilterString_leaf_witness :
    isOperator "space" = false
    ∧ parseFilterString (decodeOnly "\x7b\"space\":\"rhel\"\x7d" [("space", .str "rhel")])
          "\x7b\"space\":\"rhel\"\x7d"
        = .ok (Expression.Equals (Expression.Field "space")
            (Expression.Literal (.str "rhel")), none)
    ∧ parseFilterString
          (decodeOnly "\x7b\"negate\":true,\"space\":\"rhel\"\x7d"
            [("negate", .bool true), ("space", .str "rhel")])
          "\x7b\"negate\":true,\"space\":\"rhel\"\x7d"
        = .ok (Expression.Not (Expression.Field "space")
            (Expression.Literal (.str "rhel")), none) :=
  ⟨by decide,
    (parseFilterString_leaf _ _ "space" "rhel" (by decide)).1 (by simp [decodeOnly]),
    (parseFilterString_leaf _ _ "space" "rhel" (by decide)).2 _
      (List.Perm.swap _ _ _) (by simp [decodeOnly])⟩

/-- C4 (the code departs from the claim): the leaf `{Name: "space", Value: v}`
is lowered to `Equals(Field("space"), Literal(v))`, or `Not(...)` when negated:
the field keeps the query key `space`, which is not the expression over
`Field("SpaceID")` that the claim and the test expect. -/
theorem generateExpression_space_keeps_key (v : String) (negate : Bool) :
    (Query.mk "space" (some v) negate []).generateExpression
      = .ok (leafExpression "space" v negate)
    ∧ leafExpression "space" v negate ≠ leafExpression "SpaceID" v negate := by
  refine ⟨generateExpression_leaf "space" v negate (by decide), ?_⟩
  cases negate <;> simp [leafExpression]

/-! Lowering of operator nodes. -/

/-- The first element met by the `$AND` loop becomes `res`. -/
theorem foldAnd_cons_nil (e : Expression) (es : List Expression) :
    foldAnd (e :: es) Expression.nil = foldAnd es e := by
  simp [foldAnd, Expression.isNil]

/-- The first element met by the `$OR` loop becomes `res`. -/
theorem foldOr_cons_nil (e : Expression) (es : List Expression) :
    foldOr (e :: es) Expression.nil = foldOr es e := by
  simp [foldOr, Expression.isNil]

/-- An operator node skips the leaf block: its result is the `switch` over the
expressions collected from its children. -/
theorem generateExpression_operator (name : String) (value : Option String)
    (negate : Bool) (children : List Query) (h : isOperator name = true) :
    (Query.mk name value negate children).generateExpression
      = match childExpressions children [] with
        | .error p => .error p
        | .ok myexpr => .ok (combine name myexpr) := by
  simp [Query.generateExpression, h]


/-- The children loop over non-operator children with present values appends
one clause per child, in child order. -/
theorem childExpressions_of_leaves (cs : List Query) :
    ∀ myexpr : List Expression,
      (∀ c ∈ cs, isOperator c.Name = false ∧ c.Value.isSome = true) →
      childExpressions cs myexpr = .ok (myexpr ++ cs.map Query.leafClause) := by
  induction cs with
  | nil => intro myexpr _; simp [childExpressions]
  | cons c cs ih =>
      intro myexpr h
      have hc := h c (List.mem_cons_self _ _)
      have hcs : ∀ d ∈ cs, isOperator d.Name = false ∧ d.Value.isSome = true :=
        fun d hd => h d (List.mem_cons_of_mem _ hd)
      cases c with
      | mk cname cvalue cnegate cchildren =>
          cases cvalue with
          | none => simp [Query.Value] at hc
          | some v =>
              have hop : isOperator cname = false := by simpa [Query.Name] using hc.1
              simp [childExpressions, hop, ih _ hcs, Query.leafClause, Query.Value,
                Query.Name, Query.Negate]

/-- The clause of a non-operator child with a present value is not nil. -/
theorem leafClause_isNil (c : Query) (h : c.Value.isSome = true) :
    c.leafClause.isNil = false := by
  cases c with
  | mk cname cvalue cnegate cchildren =>
      cases cvalue with
      | none => simp [Query.Value] at h
      | some v => simp [Query.leafClause, Query.Value, leafExpression_isNil]

/-- C5: for every node named `$AND` (resp. `$OR`) whose children are `n >= 2`
non-operator nodes with present values, `generateExpression` returns the
left-nested fold `And(...And(e1, e2)..., en)` (resp. `Or`) of the children's
clauses `e_i` (`Equals(Field name_i, Literal value_i)`, or `Not(...)` when
child `i` is negated), in child order. -/
theorem generateExpression_operator_of_leaves (value : Option String) (negate : Bool)
    (c1 c2 : Query) (cs : List Query)
    (h : ∀ c ∈ c1 :: c2 :: cs, isOperator c.Name = false ∧ c.Value.isSome = true) :
    (Query.mk Q_AND value negate (c1 :: c2 :: cs)).generateExpression
        = .ok (List.foldl Expression.And c1.leafClause ((c2 :: cs).map Query.leafClause))
    ∧ (Query.mk Q_OR value negate (c1 :: c2 :: cs)).generateExpression
        = .ok (List.foldl Expression.Or c1.leafClause ((c2 :: cs).map Query.leafClause)) := by
  have h1 : c1.leafClause.isNil = false :=
    leafClause_isNil c1 (h c1 (List.mem_cons_self _ _)).2
  constructor
  · rw [generateExpression_operator _ _ _ _ isOperator_Q_AND,
      childExpressions_of_leaves _ _ h]
    simp only [List.nil_append, List.map_cons, combine_Q_AND, foldAnd_cons_nil,
      foldAnd_of_not_nil _ _ h1]
  · rw [generateExpression_operator _ _ _ _ isOperator_Q_OR,
      childExpressions_of_leaves _ _ h]
    simp only [List.nil_append, List.map_cons, combine_Q_OR, foldOr_cons_nil,
      foldOr_of_not_nil _ _ h1]

/-- C5 at `$AND` and `$OR` over the children `space = openshiftio` (negated),
`status = NEW` and `area = planner`. -/
theorem generateExpression_operator_of_leaves_witness :
    (Query.mk Q_AND none false [.mk "space" (some "openshiftio") true [],
        .mk "status" (some "NEW") false [], .mk "area" (some "planner") false []]).generateExpression
      = .ok (Expression.And
          (Expression.And
            (Expression.Not (Expression.Field "space") (Expression.Literal (.str "openshiftio")))
            (Expression.Equals (Expression.Field "status") (Expression.Literal (.str "NEW"))))
          (Expression.Equals (Expression.Field "area") (Expression.Literal (.str "planner"))))
    ∧ (Query.mk Q_OR none false [.mk "space" (some "openshiftio") true [],
        .mk "status" (some "NEW") false [], .mk "area" (some "planner") false []]).generateExpression
      = .ok (Expression.Or
          (Expression.Or
            (Expression.Not (Expression.Field "space") (Expression.Literal (.str "openshiftio")))
            (Expression.Equals (Expression.Field "status") (Expression.Literal (.str "NEW"))))
          (Expression.Equals (Expression.Field "area") (Expression.Literal (.str "planner")))) :=
  generateExpression_operator_of_leaves none false (.mk "space" (some "openshiftio") true [])
    (.mk "status" (some "NEW") false []) [.mk "area" (some "planner") false []]
    (by
      intro c hc
      simp only [List.mem_cons, List.mem_singleton, List.not_mem_nil, or_false] at hc
      rcases hc with rfl | rfl | rfl <;> exact ⟨by decide, rfl⟩)

/-- C6 (the code departs from the claim): an operator child that yields no
expression is skipped only while no expression has been collected.  After the
leaf `a = 1` the childless `$OR` child is passed on as a nil operand, giving
`And(Equals(a, 1), nil)` instead of `Equals(a, 1)`; before the leaf it leaves no
trace. -/
theorem generateExpression_keeps_nil_operand :
    (Query.mk Q_AND none false
        [.mk "a" (some "1") false [], .mk Q_OR none false []]).generateExpression
      = .ok (Expression.And
          (Expression.Equals (Expression.Field "a") (Expression.Literal (.str "1")))
          Expression.nil)
    ∧ (Query.mk Q_AND none false
        [.mk Q_OR none false [], .mk "a" (some "1") false []]).generateExpression
      = .ok (Expression.Equals (Expression.Field "a") (Expression.Literal (.str "1")))
    ∧ (Query.mk Q_OR none false []).generateExpression = .ok Expression.nil := by
  refine ⟨?_, ?_, ?_⟩ <;>
    simp [Query.generateExpression, childExpressions, isOperator, Q_AND, Q_OR, combine,
      foldAnd, foldOr, leafExpression, Expression.isNil]

/-- C7: for every `$AND`/`$OR` node with exactly one child, `generateExpression`
returns exactly what the child stands for, with no `And`/`Or` around it: the
nested operator's own result for an operator child, the child's `Equals`/`Not`
clause for a non-operator child with a value, and no expression for a
non-operator child without a value. -/
theorem generateExpression_single_child (name : String) (value : Option String)
    (negate : Bool) (child : Query) (h : isOperator name = true) :
    (isOperator child.Name = true →
      (Query.mk name value negate [child]).generateExpression = child.generateExpression)
    ∧ (isOperator child.Name = false → ∀ v : String, child.Value = some v →
        (Query.mk name value negate [child]).generateExpression
          = .ok (if child.Negate
              then Expression.Not (Expression.Field child.Name) (Expression.Literal (.str v))
              else Expression.Equals (Expression.Field child.Name)
                (Expression.Literal (.str v))))
    ∧ (isOperator child.Name = false → child.Value = none →
        (Query.mk name value negate [child]).generateExpression = .ok Expression.nil) := by
  have hcomb : ∀ e : Expression, combine name [e] = e := by
    intro e
    rcases (isOperator_iff name).1 h with rfl | rfl
    · simp [combine_Q_AND, foldAnd, Expression.isNil]
    · simp [combine_Q_OR, foldOr, Expression.isNil]
  have hnil : combine name [] = Expression.nil := by
    rcases (isOperator_iff name).1 h with rfl | rfl
    · simp [combine_Q_AND, foldAnd]
    · simp [combine_Q_OR, foldOr]
  cases child with
  | mk cname cvalue cnegate cchildren =>
      refine ⟨?_, ?_, ?_⟩
      · intro hc
        have hc' : isOperator cname = true := by simpa [Query.Name] using hc
        rw [generateExpression_operator _ _ _ _ h]
        simp only [childExpressions, hc', if_true]
        cases hg : (Query.mk cname cvalue cnegate cchildren).generateExpression with
        | error p => simp
        | ok e => simp [childExpressions, hcomb]
      · intro hc v hv
        have hc' : isOperator cname = false := by simpa [Query.Name] using hc
        have hv' : cvalue = some v := by simpa [Query.Value] using hv
        subst hv'
        rw [generateExpression_operator _ _ _ _ h]
        simp [childExpressions, hc', hcomb, leafExpression, Query.Name, Query.Negate]
      · intro hc hv
        have hc' : isOperator cname = false := by simpa [Query.Name] using hc
        have hv' : cvalue = none := by simpa [Query.Value] using hv
        subst hv'
        rw [generateExpression_operator _ _ _ _ h]
        simp [childExpressions, hc', hnil]

/-- C7 at an `$AND` node over a nested `$OR` child, over the negated leaf
`space = rhel`, and over a leaf without a value. -/
theorem generateExpression_single_child_witness :
    isOperator "$AND" = true
    ∧ (Query.mk "$AND" none false
          [.mk "$OR" none false [.mk "a" (some "1") false [], .mk "b" (some "2") false []]]).generateExpression
        = (Query.mk "$OR" none false
            [.mk "a" (some "1") false [], .mk "b" (some "2") false []]).generateExpression
    ∧ (Query.mk "$AND" none false [.mk "space" (some "rhel") true []]).generateExpression
        = .ok (Expression.Not (Expression.Field "space") (Expression.Literal (.str "rhel")))
    ∧ (Query.mk "$AND" none false [.mk "space" none false []]).generateExpression
        = .ok Expression.nil :=
  ⟨by decide,
    (generateExpression_single_child "$AND" none false
      (.mk "$OR" none false [.mk "a" (some "1") false [], .mk "b" (some "2") false []])
      (by decide)).1 (by decide),
    (generateExpression_single_child "$AND" none false (.mk "space" (some "rhel") true [])
      (by decide)).2.1 (by decide) "rhel" rfl,
    (generateExpression_single_child "$AND" none false (.mk "space" none false [])
      (by decide)).2.2 (by decide) rfl⟩

/-! Order of the literals. -/

theorem literalsOfList_append (xs ys : List Expression) :
    literalsOfList (xs ++ ys) = literalsOfList xs ++ literalsOfList ys := by
  induction xs with
  | nil => rfl
  | cons x xs ih => simp [literalsOfList, ih]

theorem literals_of_isNil (e : Expression) (h : e.isNil = true) : e.literals = [] := by
  cases e <;> simp_all [Expression.isNil, Expression.literals]

/-- The `$AND` loop keeps the literals of `res` and of the list, in order. -/
theorem literals_foldAnd (es : List Expression) :
    ∀ res : Expression, (foldAnd es res).literals = res.literals ++ literalsOfList es := by
  induction es with
  | nil => intro res; simp [foldAnd, literalsOfList]
  | cons e es ih =>
      intro res
      rw [foldAnd, ih]
      cases hres : res.isNil
      · simp [Expression.literals, literalsOfList]
      · simp [literals_of_isNil res hres, literalsOfList]

/-- The `$OR` loop keeps the literals of `res` and of the list, in order. -/
theorem literals_foldOr (es : List Expression) :
    ∀ res : Expression, (foldOr es res).literals = res.literals ++ literalsOfList es := by
  induction es with
  | nil => intro res; simp [foldOr, literalsOfList]
  | cons e es ih =>
      intro res
      rw [foldOr, ih]
      cases hres : res.isNil
      · simp [Expression.literals, literalsOfList]
      · simp [literals_of_isNil res hres, literalsOfList]

theorem literals_combine (name : String) (h : isOperator name = true)
    (es : List Expression) : (combine name es).literals = literalsOfList es := by
  rcases (isOperator_iff name).1 h with rfl | rfl
  · simp [combine_Q_AND, literals_foldAnd, Expression.literals]
  · simp [combine_Q_OR, literals_foldOr, Expression.literals]

mutual
/-- On a tree of the grammar's shape an operator node is lowered without panic,
and the literals of its expression are the values of its leaves in order. -/
theorem operatorNode_literals :
    ∀ q : Query, q.leavesChildless = true → isOperator q.Name = true →
      ∃ e, q.generateExpression = .ok e ∧ e.literals = q.leafValues.map LiteralValue.str
  | .mk name value negate children, hshape, hop => by
      have hop' : isOperator name = true := by simpa [Query.Name] using hop
      have hch : allLeavesChildless children = true := by
        simp [Query.leavesChildless] at hshape
        exact hshape.2
      obtain ⟨es, hes, hlit⟩ := childExpressions_literals children [] hch
      refine ⟨combine name es, ?_, ?_⟩
      · rw [generateExpression_operator _ _ _ _ hop', hes]
        simp
      · rw [literals_combine _ hop', hlit]
        simp [Query.leafValues, hop']
/-- On a forest of the grammar's shape the children loop appends expressions
whose literals are the values of the forest's leaves in order. -/
theorem childExpressions_literals :
    ∀ (cs : List Query) (myexpr : List Expression), allLeavesChildless cs = true →
      ∃ es, childExpressions cs myexpr = .ok (myexpr ++ es)
        ∧ literalsOfList es = (leafValuesOfList cs).map LiteralValue.str
  | [], myexpr, _ => ⟨[], by simp [childExpressions], by simp [literalsOfList, leafValuesOfList]⟩
  | .mk cname cvalue cnegate cchildren :: rest, myexpr, hshape => by
      have hc : (Query.mk cname cvalue cnegate cchildren).leavesChildless = true := by
        simp [allLeavesChildless] at hshape
        exact hshape.1
      have hrest : allLeavesChildless rest = true := by
        simp [allLeavesChildless] at hshape
        exact hshape.2
      cases hop : isOperator cname
      · have hnil : cchildren = [] := by
          simp [Query.leavesChildless, hop] at hc
          exact hc.1
        subst hnil
        cases cvalue with
        | none =>
            obtain ⟨es, hes, hlit⟩ := childExpressions_literals rest myexpr hrest
            refine ⟨es, ?_, ?_⟩
            · simp [childExpressions, hop, hes]
            · simp [hlit, leafValuesOfList, Query.leafValues, hop]
        | some v =>
            obtain ⟨es, hes, hlit⟩ :=
              childExpressions_literals rest (myexpr ++ [leafExpression cname v cnegate]) hrest
            refine ⟨leafExpression cname v cnegate :: es, ?_, ?_⟩
            · simp [childExpressions, hop, hes]
            · simp [literalsOfList, leafExpression_literals, hlit, leafValuesOfList,
                Query.leafValues, hop]
      · obtain ⟨e, he, hlite⟩ :=
          operatorNode_literals (.mk cname cvalue cnegate cchildren) hc
            (by simpa [Query.Name] using hop)
        obtain ⟨es, hes, hlit⟩ := childExpressions_literals rest (myexpr ++ [e]) hrest
        refine ⟨e :: es, ?_, ?_⟩
        · simp [childExpressions, hop, he, hes]
        · simp [literalsOfList, hlite, hlit, leafValuesOfList]
end

/-- C8 as stated fails: the literals of the generated expression are not the
present values of the non-operator nodes in depth-first order when a
non-operator node has children (the child `b = 2` of the leaf `a = 1` is
dropped), and a non-operator root without a value gives no expression at all
(nil pointer dereference). -/
theorem generateExpression_literals_counterexample :
    (¬ ∃ e, (Query.mk "a" (some "1") false [.mk "b" (some "2") false []]).generateExpression
          = .ok e
        ∧ e.literals
          = (Query.mk "a" (some "1") false [.mk "b" (some "2") false []]).leafValues.map
              LiteralValue.str)
    ∧ (Query.mk "a" none false []).generateExpression
        = .error Panic.nilPointerDereference := by
  constructor
  · rintro ⟨e, he, hlit⟩
    have hgen : (Query.mk "a" (some "1") false [.mk "b" (some "2") false []]).generateExpression
        = .ok (Expression.Equals (Expression.Field "a") (Expression.Literal (.str "1"))) := by
      simp [Query.generateExpression, childExpressions, isOperator, Q_AND, Q_OR, combine,
        foldDefault, leafExpression, Expression.isNil]
    rw [hgen] at he
    have he' : e = Expression.Equals (Expression.Field "a") (Expression.Literal (.str "1")) := by
      injection he with he
      exact he.symm
    subst he'
    simp [Expression.literals, Query.leafValues, leafValuesOfList, isOperator, Q_AND, Q_OR]
      at hlit
  · simp [Query.generateExpression, isOperator, Q_AND, Q_OR]

/-- C8 (amended): for any Query tree `q` in which only operator nodes have
children and whose root is an operator node or carries a present Value,
`generateExpression` yields an expression whose literal values, read left to
right, are the present Values of the non-operator nodes of `q` in
left-to-right, depth-first order. -/
theorem generateExpression_literals (q : Query) (hshape : q.leavesChildless = true)
    (hroot : isOperator q.Name = true ∨ q.Value.isSome = true) :
    ∃ e, q.generateExpression = .ok e
      ∧ e.literals = q.leafValues.map LiteralValue.str := by
  cases hop : isOperator q.Name
  · cases q with
    | mk name value negate children =>
        have hop' : isOperator name = false := by simpa [Query.Name] using hop
        have hnil : children = [] := by
          simp [Query.leavesChildless, hop'] at hshape
          exact hshape.1
        subst hnil
        cases value with
        | none => simp [Query.Name, Query.Value, hop'] at hroot
        | some v =>
            refine ⟨leafExpression name v negate, generateExpression_leaf name v negate hop', ?_⟩
            simp [leafExpression_literals, Query.leafValues, leafValuesOfList, hop']
  · exact operatorNode_literals q hshape hop

/-- C8 (amended) at
`$OR[$AND[space = openshiftio, area = planner], $AND[space = rhel (negated)]]`. -/
theorem generateExpression_literals_witness :
    (Query.mk "$OR" none false
        [.mk "$AND" none false
          [.mk "space" (some "openshiftio") false [], .mk "area" (some "planner") false []],
         .mk "$AND" none false [.mk "space" (some "rhel") true []]]).leavesChildless = true
    ∧ ∃ e, (Query.mk "$OR" none false
        [.mk "$AND" none false
          [.mk "space" (some "openshiftio") false [], .mk "area" (some "planner") false []],
         .mk "$AND" none false [.mk "space" (some "rhel") true []]]).generateExpression = .ok e
      ∧ e.literals = [LiteralValue.str "openshiftio", LiteralValue.str "planner",
          LiteralValue.str "rhel"] :=
  ⟨by decide, generateExpression_literals _ (by decide) (Or.inl (by decide))⟩

/-! Errors and panics of `parseFilterString`. -/

/-- C9 (the code departs from the claim): a BadParameter error with no
expression is returned when the string fails to decode, and no error is ever
returned when it decodes; but a string that decodes need not make
`parseFilterString` return: on `{"foo": []}` the parsed root `foo` has no value
and lowering it dereferences the nil pointer. -/
theorem parseFilterString_error_and_panic :
    (∀ (unmarshal : String → Option (List (String × JSONValue))) (raw : String),
        unmarshal raw = none →
        parseFilterString unmarshal raw
          = .ok (Expression.nil, some (Error.BadParameter "expression" raw)))
    ∧ (∀ (unmarshal : String → Option (List (String × JSONValue))) (raw : String)
        (e : Expression) (err : Error),
        parseFilterString unmarshal raw = .ok (e, some err) → unmarshal raw = none)
    ∧ parseFilterString (decodeOnly "\x7b\"foo\": []\x7d" [("foo", .array [])])
          "\x7b\"foo\": []\x7d"
        = .error Panic.nilPointerDereference := by
  refine ⟨?_, ?_, ?_⟩
  · intro unmarshal raw h
    simp [parseFilterString, h]
  · intro unmarshal raw e err h
    cases hu : unmarshal raw with
    | none => rfl
    | some fm =>
        simp only [parseFilterString, hu] at h
        cases hg : (parseMap fm Query.zero).generateExpression with
        | error p => simp [hg] at h
        | ok r => simp [hg] at h
  · simp [parseFilterString, decodeOnly, parseMap, Query.zero, Query.setName,
      Query.setChildren, Query.Name, Query.Value, Query.Negate, Query.Children,
      Query.generateExpression, isOperator, Q_AND, Q_OR]

/-- C10 (the code departs from the claim): on the empty object `{}` the query
that `parseMap` produces is the zero `Query`, whose Name is not an operator and
whose Value is absent, and `parseFilterString` panics on it with a nil pointer
dereference; likewise on `{"negate": true}`. -/
theorem parseFilterString_panics_on_empty_object :
    parseMap [] Query.zero = Query.mk "" none false []
    ∧ isOperator (parseMap [] Query.zero).Name = false
    ∧ (parseMap [] Query.zero).Value = none
    ∧ parseFilterString (decodeOnly "\x7b\x7d" []) "\x7b\x7d"
        = .error Panic.nilPointerDereference
    ∧ parseFilterString (decodeOnly "\x7b\"negate\": true\x7d" [("negate", .bool true)])
          "\x7b\"negate\": true\x7d"
        = .error Panic.nilPointerDereference := by
  refine ⟨?_, ?_, ?_, ?_, ?_⟩ <;>
    simp [parseFilterString, decodeOnly, parseMap, Query.zero, Query.setNegate,
      Query.Name, Query.Value, Query.Negate, Query.Children,
      Query.generateExpression, isOperator, Q_AND, Q_OR]

end Search

/-! Text functions. -/

namespace Strings

theorem HasPrefix_append (pfx s : String) : HasPrefix (pfx ++ s) pfx = true := by
  simp [HasPrefix, String.data_append, List.isPrefixOf_iff_prefix]

theorem TrimPrefix_append (pfx s : String) : TrimPrefix (pfx ++ s) pfx = s := by
  simp [TrimPrefix, HasPrefix_append, String.data_append]

theorem HasPrefix_iff (s pfx : String) : HasPrefix s pfx = true ↔ pfx.data <+: s.data := by
  simp [HasPrefix, List.isPrefixOf_iff_prefix]

end Strings

namespace Search

open Criteria

/-! Tokens of the free-text search. -/

/-- One turn of the loop on a token whose decoded text begins with `number:`. -/
theorem parseSearchStringLoop_number (env : Externals) (knownURLs : List (String × KnownURL))
    (rawPart : String) (rest : List String) (res : searchKeyword)
    (h : Strings.HasPrefix (unescapedPart env rawPart) "number:" = true) :
    parseSearchStringLoop env knownURLs (rawPart :: rest) res
      = parseSearchStringLoop env knownURLs rest
          { res with number := res.number
              ++ [Strings.TrimPrefix (unescapedPart env rawPart) "number:" ++ ":*A"] } := by
  simp [parseSearchStringLoop, h]

/-- One turn of the loop on a token whose decoded text is neither a number nor
a type token and is not URL-shaped. -/
theorem parseSearchStringLoop_word (env : Externals) (knownURLs : List (String × KnownURL))
    (rawPart : String) (rest : List String) (res : searchKeyword)
    (h1 : Strings.HasPrefix (unescapedPart env rawPart) "number:" = false)
    (h2 : Strings.HasPrefix (unescapedPart env rawPart) "type:" = false)
    (h3 : env.IsURL (unescapedPart env rawPart) = false) :
    parseSearchStringLoop env knownURLs (rawPart :: rest) res
      = parseSearchStringLoop env knownURLs rest
          { res with words := res.words
              ++ [sanitizeURL (env.ToLower (unescapedPart env rawPart)) ++ ":*"] } := by
  simp [parseSearchStringLoop, h1, h2, h3]

/-- The query string of a single numeric token is the token. -/
theorem generateSQLSearchInfo_single_number (types : List UUID) (x : String) :
    generateSQLSearchInfo { workItemTypes := types, number := [x], words := [] } = x := by
  by_cases hx : x = ""
  · subst hx; simp [generateSQLSearchInfo, Strings.Join]
  · simp [generateSQLSearchInfo, Strings.Join, hx]

/-- The query string of a single word token is the token. -/
theorem generateSQLSearchInfo_single_word (types : List UUID) (x : String) :
    generateSQLSearchInfo { workItemTypes := types, number := [], words := [x] } = x := by
  by_cases hx : x = ""
  · subst hx; simp [generateSQLSearchInfo, Strings.Join]
  · simp [generateSQLSearchInfo, Strings.Join, hx]

/-- C11: a token that decodes to `number:<n>` appends exactly `<n>:*A` to the
numeric list and leaves the word list alone, whereas the plain word `<n>` (not
URL-shaped, unchanged by lower-casing and sanitizing) appends `<n>:*` to the
word list and leaves the numeric list alone; as single tokens of a search
string they yield the query `<n>:*A` and the different query `<n>:*`. -/
theorem parseSearchString_number_and_word (env : Externals)
    (knownURLs : List (String × KnownURL)) (rawNumber rawWord n : String)
    (hnum : env.QueryUnescape rawNumber = some ("number:" ++ n))
    (hword : env.QueryUnescape rawWord = some n)
    (hn1 : Strings.HasPrefix n "number:" = false) (hn2 : Strings.HasPrefix n "type:" = false)
    (hn3 : env.IsURL n = false) (hn4 : env.ToLower n = n) (hn5 : sanitizeURL n = n) :
    (∀ (rest : List String) (res : searchKeyword),
        parseSearchStringLoop env knownURLs (rawNumber :: rest) res
          = parseSearchStringLoop env knownURLs rest
              { res with number := res.number ++ [n ++ ":*A"] })
    ∧ (∀ (rest : List String) (res : searchKeyword),
        parseSearchStringLoop env knownURLs (rawWord :: rest) res
          = parseSearchStringLoop env knownURLs rest
              { res with words := res.words ++ [n ++ ":*"] })
    ∧ (searchParts rawNumber = [rawNumber] →
        parseSearchString env knownURLs rawNumber
            = .ok ({ workItemTypes := [], number := [n ++ ":*A"], words := [] }, none)
          ∧ generateSQLSearchInfo { workItemTypes := [], number := [n ++ ":*A"], words := [] }
            = n ++ ":*A")
    ∧ (searchParts rawWord = [rawWord] →
        parseSearchString env knownURLs rawWord
            = .ok ({ workItemTypes := [], number := [], words := [n ++ ":*"] }, none)
          ∧ generateSQLSearchInfo { workItemTypes := [], number := [], words := [n ++ ":*"] }
            = n ++ ":*")
    ∧ n ++ ":*A" ≠ n ++ ":*" := by
  have e1 : unescapedPart env rawNumber = "number:" ++ n := by simp [unescapedPart, hnum]
  have e2 : unescapedPart env rawWord = n := by simp [unescapedPart, hword]
  have s1 : ∀ (rest : List String) (res : searchKeyword),
      parseSearchStringLoop env knownURLs (rawNumber :: rest) res
        = parseSearchStringLoop env knownURLs rest
            { res with number := res.number ++ [n ++ ":*A"] } := by
    intro rest res
    rw [parseSearchStringLoop_number env knownURLs rawNumber rest res
      (by rw [e1]; exact Strings.HasPrefix_append _ _), e1, Strings.TrimPrefix_append]
  have s2 : ∀ (rest : List String) (res : searchKeyword),
      parseSearchStringLoop env knownURLs (rawWord :: rest) res
        = parseSearchStringLoop env knownURLs rest
            { res with words := res.words ++ [n ++ ":*"] } := by
    intro rest res
    rw [parseSearchStringLoop_word env knownURLs rawWord rest res
      (by rw [e2]; exact hn1) (by rw [e2]; exact hn2) (by rw [e2]; exact hn3), e2, hn4, hn5]
  refine ⟨s1, s2, ?_, ?_, ?_⟩
  · intro hp
    refine ⟨?_, generateSQLSearchInfo_single_number _ _⟩
    simp [parseSearchString, hp, s1, parseSearchStringLoop]
  · intro hp
    refine ⟨?_, generateSQLSearchInfo_single_word _ _⟩
    simp [parseSearchString, hp, s2, parseSearchStringLoop]
  · intro h
    have h' := congrArg String.length h
    simp [String.length_append] at h'
    have : (":*A" : String).length = 3 := by decide
    have : (":*" : String).length = 2 := by decide
    omega

/-- C11 at the tokens `number:1234` and `1234`, with the sample library
functions: the queries are `1234:*A` and `1234:*`. -/
theorem parseSearchString_number_and_word_witness :
    (parseSearchString sampleExternals sampleKnownURLs "number:1234"
        = .ok ({ workItemTypes := [], number := ["1234:*A"], words := [] }, none)
      ∧ generateSQLSearchInfo { workItemTypes := [], number := ["1234:*A"], words := [] }
        = "1234:*A")
    ∧ (parseSearchString sampleExternals sampleKnownURLs "1234"
        = .ok ({ workItemTypes := [], number := [], words := ["1234:*"] }, none)
      ∧ generateSQLSearchInfo { workItemTypes := [], number := [], words := ["1234:*"] }
        = "1234:*") :=
  ⟨(parseSearchString_number_and_word sampleExternals sampleKnownURLs "number:1234" "1234"
      "1234" (by decide) (by decide) (by decide) (by decide) (by decide) (by decide)
      (by decide)).2.2.1 (by decide),
    (parseSearchString_number_and_word sampleExternals sampleKnownURLs "number:1234" "1234"
      "1234" (by decide) (by decide) (by decide) (by decide) (by decide) (by decide)
      (by decide)).2.2.2.1 (by decide)⟩

/-- C13 (the code departs from the claim): a token whose URL-decoding fails is
not processed as its raw text.  The inner `part` is the empty string returned
with the error, so the token `100%` gives the word `:*`, not `100%:*` (the word
of the raw text); this holds for every library whose `IsURL` rejects the empty
string and whose `ToLower` keeps it. -/
theorem parseSearchString_failed_decoding_gives_empty_word :
    parseSearchString sampleExternals sampleKnownURLs "100%"
      = .ok ({ workItemTypes := [], number := [], words := [":*"] }, none)
    ∧ sampleExternals.QueryUnescape "100%" = none
    ∧ sanitizeURL (sampleExternals.ToLower "100%") ++ ":*" = "100%:*"
    ∧ (∀ (env : Externals) (knownURLs : List (String × KnownURL)) (rawPart : String)
        (rest : List String) (res : searchKeyword),
        env.QueryUnescape rawPart = none → env.IsURL "" = false → env.ToLower "" = "" →
        parseSearchStringLoop env knownURLs (rawPart :: rest) res
          = parseSearchStringLoop env knownURLs rest
              { res with words := res.words ++ [":*"] }) := by
  refine ⟨by rfl, by rfl, by decide, ?_⟩
  intro env knownURLs rawPart rest res hq hu hl
  have e : unescapedPart env rawPart = "" := by simp [unescapedPart, hq]
  rw [parseSearchStringLoop_word env knownURLs rawPart rest res
    (by rw [e]; decide) (by rw [e]; decide) (by rw [e]; exact hu), e, hl]
  rfl

/-- C14: for every token whose decoded text is neither `number:`- nor
`type:`-prefixed and is not URL-shaped, the loop appends exactly one word
token and nothing else: the lower-cased text, with the leading protocol
stripped and every `:`, `(` and `)` escaped by the replacer, followed by
`:*`. -/
theorem parseSearchString_plain_word (env : Externals)
    (knownURLs : List (String × KnownURL)) (rawPart : String) (rest : List String)
    (res : searchKeyword)
    (h1 : Strings.HasPrefix (unescapedPart env rawPart) "number:" = false)
    (h2 : Strings.HasPrefix (unescapedPart env rawPart) "type:" = false)
    (h3 : env.IsURL (unescapedPart env rawPart) = false) :
    parseSearchStringLoop env knownURLs (rawPart :: rest) res
      = parseSearchStringLoop env knownURLs rest
          { workItemTypes := res.workItemTypes
            number := res.number
            words := res.words
              ++ [escapeCharFromURLString
                    (Strings.TrimPrefix
                      (Strings.TrimPrefix (env.ToLower (unescapedPart env rawPart)) "http://")
                      "https://")
                  ++ ":*"] } := by
  rw [parseSearchStringLoop_word env knownURLs rawPart rest res h1 h2 h3]
  rfl

/-- C14 at the token `A(b):C` with the sample library functions: the word is
`a\(b\)\:c:*`. -/
theorem parseSearchString_plain_word_witness :
    parseSearchStringLoop sampleExternals sampleKnownURLs ["A(b):C"]
        { workItemTypes := [], number := [], words := [] }
      = .ok ({ workItemTypes := [], number := [], words := ["a\\(b\\)\\:c:*"] }, none) :=
  parseSearchString_plain_word sampleExternals sampleKnownURLs "A(b):C" []
    { workItemTypes := [], number := [], words := [] } (by decide) (by decide) (by decide)

/-! The known-URL matcher. -/

/-- What the loop of `isKnownURL` has found when it ends: the count does not
shrink, it bounds the length of every match, and either nothing replaced the
starting pair or the name is a registered pattern whose match has that
length. -/
theorem isKnownURLLoop_spec (knownURLs : List (String × KnownURL)) (url : String) :
    ∀ (c0 : Nat) (n0 : String),
      c0 ≤ (isKnownURLLoop knownURLs url c0 n0).1
      ∧ (∀ e ∈ knownURLs, (e.2.compiledRegex url).length ≤ (isKnownURLLoop knownURLs url c0 n0).1)
      ∧ (isKnownURLLoop knownURLs url c0 n0 = (c0, n0)
        ∨ ∃ known, ((isKnownURLLoop knownURLs url c0 n0).2, known) ∈ knownURLs
            ∧ (known.compiledRegex url).length = (isKnownURLLoop knownURLs url c0 n0).1
            ∧ c0 < (isKnownURLLoop knownURLs url c0 n0).1) := by
  induction knownURLs with
  | nil => intro c0 n0; simp [isKnownURLLoop]
  | cons e rest ih =>
      intro c0 n0
      obtain ⟨name, known⟩ := e
      by_cases hgt : (known.compiledRegex url).length > c0
      · have hstep : isKnownURLLoop ((name, known) :: rest) url c0 n0
            = isKnownURLLoop rest url (known.compiledRegex url).length name := by
          simp [isKnownURLLoop, hgt]
        rw [hstep]
        obtain ⟨h1, h2, h3⟩ := ih (known.compiledRegex url).length name
        refine ⟨by omega, ?_, ?_⟩
        · intro e he
          rcases List.mem_cons.1 he with rfl | he
          · exact h1
          · exact h2 e he
        · right
          rcases h3 with h3 | ⟨k, hk1, hk2, hk3⟩
          · refine ⟨known, ?_, ?_, ?_⟩
            · rw [h3]; exact List.mem_cons_self _ _
            · rw [h3]
            · rw [h3]; exact hgt
          · exact ⟨k, List.mem_cons_of_mem _ hk1, hk2, by omega⟩
      · have hstep : isKnownURLLoop ((name, known) :: rest) url c0 n0
            = isKnownURLLoop rest url c0 n0 := by
          simp [isKnownURLLoop, hgt]
        rw [hstep]
        obtain ⟨h1, h2, h3⟩ := ih c0 n0
        refine ⟨h1, ?_, ?_⟩
        · intro e he
          rcases List.mem_cons.1 he with rfl | he
          · simp only; omega
          · exact h2 e he
        · rcases h3 with h3 | ⟨k, hk1, hk2, hk3⟩
          · exact Or.inl h3
          · exact Or.inr ⟨k, List.mem_cons_of_mem _ hk1, hk2, hk3⟩

/-- A name returned by `isKnownURL` is a registered pattern with a non-empty
match of greatest length. -/
theorem isKnownURL_true (knownURLs : List (String × KnownURL)) (url name : String)
    (h : isKnownURL knownURLs url = (true, name)) :
    ∃ known, (name, known) ∈ knownURLs ∧ known.compiledRegex url ≠ []
      ∧ ∀ e ∈ knownURLs, (e.2.compiledRegex url).length ≤ (known.compiledRegex url).length := by
  obtain ⟨_, h2, h3⟩ := isKnownURLLoop_spec knownURLs url 0 ""
  unfold isKnownURL at h
  by_cases hn : (isKnownURLLoop knownURLs url 0 "").2 = ""
  · simp [hn] at h
  · simp only [hn, if_false, Prod.mk.injEq, true_and] at h
    rcases h3 with h3 | ⟨known, hk1, hk2, hk3⟩
    · rw [h3] at hn; exact absurd rfl hn
    · rw [h] at hk1
      refine ⟨known, hk1, ?_, ?_⟩
      · intro he; rw [he] at hk2; simp at hk2; omega
      · intro e he; rw [hk2]; exact h2 e he

/-- When no registered pattern matches, `isKnownURL` answers `(false, "")`. -/
theorem isKnownURL_of_no_match (knownURLs : List (String × KnownURL)) (url : String)
    (h : ∀ e ∈ knownURLs, e.2.compiledRegex url = []) :
    isKnownURL knownURLs url = (false, "") := by
  have hloop : ∀ (c0 : Nat) (n0 : String), isKnownURLLoop knownURLs url c0 n0 = (c0, n0) := by
    induction knownURLs with
    | nil => intro c0 n0; simp [isKnownURLLoop]
    | cons e rest ih =>
        intro c0 n0
        obtain ⟨name, known⟩ := e
        have he : known.compiledRegex url = [] := h (name, known) (List.mem_cons_self _ _)
        simp only [isKnownURLLoop, he, List.length_nil, gt_iff_lt, Nat.not_lt_zero, if_false]
        exact ih (fun e he => h e (List.mem_cons_of_mem _ he)) c0 n0
  simp [isKnownURL, hloop]

/-- In a map the entry of a key is the one that a lookup finds. -/
theorem lookup_of_mem_of_nodup {β : Type} (l : List (String × β))
    (hnodup : (l.map Prod.fst).Nodup) (k : String) (v : β) (h : (k, v) ∈ l) :
    l.lookup k = some v := by
  induction l with
  | nil => simp at h
  | cons e rest ih =>
      obtain ⟨k', v'⟩ := e
      simp only [List.map_cons, List.nodup_cons] at hnodup
      rcases List.mem_cons.1 h with heq | hmem
      · injection heq with h1 h2
        subst h1; subst h2
        simp [List.lookup]
      · have hne : k ≠ k' := by
          intro hk
          apply hnodup.1
          rw [← hk]
          exact List.mem_map.2 ⟨(k, v), hmem, rfl⟩
        have hb : (k == k') = false := by simpa using hne
        simp only [List.lookup, hb]
        exact ih hnodup.2 hmem

/-- With a non-empty match `getSearchQueryFromURLPattern` does not panic. -/
theorem getSearchQueryFromURLPattern_ok (knownURLs : List (String × KnownURL))
    (patternName stringToMatch : String) (pattern : KnownURL)
    (hlookup : knownURLs.lookup patternName = some pattern)
    (hmatch : pattern.compiledRegex stringToMatch ≠ []) :
    ∃ q, getSearchQueryFromURLPattern knownURLs patternName stringToMatch = .ok q := by
  unfold getSearchQueryFromURLPattern
  simp only [hlookup]
  by_cases hlen : (pattern.compiledRegex stringToMatch).length > 1
  · simp only [hlen, if_true]
    split <;> exact ⟨_, rfl⟩
  · simp only [hlen, if_false]
    cases hm : pattern.compiledRegex stringToMatch with
    | nil => exact absurd hm hmatch
    | cons m0 ms => exact ⟨_, rfl⟩

/-- Over a registry with distinct names `getSearchQueryFromURLString` does not
panic. -/
theorem getSearchQueryFromURLString_ok (knownURLs : List (String × KnownURL))
    (hmap : (knownURLs.map Prod.fst).Nodup) (url : String) :
    ∃ q, getSearchQueryFromURLString knownURLs url = .ok q := by
  unfold getSearchQueryFromURLString
  cases hk : isKnownURL knownURLs url with
  | mk known patternName =>
      cases known with
      | false => exact ⟨_, rfl⟩
      | true =>
          obtain ⟨pattern, hmem, hne, _⟩ := isKnownURL_true knownURLs url patternName hk
          simpa using getSearchQueryFromURLPattern_ok knownURLs patternName url pattern
            (lookup_of_mem_of_nodup knownURLs hmap patternName pattern hmem) hne

/-- C16: for every URL string that matches no registered known-URL pattern,
`getSearchQueryFromURLString` returns `sanitizeURL(url)` followed by `:*`, that
is the text with the protocol stripped and `:`, `(`, `)` escaped by the
replacer, with no id alternative. -/
theorem getSearchQueryFromURLString_unknown (knownURLs : List (String × KnownURL))
    (url : String) (h : ∀ e ∈ knownURLs, e.2.compiledRegex url = []) :
    getSearchQueryFromURLString knownURLs url = .ok (sanitizeURL url ++ ":*")
    ∧ sanitizeURL url
      = escapeCharFromURLString
          (Strings.TrimPrefix (Strings.TrimPrefix url "http://") "https://") := by
  refine ⟨?_, rfl⟩
  simp [getSearchQueryFromURLString, isKnownURL_of_no_match knownURLs url h]

/-- C16 at `www.google.com` with the registry after `init`: the result is
`www.google.com:*`. -/
theorem getSearchQueryFromURLString_unknown_witness :
    (∀ e ∈ sampleKnownURLs, e.2.compiledRegex "www.google.com" = [])
    ∧ getSearchQueryFromURLString sampleKnownURLs "www.google.com" = .ok "www.google.com:*" :=
  ⟨by decide,
    (getSearchQueryFromURLString_unknown sampleKnownURLs "www.google.com" (by decide)).1⟩

/-- C17: whenever `isKnownURL(url)` returns `(true, name)`, `name` is a
registered pattern that matches `url`, and no registered pattern has a longer
match on `url`, that is more capture groups (a match holds the whole match and
one entry per capture group). -/
theorem isKnownURL_most_relevant (knownURLs : List (String × KnownURL)) (url name : String)
    (h : isKnownURL knownURLs url = (true, name)) :
    ∃ known, (name, known) ∈ knownURLs ∧ known.compiledRegex url ≠ []
      ∧ ∀ other ∈ knownURLs,
          (other.2.compiledRegex url).length ≤ (known.compiledRegex url).length := by
  obtain ⟨known, hmem, hne, hmax⟩ := isKnownURL_true knownURLs url name h
  exact ⟨known, hmem, hne, hmax⟩

/-- C17 at a board-detail URL with the registry after `init`. -/
theorem isKnownURL_most_relevant_witness :
    isKnownURL sampleKnownURLs "demo.almighty.io/work-item/board/detail/77"
        = (true, "test-work-item-board-details")
    ∧ ∃ known, ("test-work-item-board-details", known) ∈ sampleKnownURLs
      ∧ known.compiledRegex "demo.almighty.io/work-item/board/detail/77" ≠ []
      ∧ ∀ other ∈ sampleKnownURLs,
          (other.2.compiledRegex "demo.almighty.io/work-item/board/detail/77").length
            ≤ (known.compiledRegex "demo.almighty.io/work-item/board/detail/77").length :=
  ⟨by decide, isKnownURL_most_relevant sampleKnownURLs _ _ (by decide)⟩

/-! Type tokens. -/

theorem length_eq_zero_iff (s : String) : s.length = 0 ↔ s = "" := by
  constructor
  · intro h
    have hd : s.data = [] := List.length_eq_zero.1 h
    cases s with
    | mk d => simp only at hd; subst hd; rfl
  · intro h; subst h; rfl

/-- The entry read from the map built by the loop over the group names is the
text of the last group of that name. -/
theorem mapGet_groupResultLoop (names : List String) (submatch : List String)
    (name : String) :
    ∀ (i : Nat) (result : List (String × String)),
      mapGet (groupResultLoop names i submatch result) name
        = match lastGroupNamed names i submatch name with
          | some v => v
          | none => mapGet result name := by
  induction names with
  | nil => intro i result; simp [groupResultLoop, lastGroupNamed]
  | cons nm names ih =>
      intro i result
      by_cases hi : i = 0
      · subst hi
        simp only [groupResultLoop, if_true, lastGroupNamed, ih]
        cases lastGroupNamed names (0 + 1) submatch name <;> simp
      · have hloop : groupResultLoop (nm :: names) i submatch result
            = groupResultLoop names (i + 1) submatch ((nm, submatch.getD i "") :: result) := by
          simp only [groupResultLoop, hi, if_false]
          split
          · rename_i hgt
            have hle : submatch.length ≤ i := by omega
            have hnone : submatch[i]? = none := List.getElem?_eq_none hle
            simp [List.getD, hnone]
          · rfl
        rw [hloop, ih]
        simp only [lastGroupNamed]
        cases lastGroupNamed names (i + 1) submatch name with
        | some v => rfl
        | none =>
            by_cases hnm : nm = name
            · subst hnm
              simp [mapGet, List.lookup, hi]
            · have hb : (name == nm) = false := by
                simpa using fun h => hnm h.symm
              simp [mapGet, List.lookup, hi, hnm, hb]

theorem join_foldl (l : List String) :
    ∀ acc : String, l.foldl (fun r s => r ++ s) acc = acc ++ l.foldl (fun r s => r ++ s) "" := by
  induction l with
  | nil => intro acc; simp
  | cons a l ih =>
      intro acc
      rw [List.foldl_cons, ih, List.foldl_cons, ih ("" ++ a)]
      simp [String.append_assoc]

/-- Joining with the empty separator is concatenation. -/
theorem Join_empty_separator (l : List String) : Strings.Join l "" = String.join l := by
  have hcons : ∀ (a : String) (l : List String), String.join (a :: l) = a ++ String.join l := by
    intro a l
    simp only [String.join, List.foldl_cons]
    rw [join_foldl]
    simp
  induction l with
  | nil => rfl
  | cons a l ih =>
      cases l with
      | nil => simp [Strings.Join, hcons, String.join]
      | cons b rest =>
          rw [hcons, ← ih]
          simp [Strings.Join]

/-- Replacing a character that does not occur changes nothing. -/
theorem Replace_of_not_mem (s : String) (old : Char) (new : String) (h : old ∉ s.data) :
    Strings.Replace s old new = s := by
  have hl : ∀ l : List Char, old ∉ l →
      (l.flatMap fun c => if c = old then new.data else [c]) = l := by
    intro l
    induction l with
    | nil => intro _; rfl
    | cons c cs ih =>
        intro hmem
        have hc : c ≠ old := fun e => hmem (by simp [e])
        have hcs : old ∉ cs := fun e => hmem (List.mem_cons_of_mem _ e)
        simp [List.flatMap_cons, hc, ih hcs]
  unfold Strings.Replace
  rw [hl s.data h]

/-- For a text on which the pattern registered under `patternName` matches
with capture groups `g1..gk` (`k >= 1`), `getSearchQueryFromURLPattern` returns
the concatenation `g1..gk` with every `:` replaced by `\:`, followed by `:*`,
and, exactly when the group named `id` is non-empty, wraps it as
`(<id>:* | <that string>)`.  With the group names and groups of the
list-details pattern, for every non-empty digit string `d` the result is
`(<d>:* | demo.almighty.io/work-item/list/detail/<d>:*)`. -/
theorem getSearchQueryFromURLPattern_of_groups (knownURLs : List (String × KnownURL))
    (patternName stringToMatch : String) (pattern : KnownURL) (whole g1 : String)
    (gs : List String)
    (hlookup : knownURLs.lookup patternName = some pattern)
    (hmatch : pattern.compiledRegex stringToMatch = whole :: g1 :: gs) :
    getSearchQueryFromURLPattern knownURLs patternName stringToMatch
      = .ok (if groupNamed pattern.groupNamesInRegex (whole :: g1 :: gs) "id" ≠ "" then
          "(" ++ groupNamed pattern.groupNamesInRegex (whole :: g1 :: gs) "id" ++ ":* | "
            ++ (Strings.Replace (String.join (g1 :: gs)) ':' "\\:" ++ ":*") ++ ")"
        else Strings.Replace (String.join (g1 :: gs)) ':' "\\:" ++ ":*")
    ∧ (∀ d : String, d ≠ "" → (∀ c ∈ d.data, c.isDigit = true) →
        pattern.groupNamesInRegex = ["", "domain", "path", "id"] →
        g1 :: gs = ["demo.almighty.io", "/work-item/list/detail/", d] →
        getSearchQueryFromURLPattern knownURLs patternName stringToMatch
          = .ok ("(" ++ d ++ ":* | demo.almighty.io/work-item/list/detail/" ++ d ++ ":*)")) := by
  have hid : mapGet (groupResultLoop pattern.groupNamesInRegex 0 (whole :: g1 :: gs) []) "id"
      = groupNamed pattern.groupNamesInRegex (whole :: g1 :: gs) "id" := by
    rw [mapGet_groupResultLoop]
    unfold groupNamed
    cases lastGroupNamed pattern.groupNamesInRegex 0 (whole :: g1 :: gs) "id" <;>
      simp [mapGet, List.lookup]
  have hmain : getSearchQueryFromURLPattern knownURLs patternName stringToMatch
      = .ok (if groupNamed pattern.groupNamesInRegex (whole :: g1 :: gs) "id" ≠ "" then
          "(" ++ groupNamed pattern.groupNamesInRegex (whole :: g1 :: gs) "id" ++ ":* | "
            ++ (Strings.Replace (String.join (g1 :: gs)) ':' "\\:" ++ ":*") ++ ")"
        else Strings.Replace (String.join (g1 :: gs)) ':' "\\:" ++ ":*") := by
    unfold getSearchQueryFromURLPattern
    simp only [hlookup, hmatch, hid]
    have hlen : (whole :: g1 :: gs).length > 1 := by simp
    simp only [hlen, if_true, List.drop_succ_cons, List.drop_zero, Join_empty_separator]
    split <;> rfl
  refine ⟨hmain, ?_⟩
  intro d hd hdigits hnames hgroups
  injection hgroups with hg1 hgs
  subst hg1
  subst hgs
  have hcolon : ':' ∉ d.data := by
    intro hmem
    have := hdigits ':' hmem
    exact absurd this (by decide)
  have hjoin : String.join ["demo.almighty.io", "/work-item/list/detail/", d]
      = "demo.almighty.io/work-item/list/detail/" ++ d := by
    rw [← Join_empty_separator]
    simp only [Strings.Join, String.append_empty]
    rw [← String.append_assoc]
    rfl
  have hnocolon : ':' ∉ ("demo.almighty.io/work-item/list/detail/" ++ d).data := by
    rw [String.data_append, List.mem_append]
    rintro (h | h)
    · exact absurd h (by decide)
    · exact hcolon h
  have hgroup : groupNamed ["", "domain", "path", "id"]
      [whole, "demo.almighty.io", "/work-item/list/detail/", d] "id" = d := by
    simp [groupNamed, lastGroupNamed]
  rw [hmain, hnames, hgroup, hjoin, Replace_of_not_mem _ _ _ hnocolon]
  simp only [ne_eq, hd, not_false_eq_true, if_true]
  congr 1
  apply String.ext
  simp [String.data_append]

/-- The call `strings.Replace(s, ":", "\\:", -1)` puts a backslash before
every `:` and changes no other character. -/
theorem Replace_colon (s : String) :
    Strings.Replace s ':' "\\:"
      = String.mk (s.data.flatMap fun c => if c = ':' then ['\\', ':'] else [c]) := rfl

/-- A literal without line feed is read at the start of every text that
begins with it. -/
theorem matchesLiteral_append (p t : List Char) (h : '\n' ∉ p) :
    matchesLiteral p (p ++ t) = true := by
  induction p with
  | nil => simp [matchesLiteral]
  | cons a ps ih =>
      have ha : a ≠ '\n' := fun e => h (by simp [e])
      have hps : '\n' ∉ ps := fun e => h (List.mem_cons_of_mem _ e)
      have hrest := ih hps
      simp only [List.cons_append, matchesLiteral]
      split
      · simpa [hrest] using ha
      · simp [hrest]

/-- The list-details pattern on `demo.almighty.io/work-item/list/detail/<d>`
for a digit string `d`: the whole text, the domain, the path and `d`. -/
theorem detailMatcher_digits (d : String) (hdigits : ∀ c ∈ d.data, c.isDigit = true) :
    detailMatcher "/work-item/list/detail/" ("demo.almighty.io/work-item/list/detail/" ++ d)
      = ["demo.almighty.io/work-item/list/detail/" ++ d, "demo.almighty.io",
         "/work-item/list/detail/", d] := by
  cases d with
  | mk dd =>
      have hdata : ("demo.almighty.io/work-item/list/detail/" ++ String.mk dd).data
          = ("demo.almighty.io" ++ "/work-item/list/detail/").data ++ dd := rfl
      have hlit : matchesLiteral ("demo.almighty.io" ++ "/work-item/list/detail/").data
          (("demo.almighty.io" ++ "/work-item/list/detail/").data ++ dd) = true :=
        matchesLiteral_append _ dd (by decide)
      have htake : dd.takeWhile Char.isDigit = dd := by
        rw [List.takeWhile_eq_self_iff]
        exact hdigits
      have hsearch : detailSearch "/work-item/list/detail/"
          (("demo.almighty.io" ++ "/work-item/list/detail/").data ++ dd)
          = [String.mk (("demo.almighty.io" ++ "/work-item/list/detail/").data ++ dd),
             "demo.almighty.io", "/work-item/list/detail/", String.mk dd] := by
        have hcons : ("demo.almighty.io" ++ "/work-item/list/detail/").data ++ dd
            = 'd' :: (("emo.almighty.io" ++ "/work-item/list/detail/").data ++ dd) := rfl
        rw [hcons, detailSearch, ← hcons, detailMatchAt, if_pos hlit]
        have hdrop : (("demo.almighty.io" ++ "/work-item/list/detail/").data ++ dd).drop
            ("demo.almighty.io" ++ "/work-item/list/detail/").data.length = dd := by
          rw [List.drop_left]
        have ht1 : (("demo.almighty.io" ++ "/work-item/list/detail/").data ++ dd).take
            "demo.almighty.io".data.length = "demo.almighty.io".data := rfl
        have ht2 : ((("demo.almighty.io" ++ "/work-item/list/detail/").data ++ dd).drop
            "demo.almighty.io".data.length).take "/work-item/list/detail/".data.length
            = "/work-item/list/detail/".data := rfl
        simp only [hdrop, ht1, ht2, htake]
        congr 1
      unfold detailMatcher
      rw [hdata, hsearch]
      rfl

/-- C15 (the code departs from the claim): `getSearchQueryFromURLPattern`
escapes only `:` in the joined groups.  The list-details pattern of `init`
matches `demo(almighty)io/work-item/list/detail/100` (its dots stand for any
character) and the result keeps both parentheses unescaped, while
`sanitizeURL`, used for a URL that matches no pattern, escapes them; on
`demo:almighty:io/work-item/list/detail/100` the colons are escaped.  In
general, for a match with groups `g1..gk` the result is the concatenation of
the groups with a backslash before every `:` and no other change, followed
by `:*`, wrapped as `(<id>:* | <that string>)` exactly when the group named
`id` is non-empty; for every non-empty digit string `d` the token
`demo.almighty.io/work-item/list/detail/<d>` gives
`(<d>:* | demo.almighty.io/work-item/list/detail/<d>:*)`. -/
theorem getSearchQueryFromURLPattern_keeps_parentheses :
    detailMatcher "/work-item/list/detail/" "demo(almighty)io/work-item/list/detail/100"
      = ["demo(almighty)io/work-item/list/detail/100", "demo(almighty)io",
         "/work-item/list/detail/", "100"]
    ∧ getSearchQueryFromURLPattern sampleKnownURLs "test-work-item-list-details"
        "demo(almighty)io/work-item/list/detail/100"
      = .ok "(100:* | demo(almighty)io/work-item/list/detail/100:*)"
    ∧ getSearchQueryFromURLString sampleKnownURLs "demo(almighty)io/work-item/list/detail/100"
      = .ok "(100:* | demo(almighty)io/work-item/list/detail/100:*)"
    ∧ sanitizeURL "demo(almighty)io/work-item/list/detail/100" ++ ":*"
      = "demo\\(almighty\\)io/work-item/list/detail/100:*"
    ∧ getSearchQueryFromURLPattern sampleKnownURLs "test-work-item-list-details"
        "demo:almighty:io/work-item/list/detail/100"
      = .ok "(100:* | demo\\:almighty\\:io/work-item/list/detail/100:*)"
    ∧ (∀ (knownURLs : List (String × KnownURL)) (patternName stringToMatch : String)
        (pattern : KnownURL) (whole g1 : String) (gs : List String),
        knownURLs.lookup patternName = some pattern →
        pattern.compiledRegex stringToMatch = whole :: g1 :: gs →
        getSearchQueryFromURLPattern knownURLs patternName stringToMatch
          = .ok (if groupNamed pattern.groupNamesInRegex (whole :: g1 :: gs) "id" ≠ "" then
              "(" ++ groupNamed pattern.groupNamesInRegex (whole :: g1 :: gs) "id" ++ ":* | "
                ++ (String.mk ((String.join (g1 :: gs)).data.flatMap
                      fun c => if c = ':' then ['\\', ':'] else [c]) ++ ":*") ++ ")"
            else String.mk ((String.join (g1 :: gs)).data.flatMap
                      fun c => if c = ':' then ['\\', ':'] else [c]) ++ ":*"))
    ∧ (∀ d : String, d ≠ "" → (∀ c ∈ d.data, c.isDigit = true) →
        getSearchQueryFromURLPattern sampleKnownURLs "test-work-item-list-details"
            ("demo.almighty.io/work-item/list/detail/" ++ d)
          = .ok ("(" ++ d ++ ":* | demo.almighty.io/work-item/list/detail/" ++ d ++ ":*)")) := by
  refine ⟨by rfl, by rfl, by rfl, by decide, by rfl, ?_, ?_⟩
  · intro knownURLs patternName stringToMatch pattern whole g1 gs hlookup hmatch
    rw [(getSearchQueryFromURLPattern_of_groups knownURLs patternName stringToMatch pattern
      whole g1 gs hlookup hmatch).1, Replace_colon]
  · intro d hd hdigits
    exact (getSearchQueryFromURLPattern_of_groups sampleKnownURLs "test-work-item-list-details"
      ("demo.almighty.io/work-item/list/detail/" ++ d)
      { URLRegex := "(?P<domain>demo.almighty.io)(?P<path>/work-item/list/detail/)(?P<id>\\d*)"
        compiledRegex := detailMatcher "/work-item/list/detail/"
        groupNamesInRegex := ["", "domain", "path", "id"] }
      ("demo.almighty.io/work-item/list/detail/" ++ d) "demo.almighty.io"
      ["/work-item/list/detail/", d] (by rfl) (detailMatcher_digits d hdigits)).2
      d hd hdigits rfl rfl

/-! Query string and pagination. -/

/-- C18: `generateSQLSearchInfo` returns the empty string when both lists are
empty, the numeric tokens joined by ` & ` when the word group is empty, the
word tokens joined by ` & ` when the numeric group is empty, and
`<numeric joined> & <words joined>` when both joined groups are non-empty; the
type-filter list does not influence the result. -/
theorem generateSQLSearchInfo_cases (keywords : searchKeyword) :
    (keywords.number = [] → keywords.words = [] → generateSQLSearchInfo keywords = "")
    ∧ (keywords.words = [] →
        generateSQLSearchInfo keywords = Strings.Join keywords.number " & ")
    ∧ (keywords.number = [] →
        generateSQLSearchInfo keywords = Strings.Join keywords.words " & ")
    ∧ (Strings.Join keywords.words " & " = "" →
        generateSQLSearchInfo keywords = Strings.Join keywords.number " & ")
    ∧ (Strings.Join keywords.number " & " = "" →
        generateSQLSearchInfo keywords = Strings.Join keywords.words " & ")
    ∧ (Strings.Join keywords.number " & " ≠ "" → Strings.Join keywords.words " & " ≠ "" →
        generateSQLSearchInfo keywords
          = Strings.Join keywords.number " & " ++ " & " ++ Strings.Join keywords.words " & ")
    ∧ (∀ types : List UUID,
        generateSQLSearchInfo { keywords with workItemTypes := types }
          = generateSQLSearchInfo keywords) := by
  have hw : Strings.Join keywords.words " & " = "" →
      generateSQLSearchInfo keywords = Strings.Join keywords.number " & " := by
    intro h
    by_cases hn : Strings.Join keywords.number " & " = ""
    · simp [generateSQLSearchInfo, h, hn, Strings.Join]
    · simp [generateSQLSearchInfo, h, hn, Strings.Join]
  have hn : Strings.Join keywords.number " & " = "" →
      generateSQLSearchInfo keywords = Strings.Join keywords.words " & " := by
    intro h
    by_cases hw' : Strings.Join keywords.words " & " = ""
    · simp [generateSQLSearchInfo, h, hw', Strings.Join]
    · simp [generateSQLSearchInfo, h, hw', Strings.Join]
  refine ⟨?_, ?_, ?_, hw, hn, ?_, ?_⟩
  · intro h1 h2
    rw [hw (by rw [h2]; rfl), h1]
    rfl
  · intro h2
    exact hw (by rw [h2]; rfl)
  · intro h1
    exact hn (by rw [h1]; rfl)
  · intro h1 h2
    simp [generateSQLSearchInfo, h1, h2, Strings.Join]
  · intro types
    rfl

/-- The start block fails exactly on a supplied negative start. -/
theorem checkStart_spec (start : Option Int) :
    ((∃ s, start = some s ∧ s < 0 ∧ checkStart start = .error (Error.BadParameterInt "start" s))
      ∨ ((¬ ∃ s, start = some s ∧ s < 0)
        ∧ checkStart start = .ok (start.map Int.toNat))) := by
  cases start with
  | none => right; simp [checkStart]
  | some s =>
      by_cases hs : s < 0
      · left; exact ⟨s, rfl, hs, by simp [checkStart, hs]⟩
      · right; simp [checkStart, hs]

/-- The limit block fails exactly on a supplied limit that is not positive. -/
theorem checkLimit_spec (limit : Option Int) :
    ((∃ l, limit = some l ∧ l ≤ 0 ∧ checkLimit limit = .error (Error.BadParameterInt "limit" l))
      ∨ ((¬ ∃ l, limit = some l ∧ l ≤ 0)
        ∧ checkLimit limit = .ok (limit.map Int.toNat))) := by
  cases limit with
  | none => right; simp [checkLimit]
  | some l =>
      by_cases hl : l ≤ 0
      · left; exact ⟨l, rfl, hl, by simp [checkLimit, hl]⟩
      · right; simp [checkLimit, hl]

/-- C19: in `search` and, once the expression compiles, in `listItemsFromDB`,
an error is returned if and only if a start is supplied and is negative or a
limit is supplied and is not positive; the error is then a BadParameter error
for `start` or `limit` holding the offending value, with no rows and count 0;
otherwise the page is cut with exactly the supplied start and limit. -/
theorem pagination_validation {Row : Type} (matching : List Row)
    (Compile : Expression → Except (List String) (String × List LiteralValue))
    (table : String → List LiteralValue → List Row) (criteria : Expression)
    (whereClause : String) (parameters : List LiteralValue)
    (hcompile : Compile criteria = .ok (whereClause, parameters))
    (start limit : Option Int) :
    (((∃ err, (search matching start limit).2.2 = some err) ↔ badPagination start limit)
      ∧ (badPagination start limit →
          (∃ s, start = some s ∧ s < 0
              ∧ search matching start limit = ([], 0, some (Error.BadParameterInt "start" s)))
            ∨ (∃ l, limit = some l ∧ l ≤ 0
              ∧ search matching start limit = ([], 0, some (Error.BadParameterInt "limit" l))))
      ∧ (¬ badPagination start limit →
          (search matching start limit).1
            = pageRows matching (start.map Int.toNat) (limit.map Int.toNat)))
    ∧ (((∃ err, (listItemsFromDB Compile table criteria start limit).2.2 = some err)
          ↔ badPagination start limit)
      ∧ (badPagination start limit →
          (∃ s, start = some s ∧ s < 0
              ∧ listItemsFromDB Compile table criteria start limit
                = ([], 0, some (Error.BadParameterInt "start" s)))
            ∨ (∃ l, limit = some l ∧ l ≤ 0
              ∧ listItemsFromDB Compile table criteria start limit
                = ([], 0, some (Error.BadParameterInt "limit" l))))
      ∧ (¬ badPagination start limit →
          (listItemsFromDB Compile table criteria start limit).1
            = pageRows (table whereClause parameters) (start.map Int.toNat)
                (limit.map Int.toNat))) := by
  rcases checkStart_spec start with ⟨s, hs1, hs2, hs3⟩ | ⟨hs1, hs2⟩
  · have hbad : badPagination start limit := Or.inl ⟨s, hs1, hs2⟩
    have e1 : search matching start limit = ([], 0, some (Error.BadParameterInt "start" s)) := by
      simp [search, hs3]
    have e2 : listItemsFromDB Compile table criteria start limit
        = ([], 0, some (Error.BadParameterInt "start" s)) := by
      simp [listItemsFromDB, hcompile, hs3]
    refine ⟨⟨⟨fun _ => hbad, fun _ => ⟨_, by rw [e1]⟩⟩, fun _ => Or.inl ⟨s, hs1, hs2, e1⟩,
        fun h => absurd hbad h⟩,
      ⟨⟨fun _ => hbad, fun _ => ⟨_, by rw [e2]⟩⟩, fun _ => Or.inl ⟨s, hs1, hs2, e2⟩,
        fun h => absurd hbad h⟩⟩
  · rcases checkLimit_spec limit with ⟨l, hl1, hl2, hl3⟩ | ⟨hl1, hl2⟩
    · have hbad : badPagination start limit := Or.inr ⟨l, hl1, hl2⟩
      have e1 : search matching start limit
          = ([], 0, some (Error.BadParameterInt "limit" l)) := by
        simp [search, hs2, hl3]
      have e2 : listItemsFromDB Compile table criteria start limit
          = ([], 0, some (Error.BadParameterInt "limit" l)) := by
        simp [listItemsFromDB, hcompile, hs2, hl3]
      refine ⟨⟨⟨fun _ => hbad, fun _ => ⟨_, by rw [e1]⟩⟩, fun _ => Or.inr ⟨l, hl1, hl2, e1⟩,
          fun h => absurd hbad h⟩,
        ⟨⟨fun _ => hbad, fun _ => ⟨_, by rw [e2]⟩⟩, fun _ => Or.inr ⟨l, hl1, hl2, e2⟩,
          fun h => absurd hbad h⟩⟩
    · have hgood : ¬ badPagination start limit := by
        rintro (⟨s, h1, h2⟩ | ⟨l, h1, h2⟩)
        · exact hs1 ⟨s, h1, h2⟩
        · exact hl1 ⟨l, h1, h2⟩
      have e1 : (search matching start limit).2.2 = none
          ∧ (search matching start limit).1
            = pageRows matching (start.map Int.toNat) (limit.map Int.toNat) := by
        simp [search, hs2, hl2]
      have e2 : (listItemsFromDB Compile table criteria start limit).2.2 = none
          ∧ (listItemsFromDB Compile table criteria start limit).1
            = pageRows (table whereClause parameters) (start.map Int.toNat)
                (limit.map Int.toNat) := by
        simp [listItemsFromDB, hcompile, hs2, hl2]
      refine ⟨⟨⟨?_, fun h => absurd h hgood⟩, fun h => absurd h hgood, fun _ => e1.2⟩,
        ⟨⟨?_, fun h => absurd h hgood⟩, fun h => absurd h hgood, fun _ => e2.2⟩⟩
      · rintro ⟨err, herr⟩
        rw [e1.1] at herr
        exact absurd herr (by simp)
      · rintro ⟨err, herr⟩
        rw [e2.1] at herr
        exact absurd herr (by simp)

/-- C19 on three matching rows: `start = -1` is rejected, `limit = 0` is
rejected, and `start = 0, limit = 10` passes with the three rows, in `search`
and in `listItemsFromDB`. -/
theorem pagination_validation_witness :
    search [1, 2, 3] (some (-1)) (some 10) = ([], 0, some (Error.BadParameterInt "start" (-1)))
    ∧ listItemsFromDB (fun _ => .ok ("", [])) (fun _ _ => [1, 2, 3]) Expression.nil
        none (some 0) = ([], 0, some (Error.BadParameterInt "limit" 0))
    ∧ (search [1, 2, 3] (some 0) (some 10)).1 = [1, 2, 3]
    ∧ (listItemsFromDB (fun _ => .ok ("", [])) (fun _ _ => [1, 2, 3]) Expression.nil
        (some 0) (some 10)).1 = [1, 2, 3] := by
  have h1 := pagination_validation [1, 2, 3] (fun _ => .ok ("", [])) (fun _ _ => [1, 2, 3])
    Expression.nil "" [] rfl (some (-1)) (some 10)
  have h2 := pagination_validation [1, 2, 3] (fun _ => .ok ("", [])) (fun _ _ => [1, 2, 3])
    Expression.nil "" [] rfl none (some 0)
  have h3 := pagination_validation [1, 2, 3] (fun _ => .ok ("", [])) (fun _ _ => [1, 2, 3])
    Expression.nil "" [] rfl (some 0) (some 10)
  have g : ¬ badPagination (some 0) (some 10) := by
    rintro (⟨s, hs, hlt⟩ | ⟨l, hl, hle⟩)
    · injection hs with hs; omega
    · injection hl with hl; omega
  refine ⟨?_, ?_, h3.1.2.2 g, h3.2.2.2 g⟩
  · rcases h1.1.2.1 (Or.inl ⟨-1, rfl, by decide⟩) with ⟨s, hs, _, e⟩ | ⟨l, hl, hle, _⟩
    · injection hs with hs; subst hs; exact e
    · injection hl with hl; omega
  · rcases h2.2.2.1 (Or.inr ⟨0, rfl, by decide⟩) with ⟨s, hs, _, _⟩ | ⟨l, hl, _, e⟩
    · exact absurd hs (by simp)
    · injection hl with hl; subst hl; exact e

end Search

namespace Workitem

/-! Table joins. -/

theorem handlesFieldNameLoop_iff (activators : List String) (fieldName : String) :
    handlesFieldNameLoop activators fieldName = true
      ↔ ∃ t ∈ activators, Strings.HasPrefix fieldName t = true := by
  induction activators with
  | nil => simp [handlesFieldNameLoop]
  | cons t rest ih =>
      by_cases ht : Strings.HasPrefix fieldName t = true
      · simp [handlesFieldNameLoop, ht]
      · simp [handlesFieldNameLoop, ht, ih]

/-- C20: `HandlesFieldName` returns true if and only if at least one of the
join's `prefixActivators` is a prefix of the field name, and it leaves the join
as it was. -/
theorem HandlesFieldName_iff (j : TableJoin) (fieldName : String) :
    ((j.HandlesFieldName fieldName).1 = true
      ↔ ∃ t ∈ j.prefixActivators, t.data <+: fieldName.data)
    ∧ (j.HandlesFieldName fieldName).2 = j := by
  refine ⟨?_, rfl⟩
  simp only [TableJoin.HandlesFieldName, handlesFieldNameLoop_iff, Strings.HasPrefix_iff]

end Workitem

namespace Workitem

/-! Translation of field names by a table join. -/

/-- A field name that the join does not handle is refused and the join is left
as it was. -/
theorem TranslateFieldName_not_handled (j : TableJoin) (fieldName : String)
    (h : j.handles fieldName = false) :
    j.TranslateFieldName fieldName = (("", some (JoinError.notHandled fieldName)), j) := by
  have h' : (j.HandlesFieldName fieldName).1 = false := h
  simp [TableJoin.TranslateFieldName, h']

/-- The four outcomes of `TranslateFieldName` on a handled field name, by its
column part. -/
theorem TranslateFieldName_handled (j : TableJoin) (fieldName : String)
    (h : j.handles fieldName = true) :
    j.TranslateFieldName fieldName
      = if j.columnPart fieldName = "" then
          (("", some (JoinError.emptyColumn fieldName
            (matchedPrefixLoop j.prefixActivators fieldName ""))), j.Activate)
        else if Strings.Contains (j.columnPart fieldName) singleQuote then
          (("", some (JoinError.singleQuoteInColumn (j.columnPart fieldName))), j.Activate)
        else if (j.allowedColumns.isEmpty || j.allowedColumns.contains (j.columnPart fieldName))
            && !j.disallowedColumns.contains (j.columnPart fieldName) then
          ((j.tableAlias ++ "." ++ j.columnPart fieldName, none),
            { j.Activate with handledFields := j.handledFields ++ [j.columnPart fieldName] })
        else
          (("", some (JoinError.columnNotAllowed (j.columnPart fieldName))), j.Activate) := by
  have h' : (j.HandlesFieldName fieldName).1 = true := h
  simp only [TableJoin.TranslateFieldName, h', Bool.not_true, TableJoin.columnPart,
    TableJoin.Activate]
  by_cases h1 : Strings.TrimSpace
      (Strings.TrimPrefix fieldName (matchedPrefixLoop j.prefixActivators fieldName "")) = ""
  · simp [h1]
  · by_cases h2 : Strings.Contains (Strings.TrimSpace
        (Strings.TrimPrefix fieldName (matchedPrefixLoop j.prefixActivators fieldName "")))
        singleQuote = true
    · simp [h1, h2]
    · by_cases h3 : Strings.TrimSpace
          (Strings.TrimPrefix fieldName (matchedPrefixLoop j.prefixActivators fieldName ""))
          ∈ j.disallowedColumns
      · simp [h1, h2, h3]
      · by_cases h4 : Strings.TrimSpace
            (Strings.TrimPrefix fieldName (matchedPrefixLoop j.prefixActivators fieldName ""))
            ∈ j.allowedColumns
        · simp [h1, h2, h3, h4]
        · by_cases h5 : j.allowedColumns = []
          · simp [h1, h2, h3, h5]
          · simp [h1, h2, h3, h4, h5]

/-- C21: for every TableJoin and every handled field name whose column part
`c` is non-empty and free of quotes, `TranslateFieldName` succeeds if and only
if the allow-list is empty or contains `c`, and the deny-list does not contain
`c`; a column in both lists is rejected, and with both lists empty the column
is accepted. -/
theorem TranslateFieldName_allow_deny (j : TableJoin) (fieldName : String)
    (hh : j.handles fieldName = true) (hne : j.columnPart fieldName ≠ "")
    (hq1 : singleQuote ∉ (j.columnPart fieldName).data)
    (hq2 : doubleQuote ∉ (j.columnPart fieldName).data) :
    ((j.TranslateFieldName fieldName).1.2 = none
      ↔ (j.allowedColumns = [] ∨ j.columnPart fieldName ∈ j.allowedColumns)
        ∧ j.columnPart fieldName ∉ j.disallowedColumns)
    ∧ (j.columnPart fieldName ∈ j.allowedColumns →
        j.columnPart fieldName ∈ j.disallowedColumns →
        (j.TranslateFieldName fieldName).1.2 ≠ none)
    ∧ (j.allowedColumns = [] → j.disallowedColumns = [] →
        (j.TranslateFieldName fieldName).1.2 = none) := by
  have _ := hq2
  have hq : Strings.Contains (j.columnPart fieldName) singleQuote = false := by
    simpa [Strings.Contains] using hq1
  have hiff : (j.TranslateFieldName fieldName).1.2 = none
      ↔ (j.allowedColumns = [] ∨ j.columnPart fieldName ∈ j.allowedColumns)
        ∧ j.columnPart fieldName ∉ j.disallowedColumns := by
    rw [TranslateFieldName_handled j fieldName hh]
    simp only [hne, if_false, hq, Bool.false_eq_true]
    by_cases hc : ((j.allowedColumns.isEmpty || j.allowedColumns.contains (j.columnPart fieldName))
        && !j.disallowedColumns.contains (j.columnPart fieldName)) = true
    · simp only [hc, if_true, true_iff]
      simpa [List.isEmpty_iff] using hc
    · simp only [hc, if_false]
      have hc' : ¬ ((j.allowedColumns = [] ∨ j.columnPart fieldName ∈ j.allowedColumns)
          ∧ j.columnPart fieldName ∉ j.disallowedColumns) := by
        simpa [List.isEmpty_iff] using hc
      simp [hc']
  refine ⟨hiff, ?_, ?_⟩
  · intro ha hd hnone
    exact (hiff.1 hnone).2 hd
  · intro ha hd
    exact hiff.2 ⟨Or.inl ha, by rw [hd]; simp⟩

/-- C21 on the join `iteration`: with allow-list `[name]` the field
`iteration.name` is accepted, and with `name` in both lists it is rejected. -/
theorem TranslateFieldName_allow_deny_witness :
    ({ sampleJoin with allowedColumns := ["name"] } : TableJoin).handles "iteration.name" = true
    ∧ (({ sampleJoin with allowedColumns := ["name"] } : TableJoin).TranslateFieldName
        "iteration.name").1.2 = none
    ∧ (({ sampleJoin with allowedColumns := ["name"], disallowedColumns := ["name"] }
        : TableJoin).TranslateFieldName "iteration.name").1.2 ≠ none :=
  ⟨by decide,
    (TranslateFieldName_allow_deny { sampleJoin with allowedColumns := ["name"] }
      "iteration.name" (by decide) (by decide) (by decide) (by decide)).1.2
      ⟨Or.inr (by decide), by decide⟩,
    (TranslateFieldName_allow_deny
      { sampleJoin with allowedColumns := ["name"], disallowedColumns := ["name"] }
      "iteration.name" (by decide) (by decide) (by decide) (by decide)).2.1
      (by decide) (by decide)⟩

/-- C22 as stated fails: a double quote in the column part is not rejected;
the join `iteration` translates the handled field name `iteration.na"me` to
`iter.na"me` without error. -/
theorem TranslateFieldName_double_quote_counterexample :
    sampleJoin.handles "iteration.na\"me" = true
    ∧ doubleQuote ∈ (sampleJoin.columnPart "iteration.na\"me").data
    ∧ (sampleJoin.TranslateFieldName "iteration.na\"me").1 = ("iter.na\"me", none) := by
  decide

/-- C22 (amended): for every TableJoin, `TranslateFieldName` returns an error,
with the empty string, for every handled field name whose column part contains
a single quote, so every translated name it returns is the alias, a dot and a
column without single quote; for example `iteration.na'me` is refused. -/
theorem TranslateFieldName_single_quote (j : TableJoin) (fieldName : String) :
    (j.handles fieldName = true → singleQuote ∈ (j.columnPart fieldName).data →
      (j.TranslateFieldName fieldName).1
        = ("", some (JoinError.singleQuoteInColumn (j.columnPart fieldName))))
    ∧ (∀ translated : String, (j.TranslateFieldName fieldName).1 = (translated, none) →
        translated = j.tableAlias ++ "." ++ j.columnPart fieldName
          ∧ singleQuote ∉ (j.columnPart fieldName).data)
    ∧ (sampleJoin.TranslateFieldName "iteration.na'me").1
        = ("", some (JoinError.singleQuoteInColumn "na'me")) := by
  refine ⟨?_, ?_, by decide⟩
  · intro hh hq
    have hc : Strings.Contains (j.columnPart fieldName) singleQuote = true := by
      simpa [Strings.Contains] using hq
    have hne : j.columnPart fieldName ≠ "" := by
      intro h; rw [h] at hq; simp at hq
    rw [TranslateFieldName_handled j fieldName hh]
    simp [hne, hc]
  · intro translated hres
    cases hh : j.handles fieldName with
    | false =>
        rw [TranslateFieldName_not_handled j fieldName hh] at hres
        simp at hres
    | true =>
        rw [TranslateFieldName_handled j fieldName hh] at hres
        by_cases h1 : j.columnPart fieldName = ""
        · simp [h1] at hres
        · by_cases h2 : Strings.Contains (j.columnPart fieldName) singleQuote = true
          · simp [h1, h2] at hres
          · have hq : singleQuote ∉ (j.columnPart fieldName).data := by
              simpa [Strings.Contains] using h2
            by_cases h3 : ((j.allowedColumns.isEmpty
                || j.allowedColumns.contains (j.columnPart fieldName))
                && !j.disallowedColumns.contains (j.columnPart fieldName)) = true
            · simp only [h1, h2, h3, if_true, if_false, Bool.false_eq_true] at hres
              injection hres with hs _
              exact ⟨hs.symm, hq⟩
            · simp only [h1, h2, h3, if_false, Bool.false_eq_true] at hres
              simp at hres

/-- C23 as stated fails: an error does not leave the active flag as it was.
On the inactive join `iteration` the handled field name `iteration.` has an
empty column and is refused, yet the join is active afterwards. -/
theorem TranslateFieldName_error_activates_counterexample :
    sampleJoin.active = false
    ∧ (sampleJoin.TranslateFieldName "iteration.").1
        = ("", some (JoinError.emptyColumn "iteration." "iteration."))
    ∧ (sampleJoin.TranslateFieldName "iteration.").2.active = true := by
  decide

/-- C23 (amended): whenever `TranslateFieldName` returns an error,
`handledFields` is exactly what it was before the call; the join as a whole is
what it was before when the field name is not handled, and it is the join
activated, with nothing else changed, when the field name is handled but
refused (empty column, single quote in column, column not allowed). -/
theorem TranslateFieldName_error_state (j : TableJoin) (fieldName : String)
    (herr : (j.TranslateFieldName fieldName).1.2 ≠ none) :
    (j.TranslateFieldName fieldName).2.handledFields = j.handledFields
    ∧ (j.handles fieldName = false → (j.TranslateFieldName fieldName).2 = j)
    ∧ (j.handles fieldName = true → (j.TranslateFieldName fieldName).2 = j.Activate) := by
  cases hh : j.handles fieldName with
  | false =>
      rw [TranslateFieldName_not_handled j fieldName hh]
      simp
  | true =>
      rw [TranslateFieldName_handled j fieldName hh] at herr ⊢
      by_cases h1 : j.columnPart fieldName = ""
      · simp [h1, TableJoin.Activate]
      · by_cases h2 : Strings.Contains (j.columnPart fieldName) singleQuote = true
        · simp [h1, h2, TableJoin.Activate]
        · by_cases h3 : ((j.allowedColumns.isEmpty
              || j.allowedColumns.contains (j.columnPart fieldName))
              && !j.disallowedColumns.contains (j.columnPart fieldName)) = true
          · simp only [h1, h2, h3, if_true, if_false, Bool.false_eq_true] at herr
            exact absurd rfl herr
          · simp only [h1, h2, h3, if_false, Bool.false_eq_true]
            simp [TableJoin.Activate]

/-- C23 (amended) on the join `iteration` with deny-list `[name]`: the refused
field `iteration.name` leaves `handledFields` empty and the join activated. -/
theorem TranslateFieldName_error_state_witness :
    (({ sampleJoin with disallowedColumns := ["name"] } : TableJoin).TranslateFieldName
        "iteration.name").1.2 ≠ none
    ∧ (({ sampleJoin with disallowedColumns := ["name"] } : TableJoin).TranslateFieldName
        "iteration.name").2.handledFields = []
    ∧ (({ sampleJoin with disallowedColumns := ["name"] } : TableJoin).TranslateFieldName
        "iteration.name").2
      = ({ sampleJoin with disallowedColumns := ["name"] } : TableJoin).Activate :=
  ⟨by decide,
    (TranslateFieldName_error_state { sampleJoin with disallowedColumns := ["name"] }
      "iteration.name" (by decide)).1,
    (TranslateFieldName_error_state { sampleJoin with disallowedColumns := ["name"] }
      "iteration.name" (by decide)).2.2 (by decide)⟩

/-- A call keeps the prefix activators, and activates the join exactly when it
is a `TranslateFieldName` call with a handled field name. -/
theorem JoinCall_run_spec (j : TableJoin) (c : JoinCall) :
    (JoinCall.run j c).prefixActivators = j.prefixActivators
    ∧ ((JoinCall.run j c).active = true
      ↔ j.active = true ∨ ∃ f, c = JoinCall.TranslateFieldName f ∧ j.handles f = true) := by
  cases c with
  | HandlesFieldName f => simp [JoinCall.run, TableJoin.HandlesFieldName]
  | TranslateFieldName f =>
      simp only [JoinCall.run]
      cases hh : j.handles f with
      | false =>
          rw [TranslateFieldName_not_handled j f hh]
          simp [hh]
      | true =>
          rw [TranslateFieldName_handled j f hh]
          split
          · exact ⟨rfl, by simp [TableJoin.Activate, hh]⟩
          · split
            · exact ⟨rfl, by simp [TableJoin.Activate, hh]⟩
            · split
              · exact ⟨rfl, by simp [TableJoin.Activate, hh]⟩
              · exact ⟨rfl, by simp [TableJoin.Activate, hh]⟩

/-- After a sequence of calls the join is active exactly when it was active
before or some `TranslateFieldName` call had a handled field name. -/
theorem runCalls_active_iff (calls : List JoinCall) :
    ∀ j : TableJoin,
      (runCalls j calls).active = true
        ↔ j.active = true
          ∨ ∃ f, JoinCall.TranslateFieldName f ∈ calls ∧ j.handles f = true := by
  induction calls with
  | nil => intro j; simp [runCalls]
  | cons c rest ih =>
      intro j
      have hrun : runCalls j (c :: rest) = runCalls (JoinCall.run j c) rest := rfl
      obtain ⟨hp, ha⟩ := JoinCall_run_spec j c
      have hhandles : ∀ f, (JoinCall.run j c).handles f = j.handles f := by
        intro f
        simp [TableJoin.handles, TableJoin.HandlesFieldName, hp]
      rw [hrun, ih, ha]
      constructor
      · rintro ((h | ⟨f, hc, hf⟩) | ⟨f, hmem, hf⟩)
        · exact Or.inl h
        · exact Or.inr ⟨f, by rw [hc]; exact List.mem_cons_self _ _, hf⟩
        · exact Or.inr ⟨f, List.mem_cons_of_mem _ hmem, by rw [← hhandles]; exact hf⟩
      · rintro (h | ⟨f, hmem, hf⟩)
        · exact Or.inl (Or.inl h)
        · rcases List.mem_cons.1 hmem with hc | hmem
          · exact Or.inl (Or.inr ⟨f, hc.symm, hf⟩)
          · exact Or.inr ⟨f, hmem, by rw [hhandles]; exact hf⟩

/-- C25: starting from a fresh TableJoin (inactive, no handled fields), after
any sequence of `HandlesFieldName` and `TranslateFieldName` calls the active
flag is true if and only if at least one `TranslateFieldName` call was made
with a field name that the join handles. -/
theorem runCalls_active (j : TableJoin) (hinactive : j.active = false)
    (hfresh : j.handledFields = []) (calls : List JoinCall) :
    (runCalls j calls).active = true
      ↔ ∃ f, JoinCall.TranslateFieldName f ∈ calls ∧ j.handles f = true := by
  have _ := hfresh
  rw [runCalls_active_iff, hinactive]
  simp

/-- C25 on the join `iteration`: asking about `iteration.name` and translating
`area.name` leaves it inactive; translating `iteration.name` activates it. -/
theorem runCalls_active_witness :
    (runCalls sampleJoin [JoinCall.HandlesFieldName "iteration.name",
        JoinCall.TranslateFieldName "area.name"]).active = false
    ∧ (runCalls sampleJoin [JoinCall.HandlesFieldName "iteration.name",
        JoinCall.TranslateFieldName "area.name",
        JoinCall.TranslateFieldName "iteration.name"]).active = true :=
  ⟨by decide,
    (runCalls_active sampleJoin rfl rfl [JoinCall.HandlesFieldName "iteration.name",
        JoinCall.TranslateFieldName "area.name",
        JoinCall.TranslateFieldName "iteration.name"]).2
      ⟨"iteration.name", by decide, by decide⟩⟩

/-! Validity of a table join. -/

theorem isValidLoop_eq_none (HasColumn : String → String → Bool) (tableName : String)
    (fields : List String) :
    isValidLoop HasColumn tableName fields = none
      ↔ ∀ f ∈ fields, HasColumn tableName f = true := by
  induction fields with
  | nil => simp [isValidLoop]
  | cons f rest ih =>
      by_cases hf : HasColumn tableName f = true
      · simp [isValidLoop, hf, ih]
      · simp [isValidLoop, hf]

/-- C26 (the code departs from the claim): `IsValid` returns nil for every
inactive join, whatever the schema, although the claim and the comment of the
method say that an error is returned unless the join is active; the join
`iteration`, never used, is valid against a table without columns.  For an
active join it returns nil exactly when every handled field is a column. -/
theorem IsValid_inactive_is_nil :
    sampleJoin.active = false
    ∧ sampleJoin.IsValid (fun _ _ => false) = none
    ∧ (∀ (HasColumn : String → String → Bool) (j : TableJoin),
        j.active = false → j.IsValid HasColumn = none)
    ∧ (∀ (HasColumn : String → String → Bool) (j : TableJoin), j.active = true →
        (j.IsValid HasColumn = none ↔ ∀ f ∈ j.handledFields, HasColumn j.tableName f = true)) := by
  refine ⟨rfl, by decide, ?_, ?_⟩
  · intro HasColumn j h
    simp [TableJoin.IsValid, TableJoin.IsActive, h]
  · intro HasColumn j h
    simp [TableJoin.IsValid, TableJoin.IsActive, h, isValidLoop_eq_none]

end Workitem

namespace Search

open Criteria

/-! Total count of a page. -/

/-- C28 (the code departs from the claim): `search` returns the count 0, not
the number of matching rows, whenever the requested page is empty; with three
matching rows, `start = 5` and `limit = 10` it returns no rows and count 0,
where `listItemsFromDB` returns count 3.  `listItemsFromDB` always returns the
number of matching rows, and `search` does so when the page is not empty. -/
theorem search_count_on_empty_page :
    search [1, 2, 3] (some 5) (some 10) = ([], 0, none)
    ∧ listItemsFromDB (fun _ => .ok ("", [])) (fun _ _ => [1, 2, 3]) Expression.nil
        (some 5) (some 10) = ([], 3, none)
    ∧ (∀ (Row : Type) (matching : List Row) (start limit : Option Int),
        (search matching start limit).2.2 = none →
        (search matching start limit).1 = [] → (search matching start limit).2.1 = 0)
    ∧ (∀ (Row : Type) (matching : List Row) (start limit : Option Int),
        (search matching start limit).2.2 = none →
        (search matching start limit).1 ≠ [] →
        (search matching start limit).2.1 = matching.length)
    ∧ (∀ (Row : Type) (Compile : Expression → Except (List String) (String × List LiteralValue))
        (table : String → List LiteralValue → List Row) (criteria : Expression)
        (whereClause : String) (parameters : List LiteralValue) (start limit : Option Int),
        Compile criteria = .ok (whereClause, parameters) →
        (listItemsFromDB Compile table criteria start limit).2.2 = none →
        (listItemsFromDB Compile table criteria start limit).2.1
          = (table whereClause parameters).length) := by
  refine ⟨by decide, by decide, ?_, ?_, ?_⟩
  · intro Row matching start limit hok hempty
    unfold search at hok hempty ⊢
    cases hs : checkStart start with
    | error e => simp [hs]
    | ok offset =>
        cases hl : checkLimit limit with
        | error e => simp [hs, hl]
        | ok lim =>
            simp only [hs, hl] at hempty ⊢
            simp [hempty]
  · intro Row matching start limit hok hne
    unfold search at hok hne ⊢
    cases hs : checkStart start with
    | error e => simp [hs] at hok
    | ok offset =>
        cases hl : checkLimit limit with
        | error e => simp [hs, hl] at hok
        | ok lim =>
            simp only [hs, hl] at hne ⊢
            simp [hne]
  · intro Row Compile table criteria whereClause parameters start limit hc hok
    unfold listItemsFromDB at hok ⊢
    simp only [hc] at hok ⊢
    cases hs : checkStart start with
    | error e => simp [hs] at hok
    | ok offset =>
        cases hl : checkLimit limit with
        | error e => simp [hs, hl] at hok
        | ok lim => simp [hs, hl]

/-! Protocol of a URL text. -/

theorem TrimPrefix_of_not_HasPrefix (s pfx : String) (h : Strings.HasPrefix s pfx = false) :
    Strings.TrimPrefix s pfx = s := by
  simp [Strings.TrimPrefix, h]

theorem escapeChar_eq (c : Char) :
    escapeChar c = if isEscaped c = true then ['\\', c] else [c] := by
  unfold escapeChar isEscaped
  by_cases h1 : c = ':'
  · simp [h1]
  · by_cases h2 : c = '('
    · simp [h2]
    · by_cases h3 : c = ')'
      · simp [h3]
      · simp [h1, h2, h3]

/-- The escaped text never begins with one of the escaped characters. -/
theorem head_flatMap_escapeChar (l : List Char) (b : Char) (rest : List Char)
    (h : l.flatMap escapeChar = b :: rest) : isEscaped b = false := by
  cases l with
  | nil => simp at h
  | cons x xs =>
      rw [List.flatMap_cons, escapeChar_eq] at h
      by_cases hx : isEscaped x = true
      · simp only [hx, if_true, List.cons_append, List.cons.injEq] at h
        rw [← h.1]; decide
      · simp only [hx, if_false, List.cons_append, List.cons.injEq, Bool.false_eq_true] at h
        rw [← h.1]; simpa using hx

/-- In the escaped text every escaped character stands right after a
backslash. -/
theorem backslash_before_escaped (l : List Char) :
    ∀ (i : Nat) (c : Char), (l.flatMap escapeChar)[i]? = some c → isEscaped c = true →
      ∃ k, i = k + 1 ∧ (l.flatMap escapeChar)[k]? = some '\\' := by
  induction l with
  | nil => intro i c h; simp at h
  | cons x xs ih =>
      intro i c h hc
      rw [List.flatMap_cons, escapeChar_eq] at h ⊢
      by_cases hx : isEscaped x = true
      · simp only [hx, if_true, List.cons_append, List.nil_append] at h ⊢
        match i, h with
        | 0, h =>
            simp only [List.getElem?_cons_zero, Option.some.injEq] at h
            rw [← h] at hc
            exact absurd hc (by decide)
        | 1, _ => exact ⟨0, rfl, rfl⟩
        | n + 2, h =>
            simp only [List.getElem?_cons_succ] at h
            obtain ⟨k, hk, hb⟩ := ih n c h hc
            exact ⟨k + 2, by omega, by simpa [List.getElem?_cons_succ] using hb⟩
      · simp only [hx, if_false, List.cons_append, List.nil_append, Bool.false_eq_true] at h ⊢
        match i, h with
        | 0, h =>
            simp only [List.getElem?_cons_zero, Option.some.injEq] at h
            rw [← h] at hc
            exact absurd hc hx
        | n + 1, h =>
            simp only [List.getElem?_cons_succ] at h
            obtain ⟨k, hk, hb⟩ := ih n c h hc
            exact ⟨k + 1, by omega, by simpa [List.getElem?_cons_succ] using hb⟩

theorem length_flatMap_escapeChar (l : List Char) :
    (l.flatMap escapeChar).length = l.length + l.countP isEscaped := by
  induction l with
  | nil => rfl
  | cons x xs ih =>
      rw [List.flatMap_cons, escapeChar_eq, List.length_append, ih, List.countP_cons]
      by_cases hx : isEscaped x = true
      · simp [hx]; omega
      · simp [hx]; omega

theorem utf8Size_of_isEscaped (c : Char) (h : isEscaped c = true) : c.utf8Size = 1 := by
  simp only [isEscaped, Bool.or_eq_true, decide_eq_true_eq] at h
  rcases h with (h | h) | h <;> subst h <;> decide

theorem len_flatMap_escapeChar (l : List Char) :
    ((l.flatMap escapeChar).map Char.utf8Size).sum
      = (l.map Char.utf8Size).sum + l.countP isEscaped := by
  induction l with
  | nil => rfl
  | cons x xs ih =>
      rw [List.flatMap_cons, escapeChar_eq, List.map_append, List.sum_append, ih,
        List.countP_cons]
      have hb : ('\\' : Char).utf8Size = 1 := by decide
      by_cases hx : isEscaped x = true
      · simp [hx, hb]; omega
      · simp [hx]; omega

theorem unescapeChars_flatMap_escapeChar (l : List Char) :
    unescapeChars (l.flatMap escapeChar) = l := by
  induction l with
  | nil => rfl
  | cons x xs ih =>
      rw [List.flatMap_cons, escapeChar_eq]
      by_cases hx : isEscaped x = true
      · simp only [hx, if_true, List.cons_append, List.nil_append]
        rw [unescapeChars]
        simp [hx, ih]
      · simp only [hx, if_false, List.cons_append, List.nil_append, Bool.false_eq_true]
        cases hout : xs.flatMap escapeChar with
        | nil =>
            rw [hout] at ih
            rw [unescapeChars, ← ih]
            rfl
        | cons b rest =>
            have hb : isEscaped b = false := head_flatMap_escapeChar xs b rest hout
            rw [unescapeChars]
            rw [hout] at ih
            simp [hb, ih]

/-- C30: for every string `s`, `escapeCharFromURLString(s)` is `s` with one
backslash inserted immediately before each `:`, `(` and `)` and nothing else
changed: every such character of the output stands right after a backslash,
the length of the output, in characters and in bytes, is that of `s` plus the
number of such characters in `s`, and replacing `\:`, `\(`, `\)` by `:`, `(`,
`)` in the output gives back `s`. -/
theorem escapeCharFromURLString_spec (s : String) :
    (escapeCharFromURLString s).data
        = s.data.flatMap (fun c => if isEscaped c = true then ['\\', c] else [c])
    ∧ (∀ (i : Nat) (c : Char), (escapeCharFromURLString s).data[i]? = some c →
        isEscaped c = true →
        ∃ k, i = k + 1 ∧ (escapeCharFromURLString s).data[k]? = some '\\')
    ∧ (escapeCharFromURLString s).length = s.length + s.data.countP isEscaped
    ∧ Strings.len (escapeCharFromURLString s) = Strings.len s + s.data.countP isEscaped
    ∧ String.mk (unescapeChars (escapeCharFromURLString s).data) = s := by
  refine ⟨?_, ?_, ?_, ?_, ?_⟩
  · simp only [escapeCharFromURLString]
    congr 1
    funext c
    exact escapeChar_eq c
  · exact backslash_before_escaped s.data
  · simp only [escapeCharFromURLString, String.length]
    exact length_flatMap_escapeChar s.data
  · simp only [escapeCharFromURLString, Strings.len]
    exact len_flatMap_escapeChar s.data
  · simp only [escapeCharFromURLString]
    rw [unescapeChars_flatMap_escapeChar]

end Search

namespace Workitem

open Criteria

/-! Compilation of field names with a quote. -/

end Workitem

namespace Workitem

/-! Work item types and their paths. -/

/-- C31 (the code departs from the claim): `IsTypeOrSubtypeOf` looks for the
type name followed by `.` anywhere in the path, not for a complete segment.
For the type `cake` with path `foo.bar.cake` the name `ar` is accepted,
although it is neither the name of the type nor a complete segment of the
path.  In general the result is true exactly when the stripped name is not
empty and is the type's name or, followed by `.`, occurs in the path; it is
false for a name made of `.` characters only. -/
theorem IsTypeOrSubtypeOf_accepts_part_of_segment :
    ({ Name := "cake", Version := 0, Path := "foo.bar.cake" } : WorkItemType).IsTypeOrSubtypeOf
        "ar" = true
    ∧ stripPathSeps "ar" = "ar"
    ∧ "ar" ≠ ({ Name := "cake", Version := 0, Path := "foo.bar.cake" } : WorkItemType).Name
    ∧ "ar" ∉ parentSegments
        ({ Name := "cake", Version := 0, Path := "foo.bar.cake" } : WorkItemType).Path
    ∧ (∀ (wit : WorkItemType) (typeName : String),
        wit.IsTypeOrSubtypeOf typeName = true
          ↔ stripPathSeps typeName ≠ ""
            ∧ (wit.Name = stripPathSeps typeName
              ∨ Strings.ContainsStr wit.Path (stripPathSeps typeName ++ ".") = true))
    ∧ (∀ (wit : WorkItemType) (typeName : String), (∀ c ∈ typeName.data, c = '.') →
        wit.IsTypeOrSubtypeOf typeName = false) := by
  have hlen : ∀ s : String, s.length ≤ 0 ↔ s = "" := by
    intro s
    constructor
    · intro h
      have hd : s.data = [] := List.length_eq_zero.1 (Nat.le_zero.1 h)
      cases s with
      | mk d => simp only at hd; subst hd; rfl
    · intro h; subst h; decide
  refine ⟨by decide, by decide, by decide, by decide, ?_, ?_⟩
  · intro wit typeName
    unfold WorkItemType.IsTypeOrSubtypeOf
    by_cases h : stripPathSeps typeName = ""
    · simp [h]
    · have h' : ¬ (stripPathSeps typeName).length ≤ 0 := fun hl => h ((hlen _).1 hl)
      simp only [h', if_false, pathSep]
      simp [h]
  · intro wit typeName hdots
    have hstrip : stripPathSeps typeName = "" := by
      unfold stripPathSeps
      have h1 : (typeName.data.dropWhile fun c => decide (c = '.')) = [] := by
        rw [List.dropWhile_eq_nil_iff]
        intro c hc
        simpa using hdots c hc
      rw [h1]
      rfl
    unfold WorkItemType.IsTypeOrSubtypeOf
    simp [hstrip]

end Workitem

namespace Search

/-! Bounds of the submatch slice. -/

/-- C32: for every registry (a map: its names are distinct) and every URL
string, whenever `isKnownURL` selects a pattern, the pattern found under that
name has a non-empty submatch on the same string, and
`getSearchQueryFromURLString` returns without panic: neither the `match[1:]`
join nor the `match[0]` fallback of `getSearchQueryFromURLPattern` is out of
bounds. -/
theorem getSearchQueryFromURLString_in_bounds (knownURLs : List (String × KnownURL))
    (hmap : (knownURLs.map Prod.fst).Nodup) (url : String) :
    (∀ patternName : String, isKnownURL knownURLs url = (true, patternName) →
      ∃ pattern, knownURLs.lookup patternName = some pattern
        ∧ pattern.compiledRegex url ≠ []
        ∧ ∃ q, getSearchQueryFromURLPattern knownURLs patternName url = .ok q)
    ∧ ∃ q, getSearchQueryFromURLString knownURLs url = .ok q := by
  refine ⟨?_, getSearchQueryFromURLString_ok knownURLs hmap url⟩
  intro patternName hk
  obtain ⟨pattern, hmem, hne, _⟩ := isKnownURL_true knownURLs url patternName hk
  have hlookup := lookup_of_mem_of_nodup knownURLs hmap patternName pattern hmem
  exact ⟨pattern, hlookup, hne,
    getSearchQueryFromURLPattern_ok knownURLs patternName url pattern hlookup hne⟩

/-- C32 with the registry after `init`, on a list-detail URL and on an unknown
URL. -/
theorem getSearchQueryFromURLString_in_bounds_witness :
    (sampleKnownURLs.map Prod.fst).Nodup
    ∧ (∃ q, getSearchQueryFromURLString sampleKnownURLs
        "demo.almighty.io/work-item/list/detail/100" = .ok q)
    ∧ (∃ q, getSearchQueryFromURLString sampleKnownURLs "www.google.com" = .ok q) :=
  ⟨by decide,
    (getSearchQueryFromURLString_in_bounds sampleKnownURLs (by decide)
      "demo.almighty.io/work-item/list/detail/100").2,
    (getSearchQueryFromURLString_in_bounds sampleKnownURLs (by decide) "www.google.com").2⟩

/-- C33: for every registry in which all registered names are non-empty,
`isKnownURL(url)` returns true if and only if at least one registered pattern
matches `url`, and returns `(false, "")` otherwise. -/
theorem isKnownURL_iff_some_match (knownURLs : List (String × KnownURL))
    (hnames : ∀ e ∈ knownURLs, e.1 ≠ "") (url : String) :
    ((isKnownURL knownURLs url).1 = true ↔ ∃ e ∈ knownURLs, e.2.compiledRegex url ≠ [])
    ∧ ((¬ ∃ e ∈ knownURLs, e.2.compiledRegex url ≠ []) →
        isKnownURL knownURLs url = (false, "")) := by
  have hno : (¬ ∃ e ∈ knownURLs, e.2.compiledRegex url ≠ []) →
      isKnownURL knownURLs url = (false, "") := by
    intro h
    apply isKnownURL_of_no_match
    intro e he
    by_contra hne
    exact h ⟨e, he, hne⟩
  refine ⟨⟨?_, ?_⟩, hno⟩
  · intro htrue
    by_contra h
    rw [hno h] at htrue
    exact absurd htrue (by simp)
  · rintro ⟨e, he, hne⟩
    obtain ⟨_, h2, h3⟩ := isKnownURLLoop_spec knownURLs url 0 ""
    have hpos : 0 < (isKnownURLLoop knownURLs url 0 "").1 := by
      have hle := h2 e he
      have : 0 < (e.2.compiledRegex url).length := List.length_pos.2 hne
      omega
    rcases h3 with h3 | ⟨known, hk1, _, _⟩
    · rw [h3] at hpos
      exact absurd hpos (by simp)
    · have hname : (isKnownURLLoop knownURLs url 0 "").2 ≠ "" := hnames _ hk1
      simp [isKnownURL, hname]

/-- C33 with the registry after `init`: a board-detail URL is known,
`www.google.com` is not. -/
theorem isKnownURL_iff_some_match_witness :
    (isKnownURL sampleKnownURLs "demo.almighty.io/work-item/board/detail/77").1 = true
    ∧ isKnownURL sampleKnownURLs "www.google.com" = (false, "") :=
  ⟨(isKnownURL_iff_some_match sampleKnownURLs (by decide)
      "demo.almighty.io/work-item/board/detail/77").1.2
      ⟨("test-work-item-board-details",
          { URLRegex := "(?P<domain>demo.almighty.io)(?P<path>/work-item/board/detail/)(?P<id>\\d*)"
            compiledRegex := detailMatcher "/work-item/board/detail/"
            groupNamesInRegex := ["", "domain", "path", "id"] }),
        by simp [sampleKnownURLs], by decide⟩,
    (isKnownURL_iff_some_match sampleKnownURLs (by decide) "www.google.com").2
      (by decide)⟩

/-! Shape and order of the tokens. -/

/-- What a successful run of the loop has collected: the numeric tokens, the
word tokens and the type identifiers of the tokens, each in input order. -/
theorem parseSearchStringLoop_success (env : Externals)
    (knownURLs : List (String × KnownURL)) (parts : List String) :
    ∀ (res r : searchKeyword),
      parseSearchStringLoop env knownURLs parts res = .ok (r, none) →
      r.number = res.number ++ parts.filterMap (numberOfToken env)
        ∧ r.words = res.words ++ parts.filterMap (wordOfToken env knownURLs)
        ∧ r.workItemTypes = res.workItemTypes ++ parts.filterMap (typeIDOfToken env) := by
  induction parts with
  | nil =>
      intro res r h
      simp only [parseSearchStringLoop, Except.ok.injEq, Prod.mk.injEq, and_true] at h
      subst h
      simp
  | cons p rest ih =>
      intro res r h
      by_cases h1 : Strings.HasPrefix (unescapedPart env p) "number:" = true
      · rw [parseSearchStringLoop_number env knownURLs p rest res h1] at h
        obtain ⟨i1, i2, i3⟩ := ih _ r h
        refine ⟨?_, ?_, ?_⟩
        · rw [i1]; simp [List.filterMap_cons, numberOfToken, h1]
        · rw [i2]; simp [List.filterMap_cons, wordOfToken, h1]
        · rw [i3]; simp [List.filterMap_cons, typeIDOfToken, h1]
      · have h1' : Strings.HasPrefix (unescapedPart env p) "number:" = false := by
          simpa using h1
        by_cases h2 : Strings.HasPrefix (unescapedPart env p) "type:" = true
        · by_cases h3 : (Strings.TrimPrefix (unescapedPart env p) "type:").length = 0
          · simp [parseSearchStringLoop, h1', h2, h3] at h
          · cases h4 : env.FromString (Strings.TrimPrefix (unescapedPart env p) "type:") with
            | none => simp [parseSearchStringLoop, h1', h2, h3, h4] at h
            | some typeID =>
                have hstep : parseSearchStringLoop env knownURLs (p :: rest) res
                    = parseSearchStringLoop env knownURLs rest
                        { res with workItemTypes := res.workItemTypes ++ [typeID] } := by
                  simp [parseSearchStringLoop, h1', h2, h3, h4]
                rw [hstep] at h
                obtain ⟨i1, i2, i3⟩ := ih _ r h
                refine ⟨?_, ?_, ?_⟩
                · rw [i1]; simp [List.filterMap_cons, numberOfToken, h1']
                · rw [i2]; simp [List.filterMap_cons, wordOfToken, h1', h2]
                · rw [i3]; simp [List.filterMap_cons, typeIDOfToken, h1', h2, h4]
        · have h2' : Strings.HasPrefix (unescapedPart env p) "type:" = false := by
            simpa using h2
          cases h5 : env.IsURL (unescapedPart env p) with
          | false =>
              rw [parseSearchStringLoop_word env knownURLs p rest res h1' h2' h5] at h
              obtain ⟨i1, i2, i3⟩ := ih _ r h
              refine ⟨?_, ?_, ?_⟩
              · rw [i1]; simp [List.filterMap_cons, numberOfToken, h1']
              · rw [i2]; simp [List.filterMap_cons, wordOfToken, h1', h2', h5]
              · rw [i3]; simp [List.filterMap_cons, typeIDOfToken, h2']
          | true =>
              cases hq : getSearchQueryFromURLString knownURLs
                  (trimProtocolFromURLString (env.ToLower (unescapedPart env p))) with
              | error pn => simp [parseSearchStringLoop, h1', h2', h5, hq] at h
              | ok q =>
                  have hstep : parseSearchStringLoop env knownURLs (p :: rest) res
                      = parseSearchStringLoop env knownURLs rest
                          { res with words := res.words ++ [q] } := by
                    simp [parseSearchStringLoop, h1', h2', h5, hq]
                  rw [hstep] at h
                  obtain ⟨i1, i2, i3⟩ := ih _ r h
                  refine ⟨?_, ?_, ?_⟩
                  · rw [i1]; simp [List.filterMap_cons, numberOfToken, h1']
                  · rw [i2]
                    simp [List.filterMap_cons, wordOfToken, h1', h2', h5, hq, Except.toOption]
                  · rw [i3]; simp [List.filterMap_cons, typeIDOfToken, h2']

theorem HasSuffix_append (s suffix : String) : Strings.HasSuffix (s ++ suffix) suffix = true := by
  simp [Strings.HasSuffix, String.data_append, List.isSuffixOf_iff_suffix]

theorem ne_empty_of_HasSuffix (s suffix : String) (h : Strings.HasSuffix s suffix = true)
    (hs : suffix ≠ "") : s ≠ "" := by
  intro he
  subst he
  have hsuf : suffix.data <:+ ("" : String).data := by
    simpa [Strings.HasSuffix, List.isSuffixOf_iff_suffix] using h
  have hnil : suffix.data = [] := List.eq_nil_of_suffix_nil hsuf
  apply hs
  cases suffix with
  | mk d => simp only at hnil; subst hnil; rfl

/-- Every search query of a URL ends with `:*` or with `:*)`. -/
theorem getSearchQueryFromURLString_suffix (knownURLs : List (String × KnownURL))
    (url q : String) (h : getSearchQueryFromURLString knownURLs url = .ok q) :
    Strings.HasSuffix q ":*" = true ∨ Strings.HasSuffix q ":*)" = true := by
  unfold getSearchQueryFromURLString at h
  rcases hk : isKnownURL knownURLs url with ⟨known, patternName⟩
  rw [hk] at h
  cases known with
  | false =>
      simp only [Bool.false_eq_true, if_false, Except.ok.injEq] at h
      subst h
      exact Or.inl (HasSuffix_append _ _)
  | true =>
      simp only [if_true] at h
      unfold getSearchQueryFromURLPattern at h
      cases hl : knownURLs.lookup patternName with
      | none => simp [hl] at h
      | some pattern =>
          simp only [hl] at h
          by_cases hlen : (pattern.compiledRegex url).length > 1
          · simp only [hlen, if_true] at h
            split at h
            · simp only [Except.ok.injEq] at h
              subst h
              right
              have e : ∀ a b : String, a ++ (b ++ ":*") ++ ")" = (a ++ b) ++ ":*)" := by
                intro a b
                apply String.ext
                simp [String.data_append]
              rw [e]
              exact HasSuffix_append _ _
            · simp only [Except.ok.injEq] at h
              subst h
              exact Or.inl (HasSuffix_append _ _)
          · simp only [hlen, if_false] at h
            cases hm : pattern.compiledRegex url with
            | nil => simp [hm] at h
            | cons m0 ms =>
                simp only [hm, Except.ok.injEq] at h
                subst h
                exact Or.inl (HasSuffix_append _ _)

theorem Join_ne_empty (l : List String) (sep : String) (hl : l ≠ [])
    (h : ∀ x ∈ l, x ≠ "") : Strings.Join l sep ≠ "" := by
  have hlen : ∀ s : String, s ≠ "" → 0 < s.length := by
    intro s hs
    rcases Nat.eq_zero_or_pos s.length with h0 | hp
    · exact absurd ((length_eq_zero_iff s).1 h0) hs
    · exact hp
  match l, hl, h with
  | [a], _, h => simpa [Strings.Join] using h a (by simp)
  | a :: b :: rest, _, h =>
      intro he
      have h' := congrArg String.length he
      simp only [Strings.Join, String.length_append] at h'
      have := hlen a (h a (by simp))
      have h0 : ("" : String).length = 0 := rfl
      omega

theorem Join_append (a b : List String) (sep : String) (ha : a ≠ []) (hb : b ≠ []) :
    Strings.Join (a ++ b) sep = Strings.Join a sep ++ sep ++ Strings.Join b sep := by
  induction a with
  | nil => exact absurd rfl ha
  | cons x xs ih =>
      cases xs with
      | nil =>
          cases b with
          | nil => exact absurd rfl hb
          | cons y ys => simp [Strings.Join]
      | cons x' xs' =>
          have := ih (by simp)
          simp only [List.cons_append] at this ⊢
          simp only [Strings.Join, this, String.append_assoc]

/-- When no token is empty the query string is the single join of the numeric
tokens followed by the word tokens. -/
theorem generateSQLSearchInfo_eq_Join (keywords : searchKeyword)
    (hn : ∀ x ∈ keywords.number, x ≠ "") (hw : ∀ x ∈ keywords.words, x ≠ "") :
    generateSQLSearchInfo keywords
      = Strings.Join (keywords.number ++ keywords.words) " & " := by
  by_cases h1 : keywords.number = []
  · by_cases h2 : keywords.words = []
    · simp [generateSQLSearchInfo, h1, h2, Strings.Join]
    · have hw' := Join_ne_empty keywords.words " & " h2 hw
      simp [generateSQLSearchInfo, h1, hw', Strings.Join]
  · have hn' := Join_ne_empty keywords.number " & " h1 hn
    by_cases h2 : keywords.words = []
    · simp [generateSQLSearchInfo, h2, hn', Strings.Join]
    · have hw' := Join_ne_empty keywords.words " & " h2 hw
      rw [Join_append _ _ _ h1 h2]
      simp [generateSQLSearchInfo, hn', hw', Strings.Join]

/-- The tokens collected by a successful run end with their markers. -/
theorem parseSearchString_token_suffixes (env : Externals)
    (knownURLs : List (String × KnownURL)) (rawSearchString : String) (res : searchKeyword)
    (h : parseSearchString env knownURLs rawSearchString = .ok (res, none)) :
    (∀ n ∈ res.number, Strings.HasSuffix n ":*A" = true)
    ∧ (∀ w ∈ res.words,
        Strings.HasSuffix w ":*" = true ∨ Strings.HasSuffix w ":*)" = true) := by
  obtain ⟨i1, i2, _⟩ := parseSearchStringLoop_success env knownURLs _ _ _ h
  constructor
  · intro n hn
    rw [i1] at hn
    simp only [List.nil_append, List.mem_filterMap] at hn
    obtain ⟨p, _, hp⟩ := hn
    simp only [numberOfToken] at hp
    split at hp
    · simp only [Option.some.injEq] at hp
      subst hp
      exact HasSuffix_append _ _
    · exact absurd hp (by simp)
  · intro w hw
    rw [i2] at hw
    simp only [List.nil_append, List.mem_filterMap] at hw
    obtain ⟨p, _, hp⟩ := hw
    simp only [wordOfToken] at hp
    split at hp
    · exact absurd hp (by simp)
    · split at hp
      · cases hq : getSearchQueryFromURLString knownURLs
            (trimProtocolFromURLString (env.ToLower (unescapedPart env p))) with
        | error pn => simp [hq, Except.toOption] at hp
        | ok q =>
            simp only [hq, Except.toOption, Option.some.injEq] at hp
            subst hp
            exact getSearchQueryFromURLString_suffix knownURLs _ _ hq
      · simp only [Option.some.injEq] at hp
        subst hp
        exact Or.inl (HasSuffix_append _ _)

/-- C34: when `parseSearchString` succeeds, every numeric token it collected
ends with `:*A`, every word token ends with `:*` or with `:*)`, so that none
is empty, and `generateSQLSearchInfo` is the single ` & `-join of the numeric tokens followed
by the word tokens. -/
theorem parseSearchString_token_shapes (env : Externals)
    (knownURLs : List (String × KnownURL)) (rawSearchString : String) (res : searchKeyword)
    (h : parseSearchString env knownURLs rawSearchString = .ok (res, none)) :
    (∀ n ∈ res.number, Strings.HasSuffix n ":*A" = true)
    ∧ (∀ w ∈ res.words,
        Strings.HasSuffix w ":*" = true ∨ Strings.HasSuffix w ":*)" = true)
    ∧ (∀ t ∈ res.number ++ res.words, t ≠ "")
    ∧ generateSQLSearchInfo res = Strings.Join (res.number ++ res.words) " & " := by
  obtain ⟨hn, hw⟩ := parseSearchString_token_suffixes env knownURLs rawSearchString res h
  have hn0 : ∀ x ∈ res.number, x ≠ "" := by
    intro x hx
    exact ne_empty_of_HasSuffix x ":*A" (hn x hx) (by decide)
  have hw0 : ∀ x ∈ res.words, x ≠ "" := by
    intro x hx
    rcases hw x hx with h1 | h1
    · exact ne_empty_of_HasSuffix x ":*" h1 (by decide)
    · exact ne_empty_of_HasSuffix x ":*)" h1 (by decide)
  refine ⟨hn, hw, ?_, generateSQLSearchInfo_eq_Join res hn0 hw0⟩
  intro t ht
  rcases List.mem_append.1 ht with ht | ht
  · exact hn0 t ht
  · exact hw0 t ht

/-- C34 on two numbers, a known URL and a plain word. -/
theorem parseSearchString_token_shapes_witness :
    parseSearchString sampleExternals sampleKnownURLs
        "number:7 http://demo.almighty.io/work-item/list/detail/100 bar number:8"
      = .ok ({ workItemTypes := [], number := ["7:*A", "8:*A"]
               words := ["(100:* | demo.almighty.io/work-item/list/detail/100:*)",
                         "bar:*"] }, none)
    ∧ generateSQLSearchInfo
        { workItemTypes := [], number := ["7:*A", "8:*A"]
          words := ["(100:* | demo.almighty.io/work-item/list/detail/100:*)", "bar:*"] }
      = Strings.Join (["7:*A", "8:*A"]
          ++ ["(100:* | demo.almighty.io/work-item/list/detail/100:*)", "bar:*"]) " & " :=
  ⟨by rfl,
    (parseSearchString_token_shapes sampleExternals sampleKnownURLs
      "number:7 http://demo.almighty.io/work-item/list/detail/100 bar number:8"
      { workItemTypes := [], number := ["7:*A", "8:*A"]
        words := ["(100:* | demo.almighty.io/work-item/list/detail/100:*)", "bar:*"] }
      (by rfl)).2.2.2⟩

/-- C35: when `parseSearchString` succeeds, the three lists hold the tokens of
their kind in input order, and the query string puts all numeric tokens before
all word tokens, whatever their order in the input: `foo number:1` gives
`1:*A & foo:*`. -/
theorem parseSearchString_token_order (env : Externals)
    (knownURLs : List (String × KnownURL)) (rawSearchString : String) (res : searchKeyword)
    (h : parseSearchString env knownURLs rawSearchString = .ok (res, none)) :
    res.number = (searchParts rawSearchString).filterMap (numberOfToken env)
    ∧ res.words = (searchParts rawSearchString).filterMap (wordOfToken env knownURLs)
    ∧ res.workItemTypes = (searchParts rawSearchString).filterMap (typeIDOfToken env)
    ∧ generateSQLSearchInfo res
        = Strings.Join
            ((searchParts rawSearchString).filterMap (numberOfToken env)
              ++ (searchParts rawSearchString).filterMap (wordOfToken env knownURLs)) " & "
    ∧ (parseSearchString sampleExternals sampleKnownURLs "foo number:1"
          = .ok ({ workItemTypes := [], number := ["1:*A"], words := ["foo:*"] }, none)
        ∧ generateSQLSearchInfo { workItemTypes := [], number := ["1:*A"], words := ["foo:*"] }
          = "1:*A & foo:*") := by
  obtain ⟨i1, i2, i3⟩ := parseSearchStringLoop_success env knownURLs _ _ _ h
  simp only [List.nil_append] at i1 i2 i3
  obtain ⟨hn, hw⟩ := parseSearchString_token_suffixes env knownURLs rawSearchString res h
  refine ⟨i1, i2, i3, ?_, by rfl, by decide⟩
  rw [← i1, ← i2]
  apply generateSQLSearchInfo_eq_Join
  · intro x hx
    exact ne_empty_of_HasSuffix x ":*A" (hn x hx) (by decide)
  · intro x hx
    rcases hw x hx with h1 | h1
    · exact ne_empty_of_HasSuffix x ":*" h1 (by decide)
    · exact ne_empty_of_HasSuffix x ":*)" h1 (by decide)

/-- C35 on `b number:2 a number:1`: each list in input order, numbers first in
the query. -/
theorem parseSearchString_token_order_witness :
    parseSearchString sampleExternals sampleKnownURLs "b number:2 a number:1"
      = .ok ({ workItemTypes := [], number := ["2:*A", "1:*A"]
               words := ["b:*", "a:*"] }, none)
    ∧ (searchParts "b number:2 a number:1").filterMap (numberOfToken sampleExternals)
      = ["2:*A", "1:*A"]
    ∧ (searchParts "b number:2 a number:1").filterMap
        (wordOfToken sampleExternals sampleKnownURLs) = ["b:*", "a:*"]
    ∧ generateSQLSearchInfo
        { workItemTypes := [], number := ["2:*A", "1:*A"], words := ["b:*", "a:*"] }
      = "2:*A & 1:*A & b:* & a:*" :=
  ⟨by rfl,
    (parseSearchString_token_order sampleExternals sampleKnownURLs "b number:2 a number:1"
      { workItemTypes := [], number := ["2:*A", "1:*A"], words := ["b:*", "a:*"] }
      (by rfl)).1.symm,
    (parseSearchString_token_order sampleExternals sampleKnownURLs "b number:2 a number:1"
      { workItemTypes := [], number := ["2:*A", "1:*A"], words := ["b:*", "a:*"] }
      (by rfl)).2.1.symm,
    by decide⟩

/-- C36: for a token that is neither a `number:` nor a `type:` token, whose
lower-cased, protocol-stripped form matches no registered pattern and does not
start with `http://` or `https://`, the URL branch and the plain-word branch
append the same word: the search query of the stripped form is the sanitized
lower-cased token followed by `:*`, and the loop appends that word whether or
not the library classifies the token as a URL. -/
theorem parseSearchStringLoop_unmatched_url_is_plain_word (env : Externals)
    (knownURLs : List (String × KnownURL)) (rawPart : String) (rest : List String)
    (res : searchKeyword)
    (h1 : Strings.HasPrefix (unescapedPart env rawPart) "number:" = false)
    (h2 : Strings.HasPrefix (unescapedPart env rawPart) "type:" = false)
    (hno : ∀ e ∈ knownURLs, e.2.compiledRegex
      (trimProtocolFromURLString (env.ToLower (unescapedPart env rawPart))) = [])
    (hp1 : Strings.HasPrefix
      (trimProtocolFromURLString (env.ToLower (unescapedPart env rawPart))) "http://" = false)
    (hp2 : Strings.HasPrefix
      (trimProtocolFromURLString (env.ToLower (unescapedPart env rawPart))) "https://"
        = false) :
    getSearchQueryFromURLString knownURLs
        (trimProtocolFromURLString (env.ToLower (unescapedPart env rawPart)))
      = .ok (sanitizeURL (env.ToLower (unescapedPart env rawPart)) ++ ":*")
    ∧ parseSearchStringLoop env knownURLs (rawPart :: rest) res
      = parseSearchStringLoop env knownURLs rest
          { res with words := res.words
              ++ [sanitizeURL (env.ToLower (unescapedPart env rawPart)) ++ ":*"] } := by
  have hs : sanitizeURL (trimProtocolFromURLString (env.ToLower (unescapedPart env rawPart)))
      = sanitizeURL (env.ToLower (unescapedPart env rawPart)) := by
    have ht : trimProtocolFromURLString
        (trimProtocolFromURLString (env.ToLower (unescapedPart env rawPart)))
        = trimProtocolFromURLString (env.ToLower (unescapedPart env rawPart)) := by
      generalize trimProtocolFromURLString (env.ToLower (unescapedPart env rawPart)) = t
        at hp1 hp2 ⊢
      simp only [trimProtocolFromURLString]
      rw [TrimPrefix_of_not_HasPrefix t "http://" hp1,
        TrimPrefix_of_not_HasPrefix t "https://" hp2]
    simp only [sanitizeURL]
    rw [ht]
  have hq : getSearchQueryFromURLString knownURLs
        (trimProtocolFromURLString (env.ToLower (unescapedPart env rawPart)))
      = .ok (sanitizeURL (env.ToLower (unescapedPart env rawPart)) ++ ":*") := by
    simp only [getSearchQueryFromURLString, isKnownURL_of_no_match knownURLs _ hno]
    simp [hs]
  refine ⟨hq, ?_⟩
  cases h5 : env.IsURL (unescapedPart env rawPart) with
  | false => exact parseSearchStringLoop_word env knownURLs rawPart rest res h1 h2 h5
  | true => simp [parseSearchStringLoop, h1, h2, h5, hq]

/-- C36 on `HTTP://www.Google.com`, which the sample library classifies as a
URL, and which gets the word of the plain-word branch. -/
theorem parseSearchStringLoop_unmatched_url_is_plain_word_witness :
    sampleExternals.IsURL (unescapedPart sampleExternals "HTTP://www.Google.com") = true
    ∧ sanitizeURL (sampleExternals.ToLower
        (unescapedPart sampleExternals "HTTP://www.Google.com")) ++ ":*" = "www.google.com:*"
    ∧ parseSearchStringLoop sampleExternals sampleKnownURLs ["HTTP://www.Google.com"]
        { workItemTypes := [], number := [], words := [] }
      = parseSearchStringLoop sampleExternals sampleKnownURLs []
          { workItemTypes := [], number := []
            words := [] ++ [sanitizeURL (sampleExternals.ToLower
              (unescapedPart sampleExternals "HTTP://www.Google.com")) ++ ":*"] } :=
  ⟨by rfl, by decide,
    (parseSearchStringLoop_unmatched_url_is_plain_word sampleExternals sampleKnownURLs
      "HTTP://www.Google.com" [] { workItemTypes := [], number := [], words := [] }
      (by rfl) (by rfl) (by decide) (by rfl) (by rfl)).2⟩

/-! Visiting order of a filter object. -/

theorem parseMap_cons (kv : String × JSONValue) (rest : List (String × JSONValue))
    (q : Query) : parseMap (kv :: rest) q = parseMap rest (parseMapEntry kv q) := by
  obtain ⟨key, val⟩ := kv
  cases val <;> simp [parseMap, parseMapEntry]

theorem parseMap_append (l1 l2 : List (String × JSONValue)) :
    ∀ q : Query, parseMap (l1 ++ l2) q = parseMap l2 (parseMap l1 q) := by
  induction l1 with
  | nil => intro q; simp [parseMap]
  | cons kv rest ih =>
      intro q
      rw [List.cons_append, parseMap_cons, parseMap_cons, ih]

/-- Two iterations commute unless both store a name or both store a different
`Negate`. -/
theorem parseMapEntry_comm (x y : String × JSONValue) (q : Query)
    (hname : ¬ (namesQuery x.2 = true ∧ namesQuery y.2 = true))
    (hbool : ∀ a b, x.2 = .bool a → y.2 = .bool b → a = b) :
    parseMapEntry x (parseMapEntry y q) = parseMapEntry y (parseMapEntry x q) := by
  obtain ⟨kx, vx⟩ := x
  obtain ⟨ky, vy⟩ := y
  cases q with
  | mk n v b cs =>
      cases vx <;> cases vy <;>
        simp_all [parseMapEntry, namesQuery, Query.setName, Query.setValue, Query.setNegate,
          Query.setChildren, Query.Name, Query.Value, Query.Negate, Query.Children]

/-- The result of `parseMap` is the same in every visiting order of an object
with at most one string- or array-valued key and one value for all its boolean
keys. -/
theorem parseMap_perm (fm fm' : List (String × JSONValue)) (hperm : fm.Perm fm') :
    ∀ q : Query, (fm.filter fun kv => namesQuery kv.2).length ≤ 1 →
      (∀ k1 k2 a b, (k1, JSONValue.bool a) ∈ fm → (k2, JSONValue.bool b) ∈ fm → a = b) →
      parseMap fm q = parseMap fm' q := by
  induction hperm with
  | nil => intro q _ _; rfl
  | cons x _ ih =>
      intro q hone hbool
      rw [parseMap_cons, parseMap_cons]
      apply ih
      · by_cases hx : namesQuery x.2 = true
        · simp only [List.filter_cons, hx, if_true, List.length_cons] at hone
          omega
        · simpa [List.filter_cons, hx] using hone
      · intro k1 k2 a b h1 h2
        exact hbool k1 k2 a b (List.mem_cons_of_mem _ h1) (List.mem_cons_of_mem _ h2)
  | swap x y l =>
      intro q hone hbool
      rw [parseMap_cons, parseMap_cons, parseMap_cons, parseMap_cons]
      congr 1
      apply parseMapEntry_comm
      · rintro ⟨hx, hy⟩
        simp only [List.filter_cons, hx, hy, if_true, List.length_cons] at hone
        omega
      · intro a b hx hy
        obtain ⟨kx, vx⟩ := x
        obtain ⟨ky, vy⟩ := y
        simp only at hx hy
        subst hx hy
        exact hbool kx ky a b (by simp) (by simp)
  | trans h12 _ ih1 ih2 =>
      intro q hone hbool
      rw [ih1 q hone hbool]
      apply ih2
      · rw [← (h12.filter _).length_eq]
        exact hone
      · intro k1 k2 a b h1 h2
        exact hbool k1 k2 a b (h12.mem_iff.2 h1) (h12.mem_iff.2 h2)

/-- Under the conditions of `parseMap_perm` the result is that of the run that
visits a given entry last. -/
theorem parseMap_visit_last (fm : List (String × JSONValue)) (e : String × JSONValue)
    (he : e ∈ fm) (q : Query)
    (hone : (fm.filter fun kv => namesQuery kv.2).length ≤ 1)
    (hbool : ∀ k1 k2 a b, (k1, JSONValue.bool a) ∈ fm → (k2, JSONValue.bool b) ∈ fm →
      a = b) :
    ∃ l : List (String × JSONValue), fm.Perm (l ++ [e])
      ∧ parseMap fm q = parseMapEntry e (parseMap l q) := by
  obtain ⟨l1, l2, hfm⟩ := List.append_of_mem he
  have hperm : fm.Perm ((l1 ++ l2) ++ [e]) := by
    rw [hfm]
    exact (List.perm_middle).trans (List.perm_append_singleton e (l1 ++ l2)).symm
  refine ⟨l1 ++ l2, hperm, ?_⟩
  rw [parseMap_perm fm _ hperm q hone hbool, parseMap_append, parseMap_cons]
  simp [parseMap]

/-- C37 (the claim fails as stated): an object with no string- or array-valued
key and two boolean keys of different values gives different Queries in its
two visiting orders; `Negate` is the boolean visited last. -/
theorem parseMap_two_booleans_counterexample :
    List.Perm [("negate", JSONValue.bool true), ("done", JSONValue.bool false)]
      [("done", JSONValue.bool false), ("negate", JSONValue.bool true)]
    ∧ ([("negate", JSONValue.bool true), ("done", JSONValue.bool false)].filter
        fun kv => namesQuery kv.2).length ≤ 1
    ∧ (parseMap [("negate", .bool true), ("done", .bool false)] Query.zero).Negate = false
    ∧ (parseMap [("done", .bool false), ("negate", .bool true)] Query.zero).Negate = true
    ∧ parseMap [("negate", .bool true), ("done", .bool false)] Query.zero
      ≠ parseMap [("done", .bool false), ("negate", .bool true)] Query.zero := by
  have h1 : (parseMap [("negate", .bool true), ("done", .bool false)] Query.zero).Negate
      = false := by
    rw [parseMap_cons, parseMap_cons]
    simp only [parseMap]
    rfl
  have h2 : (parseMap [("done", .bool false), ("negate", .bool true)] Query.zero).Negate
      = true := by
    rw [parseMap_cons, parseMap_cons]
    simp only [parseMap]
    rfl
  refine ⟨List.Perm.swap _ _ _, by decide, h1, h2, ?_⟩
  intro h
  have h' := congrArg Query.Negate h
  rw [h1, h2] at h'
  exact absurd h' (by decide)

/-- C37 (amended): for every JSON object with at most one key whose value is a
string or an array and whose boolean-valued keys all carry the same value, the
Query that `parseMap` produces is the same in every visiting order; its Name
is that one key, its Value the string of a string-valued key, its Children are
empty for an array-valued key, and its Negate is the value of the boolean
keys. -/
theorem parseMap_visiting_order (fm fm' : List (String × JSONValue)) (q : Query)
    (hperm : fm.Perm fm')
    (hone : (fm.filter fun kv => namesQuery kv.2).length ≤ 1)
    (hbool : ∀ k1 k2 a b, (k1, JSONValue.bool a) ∈ fm → (k2, JSONValue.bool b) ∈ fm →
      a = b) :
    parseMap fm q = parseMap fm' q
    ∧ (∀ key v, (key, JSONValue.str v) ∈ fm →
        (parseMap fm q).Name = key ∧ (parseMap fm q).Value = some v)
    ∧ (∀ key a, (key, JSONValue.array a) ∈ fm →
        (parseMap fm q).Name = key ∧ (parseMap fm q).Children = [])
    ∧ (∀ key b, (key, JSONValue.bool b) ∈ fm → (parseMap fm q).Negate = b)
    ∧ ((∀ e ∈ fm, namesQuery e.2 = false) →
        (parseMap fm q).Name = q.Name ∧ (parseMap fm q).Value = q.Value) := by
  refine ⟨parseMap_perm fm fm' hperm q hone hbool, ?_, ?_, ?_, ?_⟩
  · intro key v he
    obtain ⟨l, _, hl⟩ := parseMap_visit_last fm _ he q hone hbool
    rw [hl]
    cases parseMap l q with
    | mk n v0 b cs => exact ⟨rfl, rfl⟩
  · intro key a he
    obtain ⟨l, _, hl⟩ := parseMap_visit_last fm _ he q hone hbool
    rw [hl]
    cases parseMap l q with
    | mk n v0 b cs => exact ⟨rfl, rfl⟩
  · intro key b he
    obtain ⟨l, _, hl⟩ := parseMap_visit_last fm _ he q hone hbool
    rw [hl]
    cases parseMap l q with
    | mk n v0 b0 cs => rfl
  · clear hperm hone hbool
    induction fm generalizing q with
    | nil => intro _; simp [parseMap]
    | cons kv rest ih =>
        intro hno
        rw [parseMap_cons]
        have hrest := ih (parseMapEntry kv q) (fun e he => hno e (List.mem_cons_of_mem _ he))
        rw [hrest.1, hrest.2]
        have hkv := hno kv (List.mem_cons_self _ _)
        obtain ⟨key, val⟩ := kv
        cases q with
        | mk n v0 b0 cs =>
            cases val <;> simp_all [parseMapEntry, namesQuery, Query.setNegate, Query.Name,
              Query.Value, Query.Negate, Query.Children]

/-- C37 (amended) on the object `{"space": "rhel", "negate": true}` in its two
visiting orders. -/
theorem parseMap_visiting_order_witness :
    parseMap [("space", .str "rhel"), ("negate", .bool true)] Query.zero
      = parseMap [("negate", .bool true), ("space", .str "rhel")] Query.zero
    ∧ (parseMap [("space", .str "rhel"), ("negate", .bool true)] Query.zero).Name = "space"
    ∧ (parseMap [("space", .str "rhel"), ("negate", .bool true)] Query.zero).Value
        = some "rhel"
    ∧ (parseMap [("space", .str "rhel"), ("negate", .bool true)] Query.zero).Negate = true :=
  ⟨(parseMap_visiting_order [("space", .str "rhel"), ("negate", .bool true)]
      [("negate", .bool true), ("space", .str "rhel")] Query.zero (List.Perm.swap _ _ _)
      (by decide) (by simp)).1,
    by rw [parseMap_cons, parseMap_cons]; simp only [parseMap]; rfl,
    by rw [parseMap_cons, parseMap_cons]; simp only [parseMap]; rfl,
    by rw [parseMap_cons, parseMap_cons]; simp only [parseMap]; rfl⟩

end Search

namespace Workitem

/-! Which activator is stripped, and what a join records. -/

theorem matchedPrefixLoop_of_none (activators : List String) (fieldName pfx : String)
    (h : ∀ u ∈ activators, Strings.HasPrefix fieldName u = false) :
    matchedPrefixLoop activators fieldName pfx = pfx := by
  induction activators with
  | nil => rfl
  | cons u rest ih =>
      have hu := h u (List.mem_cons_self _ _)
      simp only [matchedPrefixLoop, hu, Bool.false_eq_true, if_false]
      exact ih (fun v hv => h v (List.mem_cons_of_mem _ hv))

/-- The loop keeps the last activator that is a prefix of the field name. -/
theorem matchedPrefixLoop_last (pre post : List String) (t fieldName : String)
    (ht : Strings.HasPrefix fieldName t = true)
    (hpost : ∀ u ∈ post, Strings.HasPrefix fieldName u = false) :
    ∀ pfx : String, matchedPrefixLoop (pre ++ t :: post) fieldName pfx = t := by
  induction pre with
  | nil =>
      intro pfx
      simp only [List.nil_append, matchedPrefixLoop, ht, if_true]
      exact matchedPrefixLoop_of_none post fieldName t hpost
  | cons u rest ih =>
      intro pfx
      simp only [List.cons_append, matchedPrefixLoop]
      split
      · exact ih u
      · exact ih pfx

/-- A handled field name whose column part passes the checks is translated to
the alias, a dot and the column part, which is appended to `handledFields`. -/
theorem TranslateFieldName_success (j : TableJoin) (fieldName : String)
    (h : j.handles fieldName = true) (h1 : j.columnPart fieldName ≠ "")
    (h2 : Strings.Contains (j.columnPart fieldName) singleQuote = false)
    (h3 : j.allowedColumns = [] ∨ j.columnPart fieldName ∈ j.allowedColumns)
    (h4 : j.columnPart fieldName ∉ j.disallowedColumns) :
    j.TranslateFieldName fieldName
      = ((j.tableAlias ++ "." ++ j.columnPart fieldName, none),
          { j.Activate with handledFields := j.handledFields ++ [j.columnPart fieldName] }) := by
  rw [TranslateFieldName_handled j fieldName h, if_neg h1, if_neg (by simp [h2])]
  rw [if_pos]
  rcases h3 with h3 | h3
  · simp [h3, h4]
  · simp [h3, h4]

/-- Trimming white space twice is trimming it once. -/
theorem TrimSpace_idempotent (s : String) :
    Strings.TrimSpace (Strings.TrimSpace s) = Strings.TrimSpace s := by
  have key : ∀ l : List Char,
      (((((l.dropWhile Strings.IsSpace).reverse.dropWhile Strings.IsSpace).reverse).dropWhile
        Strings.IsSpace).reverse.dropWhile Strings.IsSpace).reverse
      = ((l.dropWhile Strings.IsSpace).reverse.dropWhile Strings.IsSpace).reverse := by
    intro l
    have hm : (((l.dropWhile Strings.IsSpace).reverse.dropWhile Strings.IsSpace).reverse).dropWhile
        Strings.IsSpace
        = ((l.dropWhile Strings.IsSpace).reverse.dropWhile Strings.IsSpace).reverse := by
      have hpre : ((l.dropWhile Strings.IsSpace).reverse.dropWhile Strings.IsSpace).reverse
          <+: l.dropWhile Strings.IsSpace :=
        List.rdropWhile_prefix Strings.IsSpace (l.dropWhile Strings.IsSpace)
      cases hl : l.dropWhile Strings.IsSpace with
      | nil => simp
      | cons a l1 =>
          have ha : Strings.IsSpace a = false := by
            have := List.head_dropWhile_not Strings.IsSpace l (by simp [hl])
            simpa [hl] using this
          rw [hl] at hpre
          cases hmm : ((a :: l1).reverse.dropWhile Strings.IsSpace).reverse with
          | nil => rfl
          | cons b m1 =>
              rw [hmm] at hpre
              have hb : b = a := by
                obtain ⟨t, ht⟩ := hpre
                simp only [List.cons_append, List.cons.injEq] at ht
                exact ht.1
              subst hb
              simp [List.dropWhile_cons, ha]
    rw [hm, List.reverse_reverse, List.dropWhile_idempotent]
  unfold Strings.TrimSpace
  simp only [key]

/-- C38: when several prefix activators are prefixes of the field name,
`TranslateFieldName` strips the one that comes last in the activator list: if
the list is `pre ++ t :: post`, `t` is a prefix of the field name and no
activator of `post` is, then the stripped prefix is `t` and every successful
translation is the alias, a dot and the trimmed rest after `t`.  With
activators `a.`, `a.b.` the field `a.b.c` translates to `<alias>.c`, and with
`a.b.`, `a.` to `<alias>.b.c`. -/
theorem TranslateFieldName_strips_last_activator (j : TableJoin) (fieldName : String)
    (pre post : List String) (t : String)
    (hact : j.prefixActivators = pre ++ t :: post)
    (ht : Strings.HasPrefix fieldName t = true)
    (hpost : ∀ u ∈ post, Strings.HasPrefix fieldName u = false) :
    matchedPrefixLoop j.prefixActivators fieldName "" = t
    ∧ j.columnPart fieldName = Strings.TrimSpace (Strings.TrimPrefix fieldName t)
    ∧ (∀ translated, (j.TranslateFieldName fieldName).1 = (translated, none) →
        translated = j.tableAlias ++ "." ++ Strings.TrimSpace (Strings.TrimPrefix fieldName t))
    ∧ (∀ j2 : TableJoin, j2.prefixActivators = ["a.", "a.b."] → j2.allowedColumns = [] →
        j2.disallowedColumns = [] →
        (j2.TranslateFieldName "a.b.c").1 = (j2.tableAlias ++ ".c", none))
    ∧ (∀ j2 : TableJoin, j2.prefixActivators = ["a.b.", "a."] → j2.allowedColumns = [] →
        j2.disallowedColumns = [] →
        (j2.TranslateFieldName "a.b.c").1 = (j2.tableAlias ++ ".b.c", none)) := by
  have hpfx : matchedPrefixLoop j.prefixActivators fieldName "" = t := by
    rw [hact]
    exact matchedPrefixLoop_last pre post t fieldName ht hpost ""
  have hcol : j.columnPart fieldName = Strings.TrimSpace (Strings.TrimPrefix fieldName t) := by
    simp only [TableJoin.columnPart, hpfx]
  have hh : j.handles fieldName = true := by
    simp only [TableJoin.handles, TableJoin.HandlesFieldName, handlesFieldNameLoop_iff, hact]
    exact ⟨t, by simp, ht⟩
  refine ⟨hpfx, hcol, ?_, ?_, ?_⟩
  · intro translated htr
    rw [TranslateFieldName_handled j fieldName hh] at htr
    split at htr
    · simp at htr
    · split at htr
      · simp at htr
      · split at htr
        · simp only [Prod.mk.injEq, and_true] at htr
          rw [← htr, hcol]
        · simp at htr
  · intro j2 hacts hallow hdeny
    have hc : j2.columnPart "a.b.c" = "c" := by
      simp only [TableJoin.columnPart, hacts]
      decide
    have hh2 : j2.handles "a.b.c" = true := by
      simp only [TableJoin.handles, TableJoin.HandlesFieldName, hacts]
      decide
    rw [TranslateFieldName_success j2 "a.b.c" hh2 (by rw [hc]; decide) (by rw [hc]; decide)
      (Or.inl hallow) (by simp [hdeny]), hc]
    simp only [Prod.mk.injEq, and_true]
    apply String.ext
    simp [String.data_append]
  · intro j2 hacts hallow hdeny
    have hc : j2.columnPart "a.b.c" = "b.c" := by
      simp only [TableJoin.columnPart, hacts]
      decide
    have hh2 : j2.handles "a.b.c" = true := by
      simp only [TableJoin.handles, TableJoin.HandlesFieldName, hacts]
      decide
    rw [TranslateFieldName_success j2 "a.b.c" hh2 (by rw [hc]; decide) (by rw [hc]; decide)
      (Or.inl hallow) (by simp [hdeny]), hc]
    simp only [Prod.mk.injEq, and_true]
    apply String.ext
    simp [String.data_append]

/-- C38 on the join of the examples with the activators `a.`, `a.b.`: the
field `a.b.c` has both as prefixes and the later one, `a.b.`, is stripped. -/
theorem TranslateFieldName_strips_last_activator_witness :
    matchedPrefixLoop ["a.", "a.b."] "a.b.c" "" = "a.b."
    ∧ ({ sampleJoin with prefixActivators := ["a.", "a.b."] }.TranslateFieldName "a.b.c").1
      = ("iter.c", none)
    ∧ ({ sampleJoin with prefixActivators := ["a.b.", "a."] }.TranslateFieldName "a.b.c").1
      = ("iter.b.c", none) :=
  ⟨(TranslateFieldName_strips_last_activator
      { sampleJoin with prefixActivators := ["a.", "a.b."] } "a.b.c" ["a."] [] "a.b."
      rfl (by decide) (by simp)).1,
    (TranslateFieldName_strips_last_activator
      { sampleJoin with prefixActivators := ["a.", "a.b."] } "a.b.c" ["a."] [] "a.b."
      rfl (by decide) (by simp)).2.2.2.1 { sampleJoin with prefixActivators := ["a.", "a.b."] }
      rfl rfl rfl,
    (TranslateFieldName_strips_last_activator
      { sampleJoin with prefixActivators := ["a.b.", "a."] } "a.b.c" ["a.b."] [] "a."
      rfl (by decide) (by simp)).2.2.2.2 { sampleJoin with prefixActivators := ["a.b.", "a."] }
      rfl rfl rfl⟩

/-- What `TranslateFieldName` does to the join: the configuration is kept; a
call that returns an error keeps `handledFields`, and a call that returns no
error returns the alias, a dot and the column part, appends the column part
to `handledFields` and activates the join; the appended column part is not
empty, is trimmed, has no single quote and passes the allow and deny lists. -/
theorem TranslateFieldName_effect (j : TableJoin) (fieldName : String) :
    ((j.TranslateFieldName fieldName).2.tableName = j.tableName
      ∧ (j.TranslateFieldName fieldName).2.tableAlias = j.tableAlias
      ∧ (j.TranslateFieldName fieldName).2.onClause = j.onClause
      ∧ (j.TranslateFieldName fieldName).2.prefixActivators = j.prefixActivators
      ∧ (j.TranslateFieldName fieldName).2.allowedColumns = j.allowedColumns
      ∧ (j.TranslateFieldName fieldName).2.disallowedColumns = j.disallowedColumns)
    ∧ ((j.TranslateFieldName fieldName).1.2 ≠ none →
        (j.TranslateFieldName fieldName).2.handledFields = j.handledFields)
    ∧ ((j.TranslateFieldName fieldName).1.2 = none →
        (j.TranslateFieldName fieldName).1.1 = j.tableAlias ++ "." ++ j.columnPart fieldName
        ∧ (j.TranslateFieldName fieldName).2.handledFields
          = j.handledFields ++ [j.columnPart fieldName]
        ∧ (j.TranslateFieldName fieldName).2.active = true
        ∧ j.columnPart fieldName ≠ ""
        ∧ Strings.TrimSpace (j.columnPart fieldName) = j.columnPart fieldName
        ∧ Strings.Contains (j.columnPart fieldName) singleQuote = false
        ∧ (j.allowedColumns = [] ∨ j.columnPart fieldName ∈ j.allowedColumns)
        ∧ j.columnPart fieldName ∉ j.disallowedColumns) := by
  cases hh : j.handles fieldName with
  | false =>
      rw [TranslateFieldName_not_handled j fieldName hh]
      simp
  | true =>
      rw [TranslateFieldName_handled j fieldName hh]
      by_cases h1 : j.columnPart fieldName = ""
      · rw [if_pos h1]
        simp [TableJoin.Activate]
      · rw [if_neg h1]
        by_cases h2 : Strings.Contains (j.columnPart fieldName) singleQuote = true
        · rw [if_pos h2]
          simp [TableJoin.Activate]
        · rw [if_neg h2]
          by_cases h3 : ((j.allowedColumns.isEmpty
              || j.allowedColumns.contains (j.columnPart fieldName))
              && !j.disallowedColumns.contains (j.columnPart fieldName)) = true
          · rw [if_pos h3]
            have htrim : Strings.TrimSpace (j.columnPart fieldName) = j.columnPart fieldName := by
              unfold TableJoin.columnPart
              exact TrimSpace_idempotent _
            have h2' : Strings.Contains (j.columnPart fieldName) singleQuote = false := by
              simpa using h2
            have hallow : (j.allowedColumns = [] ∨ j.columnPart fieldName ∈ j.allowedColumns)
                ∧ j.columnPart fieldName ∉ j.disallowedColumns := by
              simpa [List.isEmpty_iff] using h3
            refine ⟨⟨rfl, rfl, rfl, rfl, rfl, rfl⟩, fun hne => absurd rfl hne, fun _ => ?_⟩
            exact ⟨rfl, rfl, rfl, h1, htrim, h2', hallow.1, hallow.2⟩
          · rw [if_neg h3]
            simp [TableJoin.Activate]

/-- A call keeps the properties of the recorded fields: every entry of
`handledFields` is not empty, is trimmed, has no single quote and passes the
allow and deny lists, and there are entries only when the join is active. -/
theorem JoinCall_run_handledFields (j : TableJoin) (c : JoinCall)
    (hentries : ∀ x ∈ j.handledFields,
      x ≠ "" ∧ Strings.TrimSpace x = x ∧ Strings.Contains x singleQuote = false
      ∧ (j.allowedColumns = [] ∨ x ∈ j.allowedColumns) ∧ x ∉ j.disallowedColumns)
    (hactive : j.handledFields ≠ [] → j.active = true) :
    (∀ x ∈ (JoinCall.run j c).handledFields,
      x ≠ "" ∧ Strings.TrimSpace x = x ∧ Strings.Contains x singleQuote = false
      ∧ ((JoinCall.run j c).allowedColumns = [] ∨ x ∈ (JoinCall.run j c).allowedColumns)
      ∧ x ∉ (JoinCall.run j c).disallowedColumns)
    ∧ ((JoinCall.run j c).handledFields ≠ [] → (JoinCall.run j c).active = true) := by
  cases c with
  | HandlesFieldName f => exact ⟨hentries, hactive⟩
  | TranslateFieldName f =>
      simp only [JoinCall.run]
      obtain ⟨⟨_, _, _, _, ha, hd⟩, hfail, hsucc⟩ := TranslateFieldName_effect j f
      rw [ha, hd]
      cases herr : (j.TranslateFieldName f).1.2 with
      | some e =>
          rw [hfail (by simp [herr])]
          refine ⟨hentries, fun hne => ?_⟩
          have hact := hactive hne
          have hrun := (JoinCall_run_spec j (JoinCall.TranslateFieldName f)).2
          simp only [JoinCall.run] at hrun
          exact hrun.2 (Or.inl hact)
      | none =>
          obtain ⟨_, hf, hact, h1, h2, h3, h4, h5⟩ := hsucc herr
          rw [hf]
          refine ⟨fun x hx => ?_, fun _ => hact⟩
          rcases List.mem_append.1 hx with hx | hx
          · exact hentries x hx
          · have hxe : x = j.columnPart f := by simpa using hx
            subst hxe
            exact ⟨h1, h2, h3, h4, h5⟩

/-- The state after a sequence of calls keeps the properties of the recorded
fields. -/
theorem runCalls_handledFields (calls : List JoinCall) :
    ∀ j : TableJoin,
      (∀ x ∈ j.handledFields,
        x ≠ "" ∧ Strings.TrimSpace x = x ∧ Strings.Contains x singleQuote = false
        ∧ (j.allowedColumns = [] ∨ x ∈ j.allowedColumns) ∧ x ∉ j.disallowedColumns) →
      (j.handledFields ≠ [] → j.active = true) →
      (∀ x ∈ (runCalls j calls).handledFields,
        x ≠ "" ∧ Strings.TrimSpace x = x ∧ Strings.Contains x singleQuote = false
        ∧ ((runCalls j calls).allowedColumns = [] ∨ x ∈ (runCalls j calls).allowedColumns)
        ∧ x ∉ (runCalls j calls).disallowedColumns)
      ∧ ((runCalls j calls).handledFields ≠ [] → (runCalls j calls).active = true) := by
  induction calls with
  | nil => intro j h1 h2; exact ⟨h1, h2⟩
  | cons c rest ih =>
      intro j h1 h2
      have hrun : runCalls j (c :: rest) = runCalls (JoinCall.run j c) rest := rfl
      rw [hrun]
      obtain ⟨g1, g2⟩ := JoinCall_run_handledFields j c h1 h2
      exact ih (JoinCall.run j c) g1 g2

/-- C39: every `TranslateFieldName` call leaves `tableName`, `tableAlias`,
`on`, `prefixActivators`, `allowedColumns` and `disallowedColumns` unchanged; a
successful call appends exactly one entry, the translated column, to the end of
`handledFields` and keeps the earlier entries in place; and in every state
reached from a join without handled fields (a fresh join) by calls of
`HandlesFieldName` and `TranslateFieldName`, each entry of `handledFields` is non-empty, has no
surrounding white space, contains no single quote and passes the allow and
deny lists, and `handledFields` is non-empty only if the join is active. -/
theorem TranslateFieldName_frame_and_handledFields (j0 : TableJoin)
    (hfresh : j0.handledFields = [])
    (calls : List JoinCall) (j : TableJoin) (fieldName : String) :
    ((j.TranslateFieldName fieldName).2.tableName = j.tableName
      ∧ (j.TranslateFieldName fieldName).2.tableAlias = j.tableAlias
      ∧ (j.TranslateFieldName fieldName).2.onClause = j.onClause
      ∧ (j.TranslateFieldName fieldName).2.prefixActivators = j.prefixActivators
      ∧ (j.TranslateFieldName fieldName).2.allowedColumns = j.allowedColumns
      ∧ (j.TranslateFieldName fieldName).2.disallowedColumns = j.disallowedColumns)
    ∧ ((j.TranslateFieldName fieldName).1.2 = none →
        (j.TranslateFieldName fieldName).1.1 = j.tableAlias ++ "." ++ j.columnPart fieldName
        ∧ (j.TranslateFieldName fieldName).2.handledFields
          = j.handledFields ++ [j.columnPart fieldName])
    ∧ (∀ x ∈ (runCalls j0 calls).handledFields,
        x ≠ "" ∧ Strings.TrimSpace x = x ∧ Strings.Contains x singleQuote = false
        ∧ ((runCalls j0 calls).allowedColumns = []
          ∨ x ∈ (runCalls j0 calls).allowedColumns)
        ∧ x ∉ (runCalls j0 calls).disallowedColumns)
    ∧ ((runCalls j0 calls).handledFields ≠ [] → (runCalls j0 calls).active = true) := by
  obtain ⟨hframe, _, hsucc⟩ := TranslateFieldName_effect j fieldName
  obtain ⟨g1, g2⟩ := runCalls_handledFields calls j0
    (by rw [hfresh]; intro x hx; exact absurd hx (List.not_mem_nil x))
    (by rw [hfresh]; intro hne; exact absurd rfl hne)
  exact ⟨hframe, fun h => ⟨(hsucc h).1, (hsucc h).2.1⟩, g1, g2⟩

/-- C39 on the join of the examples: two successful translations, one of them
of a padded column, with a `HandlesFieldName` call and a refused field name in
between. -/
theorem TranslateFieldName_frame_and_handledFields_witness :
    (runCalls sampleJoin
        [.TranslateFieldName "iteration.name", .HandlesFieldName "iteration.x",
         .TranslateFieldName "iteration.", .TranslateFieldName "iteration. id "]).handledFields
      = ["name", "id"]
    ∧ (runCalls sampleJoin
        [.TranslateFieldName "iteration.name", .HandlesFieldName "iteration.x",
         .TranslateFieldName "iteration.", .TranslateFieldName "iteration. id "]).active = true
    ∧ (sampleJoin.TranslateFieldName "iteration.name").2.handledFields
      = sampleJoin.handledFields ++ [sampleJoin.columnPart "iteration.name"]
    ∧ (sampleJoin.TranslateFieldName "iteration.name").2.onClause = sampleJoin.onClause :=
  ⟨by decide,
    (TranslateFieldName_frame_and_handledFields sampleJoin rfl
      [.TranslateFieldName "iteration.name", .HandlesFieldName "iteration.x",
       .TranslateFieldName "iteration.", .TranslateFieldName "iteration. id "]
      sampleJoin "iteration.name").2.2.2 (by decide),
    ((TranslateFieldName_frame_and_handledFields sampleJoin rfl []
      sampleJoin "iteration.name").2.1 (by decide)).2,
    (TranslateFieldName_frame_and_handledFields sampleJoin rfl []
      sampleJoin "iteration.name").1.2.2.1⟩

end Workitem
